import Mathlib

/-!
# LESS parser (clessc): a shallow embedding of `LessParser.cpp`

The functions of `src/src/LessParser.cpp` are translated one by one.  The parser is stateful
(tokenizer position, scope stack of the value processor, stylesheet under construction, registry
of parameter rulesets), so every function is a state transformer `State → Outcome α`.

The collaborators whose code is not part of the translated file (the CSS grammar productions of
`CssParser`, the value processor's substitution, `Selector::addPrefix`, the matching functions of
`ParameterRuleset`, the file system) are the fields of `Collab`; all general theorems hold for
every `Collab`.
-/

namespace Less

/-! ## Data model -/

/-- Token classes produced by the tokenizer (`Token::Type`). `EOS` is the type of the current
token once the input is exhausted. -/
inductive TokenType where
  | IDENTIFIER | ATKEYWORD | STRING | HASH | NUMBER | PERCENTAGE | DIMENSION | URL
  | UNICODE_RANGE | INCLUDES | DASHMATCH | COLON | DELIMITER
  | BRACKET_OPEN | BRACKET_CLOSED | PAREN_OPEN | PAREN_CLOSED
  | BRACE_OPEN | BRACE_CLOSED | WHITESPACE | COMMENT | OTHER | EOS
  deriving DecidableEq, Repr

/-- A classified lexical unit: type tag and string payload. -/
structure Token where
  type : TokenType
  str : String
  deriving DecidableEq, Repr

/-- Class `TokenList`: an ordered sequence of tokens. A `Selector` is a `TokenList`. -/
abbrev TokenList := List Token

/-- Class `Declaration`: property name and value. -/
structure Declaration where
  property : String
  value : TokenList
  deriving DecidableEq, Repr

/-- Class `Ruleset`: a selector and its declarations. A `ParameterRuleset` is a `Ruleset` built from
the selector handed to its constructor; its derived data (key, keywords, conditions) are
functions of that selector, see `Collab`. -/
structure Ruleset where
  selector : TokenList
  declarations : List Declaration
  deriving DecidableEq, Repr

/-- Class `AtRule`: keyword and raw rule tokens. -/
structure AtRule where
  keyword : String
  rule : TokenList
  deriving DecidableEq, Repr

/-- Class `ParseException(source, expected)`. -/
structure ParseException where
  source : String
  expected : String
  deriving DecidableEq, Repr

/-- One scope of the value processor: bindings, newest first; `none` is the NULL value. -/
abbrev Scope := List (String × Option TokenList)

/-- A `Ruleset*`: the rulesets of the stylesheet and the parameter rulesets of the registry are
mutable objects that the parser holds by pointer; a pointer is the position of the object in the
container that owns it. -/
inductive RulesetRef where
  | plain (i : Nat)
  | param (i : Nat)
  deriving DecidableEq, Repr

/-- Calls recorded in the trace of the state: the calls that change the value processor
(`pushScope`, `popScope`, `putVariable`), `importFile(filename)`, and
`mixin->addDeclarations(valueProcessor, parent)` for the parameter ruleset at position `mixin` of
the registry. -/
inductive Event where
  | pushScope
  | popScope
  | putVariable (key : String) (value : Option TokenList)
  | importFile (filename : String)
  | addDeclarations (mixin : Nat)
  deriving DecidableEq, Repr

/-- The mutable state reached by a `LessParser`: the tokenizer (current token = head of `tokens`),
the scope stack of `valueProcessor` (innermost first), the `Stylesheet` (rulesets and at-rules),
the member `parameterRulesets`, and a trace of the calls listed in `Event` (instrumentation: it is
written, never read). -/
structure State where
  tokens : List Token
  scopes : List Scope
  rulesets : List Ruleset
  atRules : List AtRule
  parameterRulesets : List Ruleset
  trace : List Event
  deriving DecidableEq, Repr

/-- How a call ends when it does not return: a thrown `ParseException` (with the state at the
throw), an access through a null pointer or to the last element of an empty list (undefined
behaviour in C++), or exhaustion of the fuel of the model. -/
inductive Abort where
  | raised (e : ParseException) (s : State)
  | fault (s : State)
  | outOfFuel
  deriving DecidableEq, Repr

/-- Result of a call: normal return with a value and the new state, or an `Abort`. -/
inductive Outcome (α : Type) where
  | ok (a : α) (s : State)
  | stop (r : Abort)
  deriving DecidableEq, Repr

/-- The collaborators of `LessParser` whose code is outside `LessParser.cpp`.

* `parseSelector`, `cssParseValue`, `parseAny`, `parseBlock`: productions of `CssParser`
  (declared in `CssParser.h`). `CssParser` has the tokenizer as its only member, so they are
  functions of the token stream; they may throw. `parseAny`/`parseBlock` append to the list given.
* `processValue`: `ValueProcessor::processValue`, reads the scope stack, may throw.
* `addPrefix s p`: the selector `s` after `s->addPrefix(p)`.
* `prSelector`, `getKeywords`, `matchArguments`, `putArguments`, `matchConditions`,
  `addDeclarations`: `ParameterRuleset`, as functions of the selector given to the constructor
  (and of the declarations for `addDeclarations`). `putArguments` returns its result and the
  bindings it puts, in order, with `putVariable`; `addDeclarations` returns the declarations it
  appends to the target.
* `readFile`: the tokens of the file with that name (`ifstream` + `LessTokenizer`), if it opens. -/
structure Collab where
  parseSelector : List Token → Except ParseException (Option TokenList × List Token)
  cssParseValue : List Token → Except ParseException (Option TokenList × List Token)
  parseAny : TokenList → List Token → Except ParseException (Bool × TokenList × List Token)
  parseBlock : TokenList → List Token → Except ParseException (Bool × TokenList × List Token)
  processValue : List Scope → TokenList → Except ParseException TokenList
  addPrefix : TokenList → TokenList → TokenList
  prSelector : TokenList → TokenList
  getKeywords : TokenList → List String
  matchArguments : TokenList → List TokenList → Bool
  putArguments : TokenList → List Scope → List TokenList → Bool × List (String × Option TokenList)
  matchConditions : TokenList → List Scope → Bool
  addDeclarations : Ruleset → List Scope → List Declaration
  readFile : String → Option (List Token)

/-! ## Tokenizer and value-processor primitives -/

/-- Result of `tokenizer->getTokenType()`. -/
def curType (st : State) : TokenType :=
  match st.tokens with
  | [] => .EOS
  | t :: _ => t.type

/-- Result of `tokenizer->getToken()->str`. -/
def curStr (st : State) : String :=
  match st.tokens with
  | [] => ""
  | t :: _ => t.str

/-- Effect of `tokenizer->readNextToken()`. -/
def readNextToken (st : State) : State :=
  { st with tokens := st.tokens.tail }

/-- Tokens skipped by `skipWhitespace`: whitespace and comments. -/
def isSpace (t : Token) : Bool :=
  decide (t.type = .WHITESPACE) || decide (t.type = .COMMENT)

/-- Modelled from the spec: `CssParser::skipWhitespace` ("Parse whitespace tokens and comments and
skip them", `CssParser.h`); its body is not in the translated file. -/
def skipWhitespace (st : State) : State :=
  { st with tokens := st.tokens.dropWhile isSpace }

/-- Record a call in the trace. -/
def logEvent (e : Event) (st : State) : State :=
  { st with trace := st.trace ++ [e] }

/-- Modelled from the spec: `ValueProcessor::pushScope` pushes an empty innermost scope. -/
def pushScope (st : State) : State :=
  { st with scopes := [] :: st.scopes, trace := st.trace ++ [.pushScope] }

/-- Modelled from the spec: `ValueProcessor::popScope` removes the innermost scope. -/
def popScope (st : State) : State :=
  { st with scopes := st.scopes.tail, trace := st.trace ++ [.popScope] }

/-- A binding added to the innermost scope of a scope stack (nothing to bind in if the stack is
empty). -/
def bindInnermost (key : String) (value : Option TokenList) : List Scope → List Scope
  | [] => []
  | sc :: rest => ((key, value) :: sc) :: rest

/-- Modelled from the spec: `ValueProcessor::putVariable` binds the name in the innermost scope
(the new binding shadows older ones; `none` is the NULL placeholder). -/
def putVariable (key : String) (value : Option TokenList) (st : State) : State :=
  { st with scopes := bindInnermost key value st.scopes,
            trace := st.trace ++ [.putVariable key value] }

/-- A sequence of `putVariable` calls, in list order. -/
def putVariables (bs : List (String × Option TokenList)) (st : State) : State :=
  bs.foldl (fun s b => putVariable b.1 b.2 s) st

/-- Modelled from the spec: `ValueProcessor` lookup, innermost scope first, first match wins. -/
def lookupVariable (scopes : List Scope) (key : String) : Option (Option TokenList) :=
  match scopes with
  | [] => none
  | sc :: rest =>
    match sc.find? (fun b => decide (b.1 = key)) with
    | some b => some b.2
    | none => lookupVariable rest key

/-! ## Stylesheet and ruleset primitives -/

/-- The object a `Ruleset*` points to. -/
def getRulesetAt (st : State) : RulesetRef → Option Ruleset
  | .plain i => st.rulesets.get? i
  | .param i => st.parameterRulesets.get? i

/-- Result of `ruleset->getSelector()`; for a parameter ruleset it is the selector derived by the
constructor (`Collab.prSelector`). -/
def getSelector (c : Collab) (st : State) : RulesetRef → TokenList
  | .plain i => match st.rulesets.get? i with
    | some r => r.selector
    | none => []
  | .param i => match st.parameterRulesets.get? i with
    | some r => c.prSelector r.selector
    | none => []

/-- Result of `ruleset->getDeclarations()`. -/
def getDeclarations (st : State) (r : RulesetRef) : List Declaration :=
  match getRulesetAt st r with
  | some rs => rs.declarations
  | none => []

/-- Effect of `Ruleset::addDeclaration`: append to the declarations of the object. -/
def addDeclTo (d : Declaration) (r : Ruleset) : Ruleset :=
  { r with declarations := r.declarations ++ [d] }

/-- Effect of `ruleset->addDeclaration(d)` on the state. -/
def addDeclaration (r : RulesetRef) (d : Declaration) (st : State) : State :=
  match r with
  | .plain i => { st with rulesets := st.rulesets.modify (addDeclTo d) i }
  | .param i => { st with parameterRulesets := st.parameterRulesets.modify (addDeclTo d) i }

/-- Several `addDeclaration` calls on the same target, in list order. -/
def addDeclarationList (r : RulesetRef) (ds : List Declaration) (st : State) : State :=
  ds.foldl (fun s d => addDeclaration r d s) st

/-- Modelled from the spec: `Stylesheet::addRuleset` appends to the stylesheet's rulesets. -/
def addRuleset (r : Ruleset) (st : State) : State :=
  { st with rulesets := st.rulesets ++ [r] }

/-- Effect of `parameterRulesets.push_back(pruleset)`. -/
def registerParameterRuleset (r : Ruleset) (st : State) : State :=
  { st with parameterRulesets := st.parameterRulesets ++ [r] }

/-- Modelled from the spec: `Stylesheet::addAtRule` appends to the stylesheet's at-rules. -/
def addAtRule (a : AtRule) (st : State) : State :=
  { st with atRules := st.atRules ++ [a] }

/-- Modelled from the spec: `Stylesheet::getRuleset(selector)`, first ruleset of the stylesheet
"whose selector exactly equals the call selector" (position in the stylesheet), or NULL. -/
def getRuleset (rs : List Ruleset) (selector : TokenList) : Option Nat :=
  match rs with
  | [] => none
  | r :: rest =>
    if r.selector = selector then some 0
    else (getRuleset rest selector).map (· + 1)

/-- Modelled from the spec: `TokenList::toString`, the strings of the tokens in sequence. -/
def tokensToString (l : TokenList) : String :=
  String.join (l.map (·.str))

/-- Lifting of a `CssParser` production on the token stream to the parser state. -/
def liftCss {α : Type} (r : Except ParseException (α × List Token)) (st : State) : Outcome α :=
  match r with
  | .error e => .stop (.raised e st)
  | .ok (a, toks) => .ok a { st with tokens := toks }

/-! ## `LessParser.cpp` -/

/-- Function `LessParser::parseValue`: `CssParser::parseValue`, then `processValue` on a non-null
value. -/
def parseValue (c : Collab) (st : State) : Outcome (Option TokenList) :=
  match liftCss (c.cssParseValue st.tokens) st with
  | .stop r => .stop r
  | .ok none st1 => .ok none st1
  | .ok (some value) st1 =>
    match c.processValue st1.scopes value with
    | .error e => .stop (.raised e st1)
    | .ok value1 => .ok (some value1) st1

/-- The part of `LessParser::parseVariable` after the keyword is known and the current token is
the colon: lines 92-108. -/
def parseVariableValue (c : Collab) (keyword : String) (st : State) : Outcome Bool :=
  match parseValue c (skipWhitespace (readNextToken st)) with
  | .stop r => .stop r
  | .ok rule st1 =>
    match rule with
    | none => .stop (.raised ⟨curStr st1, "value for variable"⟩ st1)
    | some [] => .stop (.raised ⟨curStr st1, "value for variable"⟩ st1)
    | some (t :: ts) =>
      if curType st1 ≠ .DELIMITER then
        .stop (.raised ⟨curStr st1, "delimiter (\x27;\x27) at end of @-rule"⟩ st1)
      else
        .ok true (skipWhitespace (readNextToken (putVariable keyword (some (t :: ts)) st1)))

/-- Function `LessParser::parseVariable(keyword)`; the default argument is the empty string. -/
def parseVariable (c : Collab) (keyword : String) (st : State) : Outcome Bool :=
  if keyword = "" then
    if curType st ≠ .ATKEYWORD then .ok false st
    else
      let st1 := skipWhitespace (readNextToken st)
      if curType st1 ≠ .COLON then
        .stop (.raised
          ⟨curStr st1, "colon (\x27:\x27) following @keyword in variable declaration."⟩ st1)
      else parseVariableValue c (curStr st) st1
  else if curType st ≠ .COLON then .ok false st
  else parseVariableValue c keyword st

/-- First loop of `processParameterMixin` (lines 304-309): the tokens before the first
`PAREN_OPEN` (the key), and the tokens left in the iterator after that parenthesis. -/
def splitKey : List Token → TokenList × List Token
  | [] => ([], [])
  | t :: ts =>
    if t.type = .PAREN_OPEN then ([], ts)
    else ((t :: (splitKey ts).1), (splitKey ts).2)

/-- Second loop of `processParameterMixin` (lines 312-314) on the reversed key: pop while the last
token is whitespace. `none`: `key.back()` is evaluated on an empty list. -/
def trimKeyRev : List Token → Option TokenList
  | [] => none
  | t :: ts => if t.type = .WHITESPACE then trimKeyRev ts else some (t :: ts).reverse

/-- The key after the trailing whitespace is deleted. -/
def trimKey (key : TokenList) : Option TokenList :=
  trimKeyRev key.reverse

/-- Separator test of the argument loop (line 321-323). -/
def isArgEnd (t : Token) : Bool :=
  decide (t.str = ",") || decide (t.str = ";") || decide (t.type = .PAREN_CLOSED)

/-- Inner loop of the argument loop (lines 319-326): one argument and the tokens left. -/
def readArgument : List Token → TokenList × List Token
  | [] => ([], [])
  | t :: ts =>
    if isArgEnd t then ([], ts)
    else ((t :: (readArgument ts).1), (readArgument ts).2)

/-- Outer loop of the argument loop (lines 316-329), before `processValue`: the raw arguments.
Every iteration consumes a token, so `fuel` = number of tokens is enough. -/
def readArguments : Nat → List Token → List TokenList
  | 0, _ => []
  | _ + 1, [] => []
  | fuel + 1, t :: ts =>
    (readArgument (t :: ts)).1 :: readArguments fuel (readArgument (t :: ts)).2

/-- Call of `processValue` on each argument, in order (line 327); the first exception is thrown. -/
def processArguments (c : Collab) (scopes : List Scope) :
    List TokenList → Except ParseException (List TokenList)
  | [] => .ok []
  | a :: as =>
    match c.processValue scopes a with
    | .error e => .error e
    | .ok a1 =>
      match processArguments c scopes as with
      | .error e => .error e
      | .ok as1 => .ok (a1 :: as1)

/-- Lines 339-348 of `processParameterMixin`, for the parameter ruleset `mixin` at position `i`
of the registry, whose key and arguments match: push a scope, bind the arguments, and if the
binding and the conditions succeed add the declarations to `parent`; pop the scope. The result is
the new value of `ret`. -/
def tryMixin (c : Collab) (arguments : List TokenList) (parent : RulesetRef) (i : Nat)
    (mixin : Ruleset) (ret : Bool) (st : State) : Bool × State :=
  let st1 := pushScope st
  let st2 := putVariables (c.putArguments mixin.selector st1.scopes arguments).2 st1
  if (c.putArguments mixin.selector st1.scopes arguments).1 = true ∧
      c.matchConditions mixin.selector st2.scopes = true then
    (true, popScope (addDeclarationList parent (c.addDeclarations mixin st2.scopes)
      (logEvent (.addDeclarations i) st2)))
  else (ret, popScope st2)

/-- The registry loop of `processParameterMixin` (lines 333-350): `n` rulesets remain, the next
one is at position `i`. -/
def matchLoop (c : Collab) (key : TokenList) (arguments : List TokenList) (parent : RulesetRef) :
    Nat → Nat → Bool → State → Bool × State
  | 0, _, ret, st => (ret, st)
  | n + 1, i, ret, st =>
    match st.parameterRulesets.get? i with
    | none => (ret, st)
    | some mixin =>
      if c.prSelector mixin.selector = key ∧ c.matchArguments mixin.selector arguments = true then
        matchLoop c key arguments parent n (i + 1)
          (tryMixin c arguments parent i mixin ret st).1
          (tryMixin c arguments parent i mixin ret st).2
      else matchLoop c key arguments parent n (i + 1) ret st

/-- The key of a call selector (lines 304-314): the tokens before the first `PAREN_OPEN`, without
trailing whitespace. `none`: `key.back()` is evaluated on an empty list. -/
def callKey (selector : TokenList) : Option TokenList :=
  trimKey (splitKey selector).1

/-- The argument list of a call selector (lines 316-329), each argument processed. -/
def callArguments (c : Collab) (scopes : List Scope) (selector : TokenList) :
    Except ParseException (List TokenList) :=
  processArguments c scopes (readArguments (splitKey selector).2.length (splitKey selector).2)

/-- Function `LessParser::processParameterMixin`. -/
def processParameterMixin (c : Collab) (selector : TokenList) (parent : RulesetRef)
    (st : State) : Outcome Bool :=
  match callKey selector with
  | none => .stop (.fault st)
  | some key =>
    match callArguments c st.scopes selector with
    | .error e => .stop (.raised e st)
    | .ok arguments =>
      .ok (matchLoop c key arguments parent st.parameterRulesets.length 0 false st).1
        (matchLoop c key arguments parent st.parameterRulesets.length 0 false st).2

/-- The copy loop of `parseMixin` (lines 281-283): `it` is at position `i` of the declarations of
`mixin`; `declarations->end()` is read again at every iteration. -/
def copyDeclarations (mixin target : RulesetRef) : Nat → Nat → State → Outcome Unit
  | 0, _, _ => .stop .outOfFuel
  | fuel + 1, i, st =>
    match (getDeclarations st mixin).get? i with
    | none => .ok () st
    | some d => copyDeclarations mixin target fuel (i + 1) (addDeclaration target d st)

/-- Function `LessParser::parseMixin`. -/
def parseMixin (c : Collab) (fuel : Nat) (selector : TokenList) (ruleset : RulesetRef)
    (st : State) : Outcome Bool :=
  match processParameterMixin c selector ruleset st with
  | .stop r => .stop r
  | .ok ret st1 =>
    match getRuleset st1.rulesets selector with
    | some m =>
      match copyDeclarations (.plain m) ruleset fuel 0 st1 with
      | .stop r => .stop r
      | .ok _ st2 => .ok true st2
    | none => .ok ret st1

/-- Lines 131-149 of `parseRuleset`: push the scope of the ruleset, then create the ruleset from
the selector. A selector that does not end in `PAREN_CLOSED` gives a `Ruleset` added to the
stylesheet; otherwise a `ParameterRuleset` is pushed on the registry and each of its keywords is
bound to NULL. `none`: `selector->back()` is evaluated on a null or empty selector. -/
def openRuleset (c : Collab) (selector : Option TokenList) (st : State) :
    Option (RulesetRef × State) :=
  match selector with
  | none => none
  | some sel =>
    match sel.getLast? with
    | none => none
    | some last =>
      if last.type ≠ .PAREN_CLOSED then
        some (.plain (pushScope st).rulesets.length, addRuleset ⟨sel, []⟩ (pushScope st))
      else
        some (.param (pushScope st).parameterRulesets.length,
          putVariables ((c.getKeywords sel).map (fun k => (k, none)))
            (registerParameterRuleset ⟨sel, []⟩ (pushScope st)))

/-- Lines 154-164 of `parseRuleset`: pop the scope, then expect the closing bracket. -/
def closeRuleset (st : State) : Outcome Bool :=
  if curType (popScope st) ≠ .BRACKET_CLOSED then
    .stop (.raised ⟨curStr (popScope st), "end of declaration block (\x27\x7d\x27)"⟩
      (popScope st))
  else .ok true (skipWhitespace (readNextToken (popScope st)))

/-- Lines 198-221 of `parseRulesetStatement` up to the recursive call: the statement is a
declaration whose property is the first token of the selector; the rest of the selector, followed
by the value parsed by `CssParser::parseValue`, is processed and becomes the value. -/
def parseDeclarationRest (c : Collab) (property : String) (rest : TokenList)
    (ruleset : RulesetRef) (st : State) : Outcome Unit :=
  match liftCss (c.cssParseValue st.tokens) st with
  | .stop r => .stop r
  | .ok value st1 =>
    match c.processValue st1.scopes (rest ++ value.getD []) with
    | .error e => .stop (.raised e st1)
    | .ok v => .ok () (addDeclaration ruleset ⟨property, v⟩ st1)

/-- Lines 118-151 of `parseRuleset`, up to the call that parses the body: the selector (parsed
unless it is given), the opening bracket, the new scope and the new ruleset. The result is the
ruleset whose body is to be parsed, or `none` when `parseRuleset` returns false. -/
def parseRulesetHead (c : Collab) (selector : Option TokenList) (st : State) :
    Outcome (Option RulesetRef) :=
  match (match selector with
      | none => liftCss (c.parseSelector st.tokens) st
      | some s => .ok (some s) st) with
  | .stop r => .stop r
  | .ok selector1 st1 =>
    if curType st1 ≠ .BRACKET_OPEN then
      match selector1 with
      | none => .ok none st1
      | some _ =>
        .stop (.raised ⟨curStr st1, "a declaration block (\x27\x7b...\x7d\x27)"⟩ st1)
    else
      match openRuleset c selector1 (readNextToken st1) with
      | none => .stop (.fault (pushScope (readNextToken st1)))
      | some (ruleset, st2) => .ok (some ruleset) (skipWhitespace st2)

mutual

/-- Function `LessParser::parseRuleset(stylesheet, selector)`; `selector = none` is the NULL
default. -/
def parseRuleset (c : Collab) : Nat → Option TokenList → State → Outcome Bool
  | 0, _, _ => .stop .outOfFuel
  | fuel + 1, selector, st =>
    match parseRulesetHead c selector st with
    | .stop r => .stop r
    | .ok none st1 => .ok false st1
    | .ok (some ruleset) st2 =>
      match parseRulesetStatement c fuel ruleset st2 with
      | .stop r => .stop r
      | .ok _ st3 => closeRuleset st3

/-- Function `LessParser::parseRulesetStatement(stylesheet, ruleset)`. -/
def parseRulesetStatement (c : Collab) : Nat → RulesetRef → State → Outcome Bool
  | 0, _, _ => .stop .outOfFuel
  | fuel + 1, ruleset, st =>
    match liftCss (c.parseSelector st.tokens) st with
    | .stop r => .stop r
    | .ok none st1 =>
      match parseVariable c "" st1 with
      | .stop r => .stop r
      | .ok false st2 => .ok false st2
      | .ok true st2 =>
        match parseRulesetStatement c fuel ruleset st2 with
        | .stop r => .stop r
        | .ok _ st3 => .ok true st3
    | .ok (some selector) st1 =>
      match parseNestedRule c fuel selector ruleset st1 with
      | .stop r => .stop r
      | .ok true st2 =>
        match parseRulesetStatement c fuel ruleset st2 with
        | .stop r => .stop r
        | .ok _ st3 => .ok true st3
      | .ok false st2 =>
        match parseMixin c fuel selector ruleset st2 with
        | .stop r => .stop r
        | .ok true st3 =>
          if curType st3 = .DELIMITER then
            match parseRulesetStatement c fuel ruleset (skipWhitespace (readNextToken st3)) with
            | .stop r => .stop r
            | .ok _ st4 => .ok true st4
          else .ok true st3
        | .ok false st3 =>
          match selector with
          | t0 :: t1 :: rest =>
            if t0.type = .IDENTIFIER ∧ t1.type = .COLON then
              match parseDeclarationRest c t0.str rest ruleset st3 with
              | .stop r => .stop r
              | .ok _ st4 =>
                if curType st4 = .DELIMITER then
                  match parseRulesetStatement c fuel ruleset
                      (skipWhitespace (readNextToken st4)) with
                  | .stop r => .stop r
                  | .ok _ st5 => .ok true st5
                else .ok true st4
            else
              .stop (.raised ⟨tokensToString selector, "a mixin that has been defined"⟩ st3)
          | _ =>
            .stop (.raised ⟨tokensToString selector, "a mixin that has been defined"⟩ st3)

/-- Function `LessParser::parseNestedRule(selector, ruleset, stylesheet)`. -/
def parseNestedRule (c : Collab) : Nat → TokenList → RulesetRef → State → Outcome Bool
  | 0, _, _, _ => .stop .outOfFuel
  | fuel + 1, selector, ruleset, st =>
    if curType st ≠ .BRACKET_OPEN then .ok false st
    else
      match parseRuleset c fuel (some (c.addPrefix selector (getSelector c st ruleset))) st with
      | .stop r => .stop r
      | .ok _ st1 => .ok true st1

end

/-- Function `std::string::substr(pos, n)` on the characters of a string. -/
def substr (s : String) (pos n : Nat) : String :=
  String.mk ((s.data.drop pos).take n)

/-- The test of lines 59-60 negated: the quoted path ends in `.css`. -/
def isCssImport (s : String) : Bool :=
  !(decide (s.length < 5) || decide (substr s (s.length - 5) 4 ≠ ".css"))

/-- Lines 61-64: the file name passed to `importFile`. `.less` is inserted before the closing
quote unless the quoted path ends in `.less`, then the quotes are removed. `none`: `insert` at
position `size() - 1` of an empty string (out of range). -/
def importFileName (s : String) : Option String :=
  if s.length < 6 ∨ substr s (s.length - 6) 5 ≠ ".less" then
    if s.length = 0 then none
    else
      some (substr (String.mk (s.data.take (s.length - 1) ++ ".less".data ++
        s.data.drop (s.length - 1))) 1 (s.length + 5 - 2))
  else some (substr s 1 (s.length - 2))

/-- The loop `while(parseAny(rule)) \x7b\x7d` of line 42. -/
def parseAnyLoop (c : Collab) : Nat → TokenList → State → Outcome TokenList
  | 0, _, _ => .stop .outOfFuel
  | fuel + 1, rule, st =>
    match c.parseAny rule st.tokens with
    | .error e => .stop (.raised e st)
    | .ok (true, rule1, toks) => parseAnyLoop c fuel rule1 { st with tokens := toks }
    | .ok (false, rule1, toks) => .ok rule1 { st with tokens := toks }

/-- Lines 41-51 of `parseAtRuleOrVariable`: the rule tokens of an at-rule, ended by a block or by
a delimiter. -/
def parseAtRuleBody (c : Collab) (fuel : Nat) (st : State) : Outcome TokenList :=
  match parseAnyLoop c fuel [] st with
  | .stop r => .stop r
  | .ok rule st1 =>
    match c.parseBlock rule st1.tokens with
    | .error e => .stop (.raised e st1)
    | .ok (true, rule1, toks) => .ok rule1 { st1 with tokens := toks }
    | .ok (false, rule1, toks) =>
      if curType { st1 with tokens := toks } ≠ .DELIMITER then
        .stop (.raised ⟨curStr { st1 with tokens := toks },
          "delimiter (\x27;\x27) at end of @-rule"⟩ { st1 with tokens := toks })
      else .ok rule1 (skipWhitespace (readNextToken { st1 with tokens := toks }))

mutual

/-- Function `LessParser::parseAtRuleOrVariable(stylesheet)`. -/
def parseAtRuleOrVariable (c : Collab) : Nat → State → Outcome Bool
  | 0, _ => .stop .outOfFuel
  | fuel + 1, st =>
    if curType st ≠ .ATKEYWORD then .ok false st
    else
      match parseVariable c (curStr st) (skipWhitespace (readNextToken st)) with
      | .stop r => .stop r
      | .ok true st1 => .ok true st1
      | .ok false st1 =>
        match parseAtRuleBody c fuel st1 with
        | .stop r => .stop r
        | .ok rule st2 =>
          if curStr st = "@import" then
            match rule with
            | [t] =>
              if t.type ≠ .STRING then
                .stop (.raised ⟨tokensToString rule, "A string with the file path"⟩ st2)
              else if isCssImport t.str then .ok true (addAtRule ⟨curStr st, rule⟩ st2)
              else
                match importFileName t.str with
                | none => .stop (.fault st2)
                | some filename =>
                  match importFile c fuel filename st2 with
                  | .stop r => .stop r
                  | .ok _ st3 => .ok true st3
            | _ => .stop (.raised ⟨tokensToString rule, "A string with the file path"⟩ st2)
          else .ok true (addAtRule ⟨curStr st, rule⟩ st2)

/-- Function `LessParser::parseStatement(stylesheet)`. -/
def parseStatement (c : Collab) : Nat → State → Outcome Bool
  | 0, _ => .stop .outOfFuel
  | fuel + 1, st =>
    match parseRuleset c fuel none st with
    | .stop r => .stop r
    | .ok true st1 => .ok true st1
    | .ok false st1 => parseAtRuleOrVariable c fuel st1

/-- The statement loop of `parseStylesheet`. -/
def parseStatements (c : Collab) : Nat → State → Outcome Unit
  | 0, _ => .stop .outOfFuel
  | fuel + 1, st =>
    match parseStatement c fuel st with
    | .stop r => .stop r
    | .ok false st1 => .ok () st1
    | .ok true st1 => parseStatements c fuel (skipWhitespace st1)

/-- Modelled from the spec: `parseStylesheet(stylesheet)`, whose body is not in the translated
file: `stylesheet := ( statement )* EOF` (section 4.1); input left after the last statement is a
`ParseException`. -/
def parseStylesheet (c : Collab) : Nat → State → Outcome Unit
  | 0, _ => .stop .outOfFuel
  | fuel + 1, st =>
    match parseStatements c fuel (skipWhitespace st) with
    | .stop r => .stop r
    | .ok _ st1 =>
      if curType st1 ≠ .EOS then .stop (.raised ⟨curStr st1, "end of input"⟩ st1)
      else .ok () st1

/-- Function `LessParser::importFile(filename, stylesheet)`. The call is recorded in the trace.
A file that does not open is a `ParseException`. The new `LessParser` parses the tokens of the
file into the same stylesheet; modelled from the spec (the class declaration is not in the
translated files): it shares the registry of parameter rulesets (section 5) and has a scope
stack of its own, made of the implicit top scope of the file (section 4.2). The tokenizer and
the scope stack of the parser that imports are untouched. -/
def importFile (c : Collab) : Nat → String → State → Outcome Unit
  | 0, _, _ => .stop .outOfFuel
  | fuel + 1, filename, st =>
    match c.readFile filename with
    | none => .stop (.raised ⟨filename, "existing file"⟩ (logEvent (.importFile filename) st))
    | some toks =>
      match parseStylesheet c fuel
          { logEvent (.importFile filename) st with tokens := toks, scopes := [[]] } with
      | .stop r => .stop r
      | .ok _ st1 => .ok () { st1 with tokens := st.tokens, scopes := st.scopes }

end

/-- The state in which a `LessParser` starts on the given tokens: empty stylesheet, empty
registry, and the implicit top scope of the file. -/
def initialState (toks : List Token) : State :=
  ⟨toks, [[]], [], [], [], []⟩

/-! ## A concrete instance of the collaborators

Used to run the parser on concrete token streams. The general theorems do not depend on it. -/

namespace Css

/-- Modelled from the spec: `CssParser::parseWhitespace` ("Parse whitespace tokens and add them to
the tokens argument. Comments are skipped", `CssParser.h`). -/
def parseWhitespace : TokenList → List Token → TokenList × List Token
  | acc, [] => (acc, [])
  | acc, t :: ts =>
    if t.type = .WHITESPACE then parseWhitespace (acc ++ [t]) ts
    else if t.type = .COMMENT then parseWhitespace acc ts
    else (acc, t :: ts)

/-- Token types that are an `any` by themselves (grammar of `CssParser.h`). -/
def isSimpleAny (ty : TokenType) : Bool :=
  match ty with
  | .IDENTIFIER | .NUMBER | .PERCENTAGE | .DIMENSION | .STRING | .URL | .HASH
  | .UNICODE_RANGE | .INCLUDES | .DASHMATCH | .COLON | .OTHER => true
  | _ => false

/-- Modelled from the spec: the productions `any`, `unused` and `block` of the grammar in
`CssParser.h` (section 4.1), whose bodies are not in the translated files. `parseItems k` parses
`[any | unused]*` (`k = 0`, inside parentheses or braces) or `[any | unused | block]*` (`k = 1`,
inside a block, where `unused` already contains `block`), up to the closer. The result is the
extended token list and the rest of the stream; an unterminated construct throws. -/
def parseItems : Nat → TokenType → TokenList → List Token →
    Except ParseException (TokenList × List Token)
  | 0, _, _, _ => .error ⟨"", "more fuel"⟩
  | fuel + 1, closer, acc, toks =>
    match toks with
    | [] => .error ⟨"", "closing token"⟩
    | t :: ts =>
      if t.type = closer then .ok (acc ++ [t], ts)
      else if isSimpleAny t.type ∨ t.type = .ATKEYWORD ∨ t.type = .DELIMITER then
        parseItems fuel closer (parseWhitespace (acc ++ [t]) ts).1 (parseWhitespace (acc ++ [t]) ts).2
      else
        match (match t.type with
            | .PAREN_OPEN => some TokenType.PAREN_CLOSED
            | .BRACE_OPEN => some TokenType.BRACE_CLOSED
            | .BRACKET_OPEN => some TokenType.BRACKET_CLOSED
            | _ => none) with
        | none => .error ⟨t.str, "closing token"⟩
        | some inner =>
          match parseItems fuel inner (parseWhitespace (acc ++ [t]) ts).1
              (parseWhitespace (acc ++ [t]) ts).2 with
          | .error e => .error e
          | .ok (acc1, rest) =>
            parseItems fuel closer (parseWhitespace acc1 rest).1 (parseWhitespace acc1 rest).2

/-- Modelled from the spec: `CssParser::parseAny(tokens)`, see `CssParser.h`. -/
def parseAny (acc : TokenList) (toks : List Token) :
    Except ParseException (Bool × TokenList × List Token) :=
  match toks with
  | [] => .ok (false, acc, [])
  | t :: ts =>
    if isSimpleAny t.type then
      .ok (true, (parseWhitespace (acc ++ [t]) ts).1, (parseWhitespace (acc ++ [t]) ts).2)
    else
      match (match t.type with
          | .PAREN_OPEN => some TokenType.PAREN_CLOSED
          | .BRACE_OPEN => some TokenType.BRACE_CLOSED
          | _ => none) with
      | none => .ok (false, acc, t :: ts)
      | some inner =>
        match parseItems (ts.length + 1) inner (parseWhitespace (acc ++ [t]) ts).1
            (parseWhitespace (acc ++ [t]) ts).2 with
        | .error e => .error e
        | .ok (acc1, rest) => .ok (true, (parseWhitespace acc1 rest).1, (parseWhitespace acc1 rest).2)

/-- Modelled from the spec: `CssParser::parseBlock(tokens)`, see `CssParser.h`. -/
def parseBlock (acc : TokenList) (toks : List Token) :
    Except ParseException (Bool × TokenList × List Token) :=
  match toks with
  | [] => .ok (false, acc, [])
  | t :: ts =>
    if t.type = .BRACKET_OPEN then
      match parseItems (ts.length + 1) .BRACKET_CLOSED (parseWhitespace (acc ++ [t]) ts).1
          (parseWhitespace (acc ++ [t]) ts).2 with
      | .error e => .error e
      | .ok (acc1, rest) => .ok (true, acc1, (parseWhitespace [] rest).2)
    else .ok (false, acc, t :: ts)

/-- The loop `any+` of a selector; every successful `parseAny` consumes a token. -/
def parseAnys : Nat → TokenList → List Token → Except ParseException (TokenList × List Token)
  | 0, acc, toks => .ok (acc, toks)
  | fuel + 1, acc, toks =>
    match parseAny acc toks with
    | .error e => .error e
    | .ok (false, acc1, rest) => .ok (acc1, rest)
    | .ok (true, acc1, rest) => parseAnys fuel acc1 rest

/-- Removal of the whitespace tokens that end a token list. -/
def dropTrailingWhitespace (l : TokenList) : TokenList :=
  (l.reverse.dropWhile (fun t => decide (t.type = .WHITESPACE))).reverse

/-- Modelled from the spec: `CssParser::parseSelector` (`selector : any+`; NULL if no selector
was found). The whitespace that ends the selector is not part of it: the selector read from
`.b \x7b` is `.b`, which combines to `.a .b` (section 8). -/
def parseSelector (toks : List Token) : Except ParseException (Option TokenList × List Token) :=
  match parseAnys (toks.length + 1) [] toks with
  | .error e => .error e
  | .ok ([], rest) => .ok (none, rest)
  | .ok (t :: ts, rest) => .ok (some (dropTrailingWhitespace (t :: ts)), rest)

/-- The loop of `value : [ any | block | ATKEYWORD S* ]+`. -/
def parseValueItems : Nat → TokenList → List Token → Except ParseException (TokenList × List Token)
  | 0, acc, toks => .ok (acc, toks)
  | fuel + 1, acc, toks =>
    match toks with
    | [] => .ok (acc, [])
    | t :: ts =>
      if t.type = .ATKEYWORD then
        parseValueItems fuel (parseWhitespace (acc ++ [t]) ts).1 (parseWhitespace (acc ++ [t]) ts).2
      else
        match parseAny acc (t :: ts) with
        | .error e => .error e
        | .ok (true, acc1, rest) => parseValueItems fuel acc1 rest
        | .ok (false, _, _) =>
          match parseBlock acc (t :: ts) with
          | .error e => .error e
          | .ok (true, acc1, rest) => parseValueItems fuel acc1 rest
          | .ok (false, acc1, rest) => .ok (acc1, rest)

/-- Modelled from the spec: `CssParser::parseValue` (NULL if no value could be found). -/
def parseValue (toks : List Token) : Except ParseException (Option TokenList × List Token) :=
  match parseValueItems (toks.length + 1) [] toks with
  | .error e => .error e
  | .ok ([], rest) => .ok (none, rest)
  | .ok (t :: ts, rest) => .ok (some (dropTrailingWhitespace (t :: ts)), rest)

end Css

/-- Modelled from the spec: `ValueProcessor::processValue`, "substitution of variable references
inside a token list": an at-keyword bound to a value (innermost scope first) is replaced by the
tokens of the value; an at-keyword bound to the NULL placeholder, or not bound, is left in place. -/
def substitute (scopes : List Scope) : TokenList → TokenList
  | [] => []
  | t :: ts =>
    if t.type = .ATKEYWORD then
      match lookupVariable scopes t.str with
      | some (some v) => v ++ substitute scopes ts
      | _ => t :: substitute scopes ts
    else t :: substitute scopes ts

/-- Modelled from the spec: `Selector::addPrefix`, "parent selector `.a` and nested selector `.b`
combine to `.a .b`" (section 4.4): the enclosing selector, a space, the nested selector. -/
def addPrefixSpace (selector enclosing : TokenList) : TokenList :=
  enclosing ++ [⟨.WHITESPACE, " "⟩] ++ selector

/-- Modelled from the spec: the data that the constructor of `ParameterRuleset` reads from the
selector, "formal parameter names (and optional default values)" written between the parentheses
(section 3): for each parameter its keyword and its default value, if any. -/
def formalParameters (selector : TokenList) : List (String × Option TokenList) :=
  ((readArguments (splitKey selector).2.length (splitKey selector).2).filterMap
    (fun a => match a.filter (fun t => !isSpace t) with
      | [] => none
      | k :: rest => some (k.str, match rest with
        | [] => none
        | _ :: v => some v)))

/-- Modelled from the spec: positional binding of the call arguments to the formal parameters
(section 4.3); a formal without argument takes its default, and the binding fails when it has
none or when there are arguments left over. -/
def bindArguments : List (String × Option TokenList) → List TokenList →
    Bool × List (String × Option TokenList)
  | [], [] => (true, [])
  | [], _ :: _ => (false, [])
  | (k, some d) :: ps, [] => ((bindArguments ps []).1, (k, some d) :: (bindArguments ps []).2)
  | (_, none) :: _, [] => (false, [])
  | (k, _) :: ps, a :: as => ((bindArguments ps as).1, (k, some a) :: (bindArguments ps as).2)

/-- A concrete choice of the collaborators, modelled from the spec: the CSS grammar of
`CssParser.h`, variable substitution, prefixing with a space, parameter rulesets with positional
parameters and no guard, and an empty file system. -/
def specCollab : Collab where
  parseSelector := Css.parseSelector
  cssParseValue := Css.parseValue
  parseAny := Css.parseAny
  parseBlock := Css.parseBlock
  processValue := fun scopes v => .ok (substitute scopes v)
  addPrefix := addPrefixSpace
  prSelector := fun sel => (trimKey (splitKey sel).1).getD []
  getKeywords := fun sel => (formalParameters sel).map (·.1)
  matchArguments := fun sel args => (bindArguments (formalParameters sel) args).1
  putArguments := fun sel _ args => bindArguments (formalParameters sel) args
  matchConditions := fun _ _ => true
  addDeclarations := fun mixin scopes =>
    mixin.declarations.map (fun d => ⟨d.property, substitute scopes d.value⟩)
  readFile := fun _ => none

/-! ## Specification functions for the registry loop -/

/-- The first test of the registry loop (lines 337-338) for a registered parameter ruleset built
from `sel`: its selector equals the call key and `matchArguments` accepts the arguments. -/
def keyArgsMatch (c : Collab) (key : TokenList) (args : List TokenList) (sel : TokenList) : Bool :=
  decide (c.prSelector sel = key) && c.matchArguments sel args

/-- The scope stack after `putArguments` has bound the arguments in a scope pushed on `scopes`. -/
def boundScopes (c : Collab) (args : List TokenList) (scopes : List Scope) (sel : TokenList) :
    List Scope :=
  (c.putArguments sel ([] :: scopes) args).2.foldl (fun s b => bindInnermost b.1 b.2 s)
    ([] :: scopes)

/-- The second test (lines 342-343): `putArguments` and `matchConditions` both succeed. -/
def guardPasses (c : Collab) (args : List TokenList) (scopes : List Scope) (sel : TokenList) :
    Bool :=
  (c.putArguments sel ([] :: scopes) args).1 &&
    c.matchConditions sel (boundScopes c args scopes sel)

/-- A registered parameter ruleset expands at a call: both tests succeed. -/
def fires (c : Collab) (key : TokenList) (args : List TokenList) (scopes : List Scope)
    (sel : TokenList) : Bool :=
  keyArgsMatch c key args sel && guardPasses c args scopes sel

/-- The calls expected from one iteration of the registry loop, for the ruleset at position `i`
built from `sel`: nothing if key or arguments do not match; otherwise one `pushScope`, the
bindings of `putArguments`, `addDeclarations` if the guard passes, one `popScope`. -/
def attemptEvents (c : Collab) (key : TokenList) (args : List TokenList) (scopes : List Scope)
    (i : Nat) (sel : TokenList) : List Event :=
  if keyArgsMatch c key args sel = true then
    [Event.pushScope] ++
      (c.putArguments sel ([] :: scopes) args).2.map (fun b => Event.putVariable b.1 b.2) ++
      (if guardPasses c args scopes sel = true then [Event.addDeclarations i] else []) ++
      [Event.popScope]
  else []

/-- The calls expected from the registry loop on the rulesets built from `sels`, the first one
being at position `i`. -/
def loopEvents (c : Collab) (key : TokenList) (args : List TokenList) (scopes : List Scope)
    (i : Nat) (sels : List TokenList) : List Event :=
  (sels.enumFrom i).flatMap (fun p => attemptEvents c key args scopes p.1 p.2)

/-- Positions, in registration order, of the registered rulesets that expand at a call. -/
def firedFrom (c : Collab) (key : TokenList) (args : List TokenList) (scopes : List Scope)
    (i : Nat) (sels : List TokenList) : List Nat :=
  ((sels.enumFrom i).filter (fun p => fires c key args scopes p.2)).map (·.1)

/-- The positions passed to `addDeclarations`, in call order, in a list of events. -/
def addDeclarationsCalls (ev : List Event) : List Nat :=
  ev.filterMap (fun e => match e with
    | .addDeclarations i => some i
    | _ => none)

/-- The scope calls (`pushScope`, `putVariable`, `popScope`) in a list of events. -/
def scopeCalls (ev : List Event) : List Event :=
  ev.filter (fun e => match e with
    | .pushScope | .popScope | .putVariable _ _ => true
    | _ => false)

/-- Depth reached from depth `d` by the `pushScope`/`popScope` calls of a list of events; `none`
if a `popScope` comes at depth 0, i.e. pops a scope that these events did not push. -/
def nesting : Nat → List Event → Option Nat
  | d, [] => some d
  | d, e :: ev =>
    match e with
    | .pushScope => nesting (d + 1) ev
    | .popScope =>
      match d with
      | 0 => none
      | d1 + 1 => nesting d1 ev
    | _ => nesting d ev

/-- The selectors of the registered parameter rulesets. -/
def registrySelectors (st : State) : List TokenList :=
  st.parameterRulesets.map (·.selector)

/-- The scope calls expected from one iteration of the registry loop. -/
def attemptScopeCalls (c : Collab) (key : TokenList) (args : List TokenList)
    (scopes : List Scope) (sel : TokenList) : List Event :=
  if keyArgsMatch c key args sel = true then
    [Event.pushScope] ++
      (c.putArguments sel ([] :: scopes) args).2.map (fun b => Event.putVariable b.1 b.2) ++
      [Event.popScope]
  else []

/-! ## Concrete token streams and states used to run the model -/

namespace Demo

/-- The token `.`. -/
def dot : Token := ⟨.OTHER, "."⟩
/-- The token `,`. -/
def comma : Token := ⟨.OTHER, ","⟩
/-- An identifier. -/
def ident (s : String) : Token := ⟨.IDENTIFIER, s⟩
/-- An at-keyword, written with its `@`. -/
def atk (s : String) : Token := ⟨.ATKEYWORD, s⟩
/-- A number. -/
def num (s : String) : Token := ⟨.NUMBER, s⟩
/-- One space. -/
def space : Token := ⟨.WHITESPACE, " "⟩
/-- The token `:`. -/
def colon : Token := ⟨.COLON, ":"⟩
/-- The token `;`. -/
def semi : Token := ⟨.DELIMITER, ";"⟩
/-- The token `\x7b`. -/
def lbrace : Token := ⟨.BRACKET_OPEN, "\x7b"⟩
/-- The token `\x7d`. -/
def rbrace : Token := ⟨.BRACKET_CLOSED, "\x7d"⟩
/-- The token `(`. -/
def lparen : Token := ⟨.PAREN_OPEN, "("⟩
/-- The token `)`. -/
def rparen : Token := ⟨.PAREN_CLOSED, ")"⟩

/-- The selector `.m(@a)`. -/
def selM1 : TokenList := [dot, ident "m", lparen, atk "@a", rparen]
/-- The selector `.m(@a; @b: 2)`: the second parameter has a default. -/
def selM2 : TokenList :=
  [dot, ident "m", lparen, atk "@a", semi, space, atk "@b", colon, space, num "2", rparen]
/-- The selector `.m(@a; @b)`: two parameters without default. -/
def selM3 : TokenList := [dot, ident "m", lparen, atk "@a", semi, space, atk "@b", rparen]

/-- A state with the plain ruleset `.a` (empty) and three overloads of `.m` in the registry. -/
def overloads : State where
  tokens := [semi]
  scopes := [[]]
  rulesets := [⟨[dot, ident "a"], []⟩]
  atRules := []
  parameterRulesets :=
    [⟨selM1, [⟨"left", [atk "@a"]⟩]⟩,
     ⟨selM2, [⟨"top", [atk "@b"]⟩]⟩,
     ⟨selM3, [⟨"right", [atk "@b"]⟩]⟩]
  trace := []

/-- The call selector `.m(1)`. -/
def callM1 : TokenList := [dot, ident "m", lparen, num "1", rparen]

/-- The call selector `.m(1; 2)`. -/
def callM2 : TokenList := [dot, ident "m", lparen, num "1", semi, space, num "2", rparen]

/-- A state with the plain ruleset `.a` (empty) and two overloads of `.m`, of arity 1 and 2. -/
def twoArities : State :=
  { overloads with
    parameterRulesets :=
      [⟨selM1, [⟨"left", [atk "@a"]⟩]⟩, ⟨selM3, [⟨"right", [atk "@b"]⟩]⟩] }

/-- The collaborators of `specCollab` with a guard that is always false. -/
def falseGuard : Collab :=
  { specCollab with matchConditions := fun _ _ => false }

end Demo

namespace Demo

/-- The state `overloads` after the call `.m(1)` from the ruleset `.a`: the first two overloads
have expanded, the third (two parameters without default) has not. -/
def expanded : State :=
  { overloads with
    rulesets := [⟨[dot, ident "a"], [⟨"left", [num "1"]⟩, ⟨"top", [num "2"]⟩]⟩]
    trace :=
      [.pushScope, .putVariable "@a" (some [num "1"]), .addDeclarations 0, .popScope,
       .pushScope, .putVariable "@a" (some [num "1"]), .putVariable "@b" (some [num "2"]),
       .addDeclarations 1, .popScope] }

/-- A state with the plain ruleset `.a` (empty) and the single parameter ruleset `.m(@a)`. -/
def single : State :=
  { overloads with parameterRulesets := [⟨selM1, [⟨"left", [atk "@a"]⟩]⟩] }

end Demo

/-! ## Invariants of a call -/

/-- The state carried by an abort, if any. -/
def Abort.state? : Abort → Option State
  | .raised _ s => some s
  | .fault s => some s
  | .outOfFuel => none

/-- Frame condition on the rulesets between two states, for a call that is allowed to add
declarations to `target` only: every ruleset object that exists in `st` (in the stylesheet or in
the registry) exists in `st1` with the same selector and with its declarations extended at the
end; if it is not the target, nothing is added. -/
def Frame (target : Option RulesetRef) (st st1 : State) : Prop :=
  ∀ r x, getRulesetAt st r = some x →
    ∃ ds, getRulesetAt st1 r = some ⟨x.selector, x.declarations ++ ds⟩ ∧
      (some r ≠ target → ds = [])

/-- The calls made between `st` and `st1` push and pop scopes in a properly nested way and in
equal number: they never pop a scope they did not push, and end at the depth they started. -/
def Balanced (st st1 : State) : Prop :=
  ∃ ev, st1.trace = st.trace ++ ev ∧ nesting 0 ev = some 0

/-- Effect of a completed call that works in the innermost scope and on the ruleset `target`:
frame condition, the scopes below the innermost one untouched, depth unchanged, scope calls
balanced. -/
structure Step (target : Option RulesetRef) (st st1 : State) : Prop where
  frame : Frame target st st1
  tail : st1.scopes.tail = st.scopes.tail
  len : st1.scopes.length = st.scopes.length
  bal : Balanced st st1

/-- Condition on an abort of a call started in `st`: the scope stack at the abort is at least as
deep as at entry. -/
def AbortInv (st : State) (r : Abort) : Prop :=
  ∀ s, r.state? = some s → st.scopes.length ≤ s.scopes.length

/-- An outcome satisfies `P` on the state of a normal return and `Q` on an abort. -/
def Outcome.Sat {α : Type} (o : Outcome α) (P : State → Prop) (Q : Abort → Prop) : Prop :=
  match o with
  | .ok _ s => P s
  | .stop r => Q r

/-- Effect of the head of `parseRuleset` when it creates the ruleset `ref`: the existing rulesets
are untouched, `ref` is a new object, one scope has been pushed on the stack of `st`, and the
scope calls so far leave one scope open. -/
structure HeadInv (st : State) (ref : RulesetRef) (st2 : State) : Prop where
  frame : Frame none st st2
  fresh : getRulesetAt st ref = none
  tail : st2.scopes.tail = st.scopes
  len : st2.scopes.length = st.scopes.length + 1
  trace : ∃ ev, st2.trace = st.trace ++ ev ∧ nesting 0 ev = some 1

/-- The state of a normal return, if the outcome is one. -/
def Outcome.state? {α : Type} : Outcome α → Option State
  | .ok _ s => some s
  | .stop _ => none

namespace Demo

/-- The tokens of `.a \x7b .nonexistent-mixin(); \x7d`. -/
def unresolved : List Token :=
  [dot, ident "a", space, lbrace, space, dot, ident "nonexistent-mixin", lparen, rparen, semi,
   space, rbrace]

/-- The state at the throw for `unresolved`: the ruleset `.a` has been added and its scope is
still on the stack. -/
def unresolvedThrow : State where
  tokens := [semi, space, rbrace]
  scopes := [[], []]
  rulesets := [⟨[dot, ident "a"], []⟩]
  atRules := []
  parameterRulesets := []
  trace := [.pushScope]

/-- The tokens of `.a \x7b color: red;` (the closing bracket is missing). -/
def missingBrace : List Token :=
  [dot, ident "a", space, lbrace, space, ident "color", colon, space, ident "red", semi]

/-- The tokens of `.a \x7b .b \x7b color: red; \x7d \x7d`. -/
def nestedRule : List Token :=
  [dot, ident "a", space, lbrace, space, dot, ident "b", space, lbrace, space,
   ident "color", colon, space, ident "red", semi, space, rbrace, space, rbrace]

/-- The tokens of `.a \x7b .b \x7b .c \x7b color: red; \x7d \x7d \x7d`. -/
def nestedTwice : List Token :=
  [dot, ident "a", space, lbrace, space, dot, ident "b", space, lbrace, space,
   dot, ident "c", space, lbrace, space,
   ident "color", colon, space, ident "red", semi, space, rbrace, space, rbrace, space, rbrace]

/-- The tokens of `.a \x7b .m() \x7b color: red; \x7d \x7d`: the nested selector ends in `)`. -/
def nestedParam : List Token :=
  [dot, ident "a", space, lbrace, space, dot, ident "m", lparen, rparen, space, lbrace, space,
   ident "color", colon, space, ident "red", semi, space, rbrace, space, rbrace]

/-- The state reached in `nestedRule` when the selector `.b` has been read in the body of `.a`
and the current token is the opening bracket of the nested block. -/
def atNested : State where
  tokens := [lbrace, space, ident "color", colon, space, ident "red", semi, space, rbrace,
    space, rbrace]
  scopes := [[], []]
  rulesets := [⟨[dot, ident "a"], []⟩]
  atRules := []
  parameterRulesets := []
  trace := [.pushScope]

/-- The state after the nested rule of `atNested`: the ruleset `.a .b` is in the stylesheet with
the declaration of the inner block, `.a` has no declaration. -/
def afterNested : State where
  tokens := [rbrace]
  scopes := [[], []]
  rulesets :=
    [⟨[dot, ident "a"], []⟩,
     ⟨[dot, ident "a", space, dot, ident "b"], [⟨"color", [space, ident "red"]⟩]⟩]
  atRules := []
  parameterRulesets := []
  trace := [.pushScope, .pushScope, .popScope]

/-- A state whose registry holds `.m(@a)`, positioned at the ruleset
`.c \x7b @x: 2; .b \x7b color: @x; \x7d .m(1); \x7d`: a variable declaration, a nested ruleset
and a mixin call in one body. -/
def bodyStart : State :=
  { single with
    tokens :=
      [dot, ident "c", space, lbrace, space, atk "@x", colon, space, num "2", semi, space,
       dot, ident "b", space, lbrace, space, ident "color", colon, space, atk "@x", semi, space,
       rbrace, space, dot, ident "m", lparen, num "1", rparen, semi, space, rbrace] }

/-- The state after `parseRuleset` has parsed the ruleset of `bodyStart`. -/
def bodyEnd : State :=
  { single with
    tokens := []
    rulesets :=
      [⟨[dot, ident "a"], []⟩,
       ⟨[dot, ident "c"], [⟨"left", [num "1"]⟩]⟩,
       ⟨[dot, ident "c", space, dot, ident "b"], [⟨"color", [num "2"]⟩]⟩]
    trace :=
      [.pushScope, .putVariable "@x" (some [num "2"]), .pushScope, .popScope,
       .pushScope, .putVariable "@a" (some [num "1"]), .addDeclarations 0, .popScope,
       .popScope] }

end Demo

namespace Demo

/-- A state with the plain rulesets `.a` (one declaration) and `.box` (two declarations), and
the registry of `single`. -/
def plainMixin : State :=
  { single with
    rulesets :=
      [⟨[dot, ident "a"], [⟨"color", [ident "red"]⟩]⟩,
       ⟨[dot, ident "box"], [⟨"top", [num "0"]⟩, ⟨"left", [num "0"]⟩]⟩] }

/-- The state `plainMixin` after the call `.box` from the ruleset `.a`. -/
def plainMixinDone : State :=
  { plainMixin with
    rulesets :=
      [⟨[dot, ident "a"], [⟨"color", [ident "red"]⟩, ⟨"top", [num "0"]⟩, ⟨"left", [num "0"]⟩]⟩,
       ⟨[dot, ident "box"], [⟨"top", [num "0"]⟩, ⟨"left", [num "0"]⟩]⟩] }

end Demo

namespace Demo

/-- The state reached in `unresolved` at the start of the body of `.a`. -/
def atCall : State where
  tokens := [dot, ident "nonexistent-mixin", lparen, rparen, semi, space, rbrace]
  scopes := [[], []]
  rulesets := [⟨[dot, ident "a"], []⟩]
  atRules := []
  parameterRulesets := []
  trace := [.pushScope]

/-- The selector `.nonexistent-mixin()`. -/
def callUnknown : TokenList := [dot, ident "nonexistent-mixin", lparen, rparen]

end Demo

/-- The state after a variable declaration read from `st`: the value `value` is bound to
`keyword`, the tokens `toks` left after the value begin with the delimiter, which is read, and
whitespace is skipped (lines 105-107 of `parseVariable`). -/
def afterVariable (keyword : String) (value : TokenList) (toks : List Token) (st : State) :
    State :=
  skipWhitespace (readNextToken (putVariable keyword (some value) { st with tokens := toks }))

namespace Demo

/-- The tokens of `@x: 1; .a \x7b @x: 2; color: @x; \x7d`. -/
def innerVariable : List Token :=
  [atk "@x", colon, space, num "1", semi, space, dot, ident "a", space, lbrace, space,
   atk "@x", colon, space, num "2", semi, space, ident "color", colon, space, atk "@x", semi,
   space, rbrace]

/-- The tokens of `@x: 1; .a \x7b color: @x; \x7d`. -/
def outerVariable : List Token :=
  [atk "@x", colon, space, num "1", semi, space, dot, ident "a", space, lbrace, space,
   ident "color", colon, space, atk "@x", semi, space, rbrace]

/-- The tokens of `@x: 1; .a \x7b @x: 2; \x7d .b \x7b color: @x; \x7d`. -/
def hiddenVariable : List Token :=
  [atk "@x", colon, space, num "1", semi, space, dot, ident "a", space, lbrace, space,
   atk "@x", colon, space, num "2", semi, space, rbrace, space,
   dot, ident "b", space, lbrace, space, ident "color", colon, space, atk "@x", semi, space,
   rbrace]

end Demo

namespace Demo

/-- The tokens of `.m(@a) \x7b left: @a \x7d`: a parametric definition. -/
def paramDef : List Token :=
  [dot, ident "m", lparen, atk "@a", rparen, space, lbrace, space, ident "left", colon, space,
   atk "@a", space, rbrace]

/-- The state after `parseRuleset` has parsed `paramDef`. -/
def paramDefDone : State where
  tokens := []
  scopes := [[]]
  rulesets := []
  atRules := []
  parameterRulesets := [⟨selM1, [⟨"left", [atk "@a"]⟩]⟩]
  trace := [.pushScope, .putVariable "@a" none, .popScope]

/-- The tokens of `\x7b color: red \x7d`: a ruleset without selector. -/
def noSelector : List Token :=
  [lbrace, space, ident "color", colon, space, ident "red", space, rbrace]

/-- The state in which `parseRuleset` stops on `noSelector`: the bracket has been read and the
scope pushed when the last token of the null selector is accessed. -/
def noSelectorFault : State where
  tokens := [space, ident "color", colon, space, ident "red", space, rbrace]
  scopes := [[], []]
  rulesets := []
  atRules := []
  parameterRulesets := []
  trace := [.pushScope]

end Demo

namespace Demo

/-- A string token: the path between double quotes. -/
def str (p : String) : Token :=
  ⟨.STRING, String.mk (Char.ofNat 34 :: p.data ++ [Char.ofNat 34])⟩

/-- The tokens of `@import "a.css";`. -/
def importCss : List Token := [atk "@import", space, str "a.css", semi]

/-- The tokens of `@import "lib";`. -/
def importLib : List Token := [atk "@import", space, str "lib", semi]

/-- The tokens of `@import "lib.less";`. -/
def importLess : List Token := [atk "@import", space, str "lib.less", semi]

/-- The tokens of `@import foo, "a.css";`: more than one rule token, the first not a string. -/
def importBad : List Token :=
  [atk "@import", space, ident "foo", comma, space, str "a.css", semi]

/-- The collaborators of `specCollab` with one file `lib.less` holding
`.b \x7b color: red; \x7d`. -/
def withFile : Collab :=
  { specCollab with
    readFile := fun f =>
      if f = "lib.less" then
        some [dot, ident "b", space, lbrace, space, ident "color", colon, space, ident "red",
          semi, space, rbrace]
      else none }

/-- The state after `@import "lib";` (or `@import "lib.less";`) with the file of `withFile`. -/
def imported : State where
  tokens := []
  scopes := [[]]
  rulesets := [⟨[dot, ident "b"], [⟨"color", [space, ident "red"]⟩]⟩]
  atRules := []
  parameterRulesets := []
  trace := [.importFile "lib.less", .pushScope, .popScope]

end Demo

namespace Demo

/-- The tokens of `.a \x7b color: red; .a; \x7d`: the ruleset calls itself as a mixin. -/
def selfCall : List Token :=
  [dot, ident "a", space, lbrace, space, ident "color", colon, space, ident "red", semi, space,
   dot, ident "a", semi, space, rbrace]

/-- The state at the start of the body of `selfCall`. -/
def selfCallBody : State where
  tokens := [ident "color", colon, space, ident "red", semi, space, dot, ident "a", semi, space,
    rbrace]
  scopes := [[], []]
  rulesets := [⟨[dot, ident "a"], []⟩]
  atRules := []
  parameterRulesets := []
  trace := [.pushScope]

/-- The state reached in `selfCall` when the selector `color: red` has been read. -/
def selfCallValue : State where
  tokens := [semi, space, dot, ident "a", semi, space, rbrace]
  scopes := [[], []]
  rulesets := [⟨[dot, ident "a"], []⟩]
  atRules := []
  parameterRulesets := []
  trace := [.pushScope]

/-- The state reached in `selfCall` when the declaration `color: red` has been added. -/
def selfCallDeclared : State where
  tokens := [semi, space, dot, ident "a", semi, space, rbrace]
  scopes := [[], []]
  rulesets := [⟨[dot, ident "a"], [⟨"color", [space, ident "red"]⟩]⟩]
  atRules := []
  parameterRulesets := []
  trace := [.pushScope]

/-- The state reached in `selfCall` when the call selector `.a` has been read: the ruleset `.a`
is in the stylesheet with its first declaration. -/
def selfCallAt : State where
  tokens := [semi, space, rbrace]
  scopes := [[], []]
  rulesets := [⟨[dot, ident "a"], [⟨"color", [space, ident "red"]⟩]⟩]
  atRules := []
  parameterRulesets := []
  trace := [.pushScope]

end Demo

namespace Demo

/-- The call selector `.m(rgb(1,2,3))`: one argument, a function call. -/
def rgbCall : TokenList :=
  [dot, ident "m", lparen, ident "rgb", lparen, num "1", comma, num "2", comma, num "3",
   rparen, rparen]

/-- The call selector `.m(1, 2)`. -/
def callM12 : TokenList := [dot, ident "m", lparen, num "1", comma, space, num "2", rparen]

/-- The tokens of `.a \x7b .m; \x7d .m \x7b color: red; \x7d`: the call comes first. -/
def forwardPlain : List Token :=
  [dot, ident "a", space, lbrace, space, dot, ident "m", semi, space, rbrace, space,
   dot, ident "m", space, lbrace, space, ident "color", colon, space, ident "red", semi, space,
   rbrace]

/-- The tokens of `.m \x7b color: red; \x7d .a \x7b .m; \x7d`: the definition comes first. -/
def backwardPlain : List Token :=
  [dot, ident "m", space, lbrace, space, ident "color", colon, space, ident "red", semi, space,
   rbrace, space, dot, ident "a", space, lbrace, space, dot, ident "m", semi, space, rbrace]

/-- The tokens of `.a \x7b .m(1); \x7d .m(@a) \x7b left: @a; \x7d`: the call comes first. -/
def forwardParam : List Token :=
  [dot, ident "a", space, lbrace, space, dot, ident "m", lparen, num "1", rparen, semi, space,
   rbrace, space, dot, ident "m", lparen, atk "@a", rparen, space, lbrace, space,
   ident "left", colon, space, atk "@a", semi, space, rbrace]

/-- The tokens of `.m(@a) \x7b left: @a; \x7d .a \x7b .m(1); \x7d`: the definition comes
first. -/
def backwardParam : List Token :=
  [dot, ident "m", lparen, atk "@a", rparen, space, lbrace, space, ident "left", colon, space,
   atk "@a", semi, space, rbrace, space, dot, ident "a", space, lbrace, space,
   dot, ident "m", lparen, num "1", rparen, semi, space, rbrace]

/-- The state of `forwardPlain` at the start of the body of `.a`: nothing but `.a` is known. -/
def forwardPlainBody : State where
  tokens := [dot, ident "m", semi, space, rbrace, space,
    dot, ident "m", space, lbrace, space, ident "color", colon, space, ident "red", semi, space,
    rbrace]
  scopes := [[], []]
  rulesets := [⟨[dot, ident "a"], []⟩]
  atRules := []
  parameterRulesets := []
  trace := [.pushScope]

/-- The state in which the call `.m` of `forwardPlain` raises: the call selector has been read,
the definition is still in the token stream. -/
def forwardPlainThrow : State where
  tokens := [semi, space, rbrace, space,
    dot, ident "m", space, lbrace, space, ident "color", colon, space, ident "red", semi, space,
    rbrace]
  scopes := [[], []]
  rulesets := [⟨[dot, ident "a"], []⟩]
  atRules := []
  parameterRulesets := []
  trace := [.pushScope]

/-- The state in which the call `.m(1)` of `forwardParam` raises. -/
def forwardParamThrow : State where
  tokens := [semi, space, rbrace, space, dot, ident "m", lparen, atk "@a", rparen, space,
    lbrace, space, ident "left", colon, space, atk "@a", semi, space, rbrace]
  scopes := [[], []]
  rulesets := [⟨[dot, ident "a"], []⟩]
  atRules := []
  parameterRulesets := []
  trace := [.pushScope]

/-- The result of `backwardPlain`: `.a` has received the declaration of `.m`. -/
def backwardPlainDone : State where
  tokens := []
  scopes := [[]]
  rulesets :=
    [⟨[dot, ident "m"], [⟨"color", [space, ident "red"]⟩]⟩,
     ⟨[dot, ident "a"], [⟨"color", [space, ident "red"]⟩]⟩]
  atRules := []
  parameterRulesets := []
  trace := [.pushScope, .popScope, .pushScope, .popScope]

/-- The result of `backwardParam`: `.a` has received the declaration of `.m(@a)` for the
argument 1. -/
def backwardParamDone : State where
  tokens := []
  scopes := [[]]
  rulesets := [⟨[dot, ident "a"], [⟨"left", [num "1"]⟩]⟩]
  atRules := []
  parameterRulesets := [⟨selM1, [⟨"left", [atk "@a"]⟩]⟩]
  trace :=
    [.pushScope, .putVariable "@a" none, .popScope, .pushScope, .pushScope,
     .putVariable "@a" (some [num "1"]), .addDeclarations 0, .popScope, .popScope]

end Demo

namespace Demo

/-- The tokens of `@x: 5; .class (@x: 0) \x7bleft: @x \x7d`, the example of the comment at
lines 141-144. -/
def placeholder : List Token :=
  [atk "@x", colon, space, num "5", semi, space, dot, ident "class", space, lparen, atk "@x",
   colon, space, num "0", rparen, space, lbrace, ident "left", colon, space, atk "@x", space,
   rbrace]

/-- The selector `.class (@x: 0)`. -/
def selClass : TokenList :=
  [dot, ident "class", space, lparen, atk "@x", colon, space, num "0", rparen]

/-- The state of `placeholder` after the variable declaration `@x: 5;`. -/
def placeholderAt : State where
  tokens :=
    [dot, ident "class", space, lparen, atk "@x", colon, space, num "0", rparen, space, lbrace,
     ident "left", colon, space, atk "@x", space, rbrace]
  scopes := [[("@x", some [num "5"])]]
  rulesets := []
  atRules := []
  parameterRulesets := []
  trace := [.putVariable "@x" (some [num "5"])]

/-- The state of `placeholder` at the start of the body of `.class (@x: 0)`: the scope pushed
for the ruleset binds `@x` to the placeholder. -/
def placeholderBody : State where
  tokens := [ident "left", colon, space, atk "@x", space, rbrace]
  scopes := [[("@x", none)], [("@x", some [num "5"])]]
  rulesets := []
  atRules := []
  parameterRulesets := [⟨selClass, []⟩]
  trace := [.putVariable "@x" (some [num "5"]), .pushScope, .putVariable "@x" none]

/-- The result of `placeholder`: the declaration of the parameter ruleset is `left: @x`. -/
def placeholderDone : State where
  tokens := []
  scopes := [[("@x", some [num "5"])]]
  rulesets := []
  atRules := []
  parameterRulesets := [⟨selClass, [⟨"left", [atk "@x"]⟩]⟩]
  trace := [.putVariable "@x" (some [num "5"]), .pushScope, .putVariable "@x" none, .popScope]

end Demo

/-! ## The base CSS grammar

The parser of plain CSS that the parser of LESS extends, written from the grammar of section 4.1
and of `CssParser.h`, on the productions of `namespace Css`. It is used to state the comparison
of the two parsers on plain CSS input. -/

namespace Css2

/-- A declaration as the base grammar reads it, `property S* \x27:\x27 S* value`: the property
token, the whitespace skipped before the colon, the colon, the whitespace skipped after it, and
the value. -/
structure Declaration where
  property : Token
  beforeColon : List Token
  colon : Token
  afterColon : List Token
  value : TokenList
  deriving DecidableEq, Repr

/-- A ruleset as the base grammar reads it: the optional selector and, for each `declaration?`
of the block, the declaration or nothing. -/
structure Ruleset where
  selector : Option TokenList
  body : List (Option Declaration)
  deriving DecidableEq, Repr

/-- A statement of the base grammar. -/
inductive Statement where
  | ruleset (r : Ruleset)
  | atRule (a : AtRule)
  deriving DecidableEq, Repr

/-- Type of the first token of a token stream, `EOS` when it is exhausted. -/
def headType (toks : List Token) : TokenType :=
  match toks with
  | [] => .EOS
  | t :: _ => t.type

/-- String of the first token of a token stream. -/
def headStr (toks : List Token) : String :=
  match toks with
  | [] => ""
  | t :: _ => t.str

/-- Modelled from the spec: `declaration := property \x27:\x27 value`, `property : IDENT`
(`CssParser::parseDeclaration`, whose body is not in the translated files); whitespace is skipped
around the colon. Nothing is read when the current token is not an identifier. -/
def parseDeclaration (toks : List Token) :
    Except ParseException (Option Declaration × List Token) :=
  match toks with
  | [] => .ok (none, [])
  | p :: ts =>
    if p.type ≠ .IDENTIFIER then .ok (none, p :: ts)
    else
      match ts.dropWhile isSpace with
      | [] => .error ⟨"", "colon following property"⟩
      | c :: ts1 =>
        if c.type ≠ .COLON then .error ⟨c.str, "colon following property"⟩
        else
          match Css.parseValue (ts1.dropWhile isSpace) with
          | .error e => .error e
          | .ok (none, rest) => .error ⟨headStr rest, "value for property"⟩
          | .ok (some v, rest) =>
            .ok (some ⟨p, ts.takeWhile isSpace, c, ts1.takeWhile isSpace, v⟩, rest)

/-- Modelled from the spec: the inside of a block of declarations,
`declaration? [ \x27;\x27 S* declaration? ]*`. -/
def parseDeclarations : Nat → List Token →
    Except ParseException (List (Option Declaration) × List Token)
  | 0, _ => .error ⟨"", "more fuel"⟩
  | fuel + 1, toks =>
    match parseDeclaration toks with
    | .error e => .error e
    | .ok (d, rest) =>
      if headType rest = .DELIMITER then
        match parseDeclarations fuel (rest.tail.dropWhile isSpace) with
        | .error e => .error e
        | .ok (ds, rest1) => .ok (d :: ds, rest1)
      else .ok ([d], rest)

/-- Modelled from the spec: `ruleset : selector? \x27\x7b\x27 S* declaration?
[ \x27;\x27 S* declaration? ]* \x27\x7d\x27 S*` (`CssParser::parseRuleset`). Nothing is read
when there is neither a selector nor an opening bracket. -/
def parseRuleset : Nat → List Token → Except ParseException (Option Ruleset × List Token)
  | 0, _ => .error ⟨"", "more fuel"⟩
  | fuel + 1, toks =>
    match Css.parseSelector toks with
    | .error e => .error e
    | .ok (selector, rest) =>
      if headType rest ≠ .BRACKET_OPEN then
        match selector with
        | none => .ok (none, rest)
        | some _ => .error ⟨headStr rest, "a declaration block (\x27\x7b...\x7d\x27)"⟩
      else
        match parseDeclarations fuel (rest.tail.dropWhile isSpace) with
        | .error e => .error e
        | .ok (body, rest1) =>
          if headType rest1 ≠ .BRACKET_CLOSED then
            .error ⟨headStr rest1, "end of declaration block (\x27\x7d\x27)"⟩
          else .ok (some ⟨selector, body⟩, rest1.tail.dropWhile isSpace)

/-- The loop `any*` of an at-rule. -/
def parseAnyStar : Nat → TokenList → List Token → Except ParseException (TokenList × List Token)
  | 0, _, _ => .error ⟨"", "more fuel"⟩
  | fuel + 1, rule, toks =>
    match Css.parseAny rule toks with
    | .error e => .error e
    | .ok (true, rule1, rest) => parseAnyStar fuel rule1 rest
    | .ok (false, rule1, rest) => .ok (rule1, rest)

/-- Modelled from the spec: `at-rule : ATKEYWORD S* any* [ block | \x27;\x27 S* ]`
(`CssParser::parseAtRule`). Nothing is read when the current token is not an at-keyword. -/
def parseAtRule : Nat → List Token → Except ParseException (Option AtRule × List Token)
  | 0, _ => .error ⟨"", "more fuel"⟩
  | fuel + 1, toks =>
    if headType toks ≠ .ATKEYWORD then .ok (none, toks)
    else
      match parseAnyStar fuel [] (toks.tail.dropWhile isSpace) with
      | .error e => .error e
      | .ok (rule, rest) =>
        match Css.parseBlock rule rest with
        | .error e => .error e
        | .ok (true, rule1, rest1) => .ok (some ⟨headStr toks, rule1⟩, rest1)
        | .ok (false, rule1, rest1) =>
          if headType rest1 ≠ .DELIMITER then
            .error ⟨headStr rest1, "delimiter (\x27;\x27) at end of @-rule"⟩
          else .ok (some ⟨headStr toks, rule1⟩, rest1.tail.dropWhile isSpace)

/-- Modelled from the spec: `statement : ruleset | at-rule` (`CssParser::parseStatement`). -/
def parseStatement : Nat → List Token → Except ParseException (Option Statement × List Token)
  | 0, _ => .error ⟨"", "more fuel"⟩
  | fuel + 1, toks =>
    match parseRuleset fuel toks with
    | .error e => .error e
    | .ok (some r, rest) => .ok (some (.ruleset r), rest)
    | .ok (none, rest) =>
      match parseAtRule fuel rest with
      | .error e => .error e
      | .ok (some a, rest1) => .ok (some (.atRule a), rest1)
      | .ok (none, rest1) => .ok (none, rest1)

/-- The statement loop of the base grammar. -/
def parseStatements : Nat → List Token → Except ParseException (List Statement × List Token)
  | 0, _ => .error ⟨"", "more fuel"⟩
  | fuel + 1, toks =>
    match parseStatement fuel toks with
    | .error e => .error e
    | .ok (none, rest) => .ok ([], rest)
    | .ok (some s, rest) =>
      match parseStatements fuel (rest.dropWhile isSpace) with
      | .error e => .error e
      | .ok (ss, rest1) => .ok (s :: ss, rest1)

/-- Modelled from the spec: `stylesheet := ( statement )* EOF` (`CssParser::parseStylesheet`):
the statements of the input, in order. -/
def parseStylesheet : Nat → List Token → Except ParseException (List Statement)
  | 0, _ => .error ⟨"", "more fuel"⟩
  | fuel + 1, toks =>
    match parseStatements fuel (toks.dropWhile isSpace) with
    | .error e => .error e
    | .ok (ss, rest) =>
      if headType rest ≠ .EOS then .error ⟨headStr rest, "end of input"⟩
      else .ok ss

/-- The declarations of a ruleset of the base grammar, in order. -/
def Ruleset.declarations (r : Ruleset) : List Declaration :=
  r.body.filterMap id

/-- The rulesets among the statements, in order. -/
def rulesets (ss : List Statement) : List Ruleset :=
  ss.filterMap (fun s => match s with
    | .ruleset r => some r
    | .atRule _ => none)

/-- The at-rules among the statements, in order. -/
def atRules (ss : List Statement) : List AtRule :=
  ss.filterMap (fun s => match s with
    | .ruleset _ => none
    | .atRule a => some a)

/-- The selectors of the rulesets among the statements. -/
def selectors (ss : List Statement) : List TokenList :=
  (rulesets ss).filterMap (·.selector)

/-- The declaration of the stylesheet for a declaration of the base grammar: property name and
value. -/
def Declaration.toCss (d : Declaration) : Less.Declaration :=
  ⟨d.property.str, d.value⟩

/-- The ruleset of the stylesheet for a ruleset of the base grammar. -/
def Ruleset.toCss (r : Ruleset) : Less.Ruleset :=
  ⟨r.selector.getD [], r.declarations.map Declaration.toCss⟩

/-- The whitespace tokens that follow the colon of a declaration (comments are skipped). -/
def Declaration.space (d : Declaration) : List Token :=
  d.afterColon.filter (fun t => decide (t.type = .WHITESPACE))

/-- The value that `LessParser` stores for a declaration: the whitespace that follows the colon,
then the value. -/
def Declaration.toLess (d : Declaration) : Less.Declaration :=
  ⟨d.property.str, d.space ++ d.value⟩

/-- The ruleset that `LessParser` stores for a ruleset of the base grammar. -/
def Ruleset.toLess (r : Ruleset) : Less.Ruleset :=
  ⟨r.selector.getD [], r.declarations.map Declaration.toLess⟩

/-- The tokens of a declaration written without whitespace before the colon, which
`parseRulesetStatement` reads as a selector: property, colon, whitespace, value. -/
def Declaration.asSelector (d : Declaration) : TokenList :=
  d.property :: d.colon :: (d.space ++ d.value)

/-- A declaration within the part of CSS on which the two parsers agree: the colon directly
follows the property, the value holds no at-keyword and no opening bracket of a block, and the
declaration, read as a selector, is none of the selectors `sels`. -/
def isPlainDeclaration (sels : List TokenList) (d : Declaration) : Bool :=
  d.beforeColon.isEmpty &&
    d.value.all (fun t => decide (t.type ≠ .ATKEYWORD) && decide (t.type ≠ .BRACKET_OPEN)) &&
    decide (d.asSelector ∉ sels)

/-- A block of declarations within that part: only the last `declaration?` may be missing. -/
def isPlainBody (sels : List TokenList) (body : List (Option Declaration)) : Bool :=
  body.dropLast.all Option.isSome &&
    body.all (fun o => match o with
      | none => true
      | some d => isPlainDeclaration sels d)

/-- A statement within that part: a ruleset with a selector that does not end in `)` and a plain
body; an at-rule with a keyword (not the empty string) whose rule does not start with a colon and
which, if its keyword is `@import`, has one string token with a path ending in `.css` as its
rule. -/
def isPlainStatement (sels : List TokenList) : Statement → Bool
  | .ruleset r =>
    (match r.selector with
      | none => false
      | some S =>
        match S.getLast? with
        | none => false
        | some last => decide (last.type ≠ .PAREN_CLOSED)) &&
      isPlainBody sels r.body
  | .atRule a =>
    decide (a.keyword ≠ "") &&
      (match a.rule with
        | [] => true
        | t :: _ => decide (t.type ≠ .COLON)) &&
      (decide (a.keyword ≠ "@import") ||
        match a.rule with
        | [t] => decide (t.type = .STRING) && isCssImport t.str
        | _ => false)

/-- Removal of the whitespace that starts the value of a declaration. -/
def trimValue (d : Less.Declaration) : Less.Declaration :=
  ⟨d.property, d.value.dropWhile (fun t => decide (t.type = .WHITESPACE))⟩

/-- A ruleset with the whitespace that starts each value removed. -/
def trimRuleset (r : Less.Ruleset) : Less.Ruleset :=
  ⟨r.selector, r.declarations.map trimValue⟩

end Css2

/-- The state with its token stream replaced. -/
def withTokens (toks : List Token) (st : State) : State :=
  { st with tokens := toks }

namespace Demo

/-- The tokens of `p:lang(fr) \x7b color: red \x7d`. -/
def langRule : List Token :=
  [ident "p", colon, ident "lang", lparen, ident "fr", rparen, space, lbrace, space,
   ident "color", colon, space, ident "red", space, rbrace]

/-- The tokens of `@page :first \x7b margin: 1in \x7d`. -/
def pageRule : List Token :=
  [atk "@page", space, colon, ident "first", space, lbrace, space, ident "margin", colon, space,
   ⟨.DIMENSION, "1in"⟩, space, rbrace]

/-- The tokens of `a \x7b color : red \x7d`: whitespace before the colon. -/
def spaceColon : List Token :=
  [ident "a", space, lbrace, space, ident "color", space, colon, space, ident "red", space,
   rbrace]

/-- The tokens of `@import url(foo.css);`. -/
def importUrl : List Token := [atk "@import", space, ⟨.URL, "url(foo.css)"⟩, semi]

/-- The tokens of `@import "a.css" screen;`. -/
def importMedia : List Token :=
  [atk "@import", space, str "a.css", space, ident "screen", semi]

/-- The result of the parser of LESS on `langRule`: the stylesheet has no ruleset, the registry
has one parameter ruleset. -/
def langRuleDone : State where
  tokens := []
  scopes := [[]]
  rulesets := []
  atRules := []
  parameterRulesets :=
    [⟨[ident "p", colon, ident "lang", lparen, ident "fr", rparen],
      [⟨"color", [space, ident "red"]⟩]⟩]
  trace := [.pushScope, .putVariable "fr" none, .popScope]

/-- The state in which the parser of LESS raises on `spaceColon`. -/
def spaceColonThrow : State where
  tokens := [rbrace]
  scopes := [[], []]
  rulesets := [⟨[ident "a"], []⟩]
  atRules := []
  parameterRulesets := []
  trace := [.pushScope]

/-- The tokens of the plain stylesheet
`a:hover \x7b color: red; margin: 0 auto \x7d @media print \x7b b \x7b top:0 \x7d \x7d
p \x7bcolor:rgb(1,2,3);\x7d @import "a.css";`. -/
def plainCss : List Token :=
  [ident "a", colon, ident "hover", space, lbrace, space, ident "color", colon, space,
   ident "red", semi, space, ident "margin", colon, space, num "0", space, ident "auto", space,
   rbrace, space,
   atk "@media", space, ident "print", space, lbrace, space, ident "b", space, lbrace, space,
   ident "top", colon, num "0", space, rbrace, space, rbrace, space,
   ident "p", space, lbrace, ident "color", colon, ident "rgb", lparen, num "1", comma, num "2",
   comma, num "3", rparen, semi, rbrace, space,
   atk "@import", space, str "a.css", semi]

/-- The statements that the base grammar reads from `plainCss`. -/
def plainItems : List Css2.Statement :=
  [.ruleset ⟨some [ident "a", colon, ident "hover"],
      [some ⟨ident "color", [], colon, [space], [ident "red"]⟩,
       some ⟨ident "margin", [], colon, [space], [num "0", space, ident "auto"]⟩]⟩,
   .atRule ⟨"@media",
      [ident "print", space, lbrace, space, ident "b", space, lbrace, space, ident "top", colon,
       num "0", space, rbrace, space, rbrace]⟩,
   .ruleset ⟨some [ident "p"],
      [some ⟨ident "color", [], colon, [],
        [ident "rgb", lparen, num "1", comma, num "2", comma, num "3", rparen]⟩,
       none]⟩,
   .atRule ⟨"@import", [str "a.css"]⟩]

/-- The result of the parser of LESS on `plainCss`. -/
def plainDone : State where
  tokens := []
  scopes := [[]]
  rulesets :=
    [⟨[ident "a", colon, ident "hover"],
      [⟨"color", [space, ident "red"]⟩, ⟨"margin", [space, num "0", space, ident "auto"]⟩]⟩,
     ⟨[ident "p"],
      [⟨"color", [ident "rgb", lparen, num "1", comma, num "2", comma, num "3", rparen]⟩]⟩]
  atRules :=
    [⟨"@media",
      [ident "print", space, lbrace, space, ident "b", space, lbrace, space, ident "top", colon,
       num "0", space, rbrace, space, rbrace]⟩,
     ⟨"@import", [str "a.css"]⟩]
  parameterRulesets := []
  trace := [.pushScope, .popScope, .pushScope, .popScope]

end Demo

namespace Demo

/-- The tokens of `.a \x7b (1); \x7d`: the statement of the body starts with a parenthesis. -/
def parenCall : List Token :=
  [dot, ident "a", space, lbrace, space, lparen, num "1", rparen, semi, space, rbrace]

/-- The call selector `(1)`, as `parseSelector` reads it in `parenCall`. -/
def selParen : TokenList := [lparen, num "1", rparen]

/-- The state in which `processParameterMixin` is called with `selParen` in `parenCall`, and in
which it stops. -/
def parenCallAt : State where
  tokens := [semi, space, rbrace]
  scopes := [[], []]
  rulesets := [⟨[dot, ident "a"], []⟩]
  atRules := []
  parameterRulesets := []
  trace := [.pushScope]

end Demo

/-! ## Basic facts about the primitives -/

@[simp] theorem readNextToken_tokens (st : State) :
    (readNextToken st).tokens = st.tokens.tail := rfl

@[simp] theorem readNextToken_scopes (st : State) :
    (readNextToken st).scopes = st.scopes := rfl

@[simp] theorem readNextToken_rulesets (st : State) :
    (readNextToken st).rulesets = st.rulesets := rfl

@[simp] theorem readNextToken_atRules (st : State) :
    (readNextToken st).atRules = st.atRules := rfl

@[simp] theorem readNextToken_parameterRulesets (st : State) :
    (readNextToken st).parameterRulesets = st.parameterRulesets := rfl

@[simp] theorem readNextToken_trace (st : State) :
    (readNextToken st).trace = st.trace := rfl

@[simp] theorem skipWhitespace_tokens (st : State) :
    (skipWhitespace st).tokens = st.tokens.dropWhile isSpace := rfl

@[simp] theorem skipWhitespace_scopes (st : State) :
    (skipWhitespace st).scopes = st.scopes := rfl

@[simp] theorem skipWhitespace_rulesets (st : State) :
    (skipWhitespace st).rulesets = st.rulesets := rfl

@[simp] theorem skipWhitespace_atRules (st : State) :
    (skipWhitespace st).atRules = st.atRules := rfl

@[simp] theorem skipWhitespace_parameterRulesets (st : State) :
    (skipWhitespace st).parameterRulesets = st.parameterRulesets := rfl

@[simp] theorem skipWhitespace_trace (st : State) :
    (skipWhitespace st).trace = st.trace := rfl

@[simp] theorem pushScope_tokens (st : State) :
    (pushScope st).tokens = st.tokens := rfl

@[simp] theorem pushScope_scopes (st : State) :
    (pushScope st).scopes = [] :: st.scopes := rfl

@[simp] theorem pushScope_rulesets (st : State) :
    (pushScope st).rulesets = st.rulesets := rfl

@[simp] theorem pushScope_atRules (st : State) :
    (pushScope st).atRules = st.atRules := rfl

@[simp] theorem pushScope_parameterRulesets (st : State) :
    (pushScope st).parameterRulesets = st.parameterRulesets := rfl

@[simp] theorem pushScope_trace (st : State) :
    (pushScope st).trace = st.trace ++ [Event.pushScope] := rfl

@[simp] theorem popScope_tokens (st : State) :
    (popScope st).tokens = st.tokens := rfl

@[simp] theorem popScope_scopes (st : State) :
    (popScope st).scopes = st.scopes.tail := rfl

@[simp] theorem popScope_rulesets (st : State) :
    (popScope st).rulesets = st.rulesets := rfl

@[simp] theorem popScope_atRules (st : State) :
    (popScope st).atRules = st.atRules := rfl

@[simp] theorem popScope_parameterRulesets (st : State) :
    (popScope st).parameterRulesets = st.parameterRulesets := rfl

@[simp] theorem popScope_trace (st : State) :
    (popScope st).trace = st.trace ++ [Event.popScope] := rfl

@[simp] theorem putVariable_tokens (k : String) (v : Option TokenList) (st : State) :
    (putVariable k v st).tokens = st.tokens := rfl

@[simp] theorem putVariable_scopes (k : String) (v : Option TokenList) (st : State) :
    (putVariable k v st).scopes = bindInnermost k v st.scopes := rfl

@[simp] theorem putVariable_rulesets (k : String) (v : Option TokenList) (st : State) :
    (putVariable k v st).rulesets = st.rulesets := rfl

@[simp] theorem putVariable_atRules (k : String) (v : Option TokenList) (st : State) :
    (putVariable k v st).atRules = st.atRules := rfl

@[simp] theorem putVariable_parameterRulesets (k : String) (v : Option TokenList) (st : State) :
    (putVariable k v st).parameterRulesets = st.parameterRulesets := rfl

@[simp] theorem putVariable_trace (k : String) (v : Option TokenList) (st : State) :
    (putVariable k v st).trace = st.trace ++ [Event.putVariable k v] := rfl

@[simp] theorem logEvent_tokens (e : Event) (st : State) :
    (logEvent e st).tokens = st.tokens := rfl

@[simp] theorem logEvent_scopes (e : Event) (st : State) :
    (logEvent e st).scopes = st.scopes := rfl

@[simp] theorem logEvent_rulesets (e : Event) (st : State) :
    (logEvent e st).rulesets = st.rulesets := rfl

@[simp] theorem logEvent_atRules (e : Event) (st : State) :
    (logEvent e st).atRules = st.atRules := rfl

@[simp] theorem logEvent_parameterRulesets (e : Event) (st : State) :
    (logEvent e st).parameterRulesets = st.parameterRulesets := rfl

@[simp] theorem logEvent_trace (e : Event) (st : State) :
    (logEvent e st).trace = st.trace ++ [e] := rfl

@[simp] theorem addRuleset_tokens (r : Ruleset) (st : State) :
    (addRuleset r st).tokens = st.tokens := rfl

@[simp] theorem addRuleset_scopes (r : Ruleset) (st : State) :
    (addRuleset r st).scopes = st.scopes := rfl

@[simp] theorem addRuleset_rulesets (r : Ruleset) (st : State) :
    (addRuleset r st).rulesets = st.rulesets ++ [r] := rfl

@[simp] theorem addRuleset_atRules (r : Ruleset) (st : State) :
    (addRuleset r st).atRules = st.atRules := rfl

@[simp] theorem addRuleset_parameterRulesets (r : Ruleset) (st : State) :
    (addRuleset r st).parameterRulesets = st.parameterRulesets := rfl

@[simp] theorem addRuleset_trace (r : Ruleset) (st : State) :
    (addRuleset r st).trace = st.trace := rfl

@[simp] theorem addAtRule_tokens (a : AtRule) (st : State) :
    (addAtRule a st).tokens = st.tokens := rfl

@[simp] theorem addAtRule_scopes (a : AtRule) (st : State) :
    (addAtRule a st).scopes = st.scopes := rfl

@[simp] theorem addAtRule_rulesets (a : AtRule) (st : State) :
    (addAtRule a st).rulesets = st.rulesets := rfl

@[simp] theorem addAtRule_atRules (a : AtRule) (st : State) :
    (addAtRule a st).atRules = st.atRules ++ [a] := rfl

@[simp] theorem addAtRule_parameterRulesets (a : AtRule) (st : State) :
    (addAtRule a st).parameterRulesets = st.parameterRulesets := rfl

@[simp] theorem addAtRule_trace (a : AtRule) (st : State) :
    (addAtRule a st).trace = st.trace := rfl

@[simp] theorem registerParameterRuleset_tokens (r : Ruleset) (st : State) :
    (registerParameterRuleset r st).tokens = st.tokens := rfl

@[simp] theorem registerParameterRuleset_scopes (r : Ruleset) (st : State) :
    (registerParameterRuleset r st).scopes = st.scopes := rfl

@[simp] theorem registerParameterRuleset_rulesets (r : Ruleset) (st : State) :
    (registerParameterRuleset r st).rulesets = st.rulesets := rfl

@[simp] theorem registerParameterRuleset_atRules (r : Ruleset) (st : State) :
    (registerParameterRuleset r st).atRules = st.atRules := rfl

@[simp] theorem registerParameterRuleset_parameterRulesets (r : Ruleset) (st : State) :
    (registerParameterRuleset r st).parameterRulesets = st.parameterRulesets ++ [r] := rfl

@[simp] theorem registerParameterRuleset_trace (r : Ruleset) (st : State) :
    (registerParameterRuleset r st).trace = st.trace := rfl

@[simp] theorem putVariables_nil (st : State) : putVariables [] st = st := rfl

@[simp] theorem putVariables_cons (b : String × Option TokenList)
    (bs : List (String × Option TokenList)) (st : State) :
    putVariables (b :: bs) st = putVariables bs (putVariable b.1 b.2 st) := rfl

theorem putVariables_fields (bs : List (String × Option TokenList)) (st : State) :
    (putVariables bs st).scopes = bs.foldl (fun s b => bindInnermost b.1 b.2 s) st.scopes ∧
    (putVariables bs st).trace = st.trace ++ bs.map (fun b => Event.putVariable b.1 b.2) ∧
    (putVariables bs st).tokens = st.tokens ∧
    (putVariables bs st).rulesets = st.rulesets ∧
    (putVariables bs st).atRules = st.atRules ∧
    (putVariables bs st).parameterRulesets = st.parameterRulesets := by
  induction bs generalizing st with
  | nil => simp
  | cons b bs ih =>
    obtain ⟨h1, h2, h3, h4, h5, h6⟩ := ih (putVariable b.1 b.2 st)
    simp [h1, h2, h3, h4, h5, h6]

theorem bindInnermost_length (k : String) (v : Option TokenList) (s : List Scope) :
    (bindInnermost k v s).length = s.length := by
  cases s <;> simp [bindInnermost]

theorem bindInnermost_tail (k : String) (v : Option TokenList) (s : List Scope) :
    (bindInnermost k v s).tail = s.tail := by
  cases s <;> simp [bindInnermost]

theorem foldl_bindInnermost (bs : List (String × Option TokenList)) (s : List Scope) :
    (bs.foldl (fun s b => bindInnermost b.1 b.2 s) s).tail = s.tail ∧
    (bs.foldl (fun s b => bindInnermost b.1 b.2 s) s).length = s.length := by
  induction bs generalizing s with
  | nil => simp
  | cons b bs ih =>
    simp only [List.foldl_cons]
    rw [(ih _).1, (ih _).2, bindInnermost_tail, bindInnermost_length]
    exact ⟨rfl, rfl⟩

@[simp] theorem addDeclarationList_nil (r : RulesetRef) (st : State) :
    addDeclarationList r [] st = st := rfl

@[simp] theorem addDeclarationList_cons (r : RulesetRef) (d : Declaration)
    (ds : List Declaration) (st : State) :
    addDeclarationList r (d :: ds) st = addDeclarationList r ds (addDeclaration r d st) := rfl

theorem addDeclaration_fields (r : RulesetRef) (d : Declaration) (st : State) :
    (addDeclaration r d st).scopes = st.scopes ∧
    (addDeclaration r d st).trace = st.trace ∧
    (addDeclaration r d st).tokens = st.tokens ∧
    (addDeclaration r d st).atRules = st.atRules ∧
    (addDeclaration r d st).rulesets.map (·.selector) = st.rulesets.map (·.selector) ∧
    registrySelectors (addDeclaration r d st) = registrySelectors st := by
  have key : ∀ (l : List Ruleset) (i : Nat),
      (l.modify (addDeclTo d) i).map (·.selector) = l.map (·.selector) := by
    intro l i
    apply List.ext_getElem?
    intro n
    simp only [List.getElem?_map, List.getElem?_modify]
    by_cases h : i = n
    · subst h; simp only [if_true]
      cases l[i]? <;> simp [addDeclTo]
    · simp [h]
  cases r <;> simp [addDeclaration, registrySelectors, key]

theorem addDeclarationList_fields (r : RulesetRef) (ds : List Declaration) (st : State) :
    (addDeclarationList r ds st).scopes = st.scopes ∧
    (addDeclarationList r ds st).trace = st.trace ∧
    (addDeclarationList r ds st).tokens = st.tokens ∧
    (addDeclarationList r ds st).atRules = st.atRules ∧
    (addDeclarationList r ds st).rulesets.map (·.selector) = st.rulesets.map (·.selector) ∧
    registrySelectors (addDeclarationList r ds st) = registrySelectors st := by
  induction ds generalizing st with
  | nil => simp
  | cons d ds ih =>
    obtain ⟨h1, h2, h3, h4, h5, h6⟩ := ih (addDeclaration r d st)
    obtain ⟨g1, g2, g3, g4, g5, g6⟩ := addDeclaration_fields r d st
    simp [h1, h2, h3, h4, h5, h6, g1, g2, g3, g4, g5, g6]

/-! ## The registry loop -/

/-- One matching attempt: the scope stack is restored, the calls are those of `attemptEvents`,
and only declarations are added. -/
theorem tryMixin_spec (c : Collab) (args : List TokenList) (parent : RulesetRef) (i : Nat)
    (mixin : Ruleset) (ret : Bool) (st : State) :
    (tryMixin c args parent i mixin ret st).2.scopes = st.scopes ∧
    (tryMixin c args parent i mixin ret st).2.trace = st.trace ++
      ([Event.pushScope] ++
        (c.putArguments mixin.selector ([] :: st.scopes) args).2.map
          (fun b => Event.putVariable b.1 b.2) ++
        (if guardPasses c args st.scopes mixin.selector = true then [Event.addDeclarations i]
          else []) ++ [Event.popScope]) ∧
    (tryMixin c args parent i mixin ret st).1 =
      (guardPasses c args st.scopes mixin.selector || ret) ∧
    (tryMixin c args parent i mixin ret st).2.tokens = st.tokens ∧
    (tryMixin c args parent i mixin ret st).2.atRules = st.atRules ∧
    (tryMixin c args parent i mixin ret st).2.rulesets.map (·.selector) =
      st.rulesets.map (·.selector) ∧
    registrySelectors (tryMixin c args parent i mixin ret st).2 = registrySelectors st := by
  obtain ⟨p1, p2, p3, p4, p5, p6⟩ :=
    putVariables_fields (c.putArguments mixin.selector ([] :: st.scopes) args).2 (pushScope st)
  have hb : (putVariables (c.putArguments mixin.selector ([] :: st.scopes) args).2
      (pushScope st)).scopes = boundScopes c args st.scopes mixin.selector := by
    rw [p1]; rfl
  have ht := (foldl_bindInnermost (c.putArguments mixin.selector ([] :: st.scopes) args).2
    ([] :: st.scopes)).1
  by_cases hg : guardPasses c args st.scopes mixin.selector = true
  · have hg2 := hg
    simp only [guardPasses, Bool.and_eq_true] at hg2
    have hcond : (c.putArguments mixin.selector (pushScope st).scopes args).1 = true ∧
        c.matchConditions mixin.selector (putVariables
          (c.putArguments mixin.selector (pushScope st).scopes args).2 (pushScope st)).scopes
          = true := by
      simp only [pushScope_scopes]; rw [hb]; exact hg2
    obtain ⟨a1, a2, a3, a4, a5, a6⟩ := addDeclarationList_fields parent
      (c.addDeclarations mixin (putVariables
        (c.putArguments mixin.selector (pushScope st).scopes args).2 (pushScope st)).scopes)
      (logEvent (Event.addDeclarations i) (putVariables
        (c.putArguments mixin.selector (pushScope st).scopes args).2 (pushScope st)))
    simp only [tryMixin, hcond, and_self, if_true, popScope_scopes, popScope_trace,
      popScope_tokens, popScope_atRules, popScope_rulesets, registrySelectors,
      popScope_parameterRulesets, hg, Bool.true_or]
    simp only [registrySelectors] at a6
    simp only [pushScope_scopes] at a1 a2 a3 a4 a5 a6 ⊢
    rw [a1, a2, a3, a4, a5, a6]
    simp [p1, p2, p3, p4, p5, p6, ht]
  · have hcond : ¬ ((c.putArguments mixin.selector (pushScope st).scopes args).1 = true ∧
        c.matchConditions mixin.selector (putVariables
          (c.putArguments mixin.selector (pushScope st).scopes args).2 (pushScope st)).scopes
          = true) := by
      simp only [pushScope_scopes]; rw [hb]
      simpa [guardPasses] using hg
    simp only [tryMixin, hcond, if_false, popScope_scopes, popScope_trace,
      popScope_tokens, popScope_atRules, popScope_rulesets, registrySelectors,
      popScope_parameterRulesets, hg]
    simp [p1, p2, p3, p4, p5, p6, ht]

theorem loopEvents_cons (c : Collab) (key : TokenList) (args : List TokenList)
    (scopes : List Scope) (i : Nat) (sel : TokenList) (sels : List TokenList) :
    loopEvents c key args scopes i (sel :: sels) =
      attemptEvents c key args scopes i sel ++ loopEvents c key args scopes (i + 1) sels := by
  simp [loopEvents]

theorem firedFrom_cons (c : Collab) (key : TokenList) (args : List TokenList)
    (scopes : List Scope) (i : Nat) (sel : TokenList) (sels : List TokenList) :
    firedFrom c key args scopes i (sel :: sels) =
      (if fires c key args scopes sel = true then [i] else []) ++
        firedFrom c key args scopes (i + 1) sels := by
  by_cases h : fires c key args scopes sel = true <;> simp [firedFrom, List.filter_cons, h]

/-- The registry loop: scope stack restored, calls as expected, result true iff it was true or
some ruleset fired; only declarations are added. -/
theorem matchLoop_spec (c : Collab) (key : TokenList) (args : List TokenList)
    (parent : RulesetRef) (n : Nat) : ∀ (i : Nat) (ret : Bool) (st : State),
    i + n = st.parameterRulesets.length →
    (matchLoop c key args parent n i ret st).2.scopes = st.scopes ∧
    (matchLoop c key args parent n i ret st).2.trace = st.trace ++
      loopEvents c key args st.scopes i ((registrySelectors st).drop i) ∧
    (matchLoop c key args parent n i ret st).1 =
      (ret || !(firedFrom c key args st.scopes i ((registrySelectors st).drop i)).isEmpty) ∧
    (matchLoop c key args parent n i ret st).2.tokens = st.tokens ∧
    (matchLoop c key args parent n i ret st).2.atRules = st.atRules ∧
    (matchLoop c key args parent n i ret st).2.rulesets.map (·.selector) =
      st.rulesets.map (·.selector) ∧
    registrySelectors (matchLoop c key args parent n i ret st).2 = registrySelectors st := by
  induction n with
  | zero =>
    intro i ret st h
    have hd : (registrySelectors st).drop i = [] := by
      apply List.drop_eq_nil_of_le
      simp [registrySelectors]; omega
    simp [matchLoop, hd, loopEvents, firedFrom]
  | succ n ih =>
    intro i ret st h
    have hi : i < st.parameterRulesets.length := by omega
    have hget : st.parameterRulesets.get? i = some (st.parameterRulesets.get ⟨i, hi⟩) := by
      simp [List.getElem?_eq_getElem hi]
    have hd : (registrySelectors st).drop i =
        (st.parameterRulesets.get ⟨i, hi⟩).selector :: (registrySelectors st).drop (i + 1) := by
      have hi2 : i < (registrySelectors st).length := by simpa [registrySelectors] using hi
      rw [List.drop_eq_getElem_cons hi2]
      simp [registrySelectors]
    generalize st.parameterRulesets.get ⟨i, hi⟩ = mixin at hget hd
    rw [hd, loopEvents_cons, firedFrom_cons]
    by_cases hk : keyArgsMatch c key args mixin.selector = true
    · have hk2 : c.prSelector mixin.selector = key ∧
          c.matchArguments mixin.selector args = true := by
        simpa [keyArgsMatch] using hk
      obtain ⟨t1, t2, t3, t4, t5, t6, t7⟩ := tryMixin_spec c args parent i mixin ret st
      have hlen : i + 1 + n = (tryMixin c args parent i mixin ret st).2.parameterRulesets.length := by
        have := congrArg List.length t7
        simp only [registrySelectors, List.length_map] at this
        omega
      obtain ⟨m1, m2, m3, m4, m5, m6, m7⟩ := ih (i + 1) (tryMixin c args parent i mixin ret st).1
        (tryMixin c args parent i mixin ret st).2 hlen
      simp only [matchLoop, hget, hk2, and_self, if_true]
      rw [m1, m2, m3, m4, m5, m6, m7, t1, t2, t3, t4, t5, t6, t7]
      refine ⟨rfl, ?_, ?_, rfl, rfl, rfl, rfl⟩
      · simp [attemptEvents, hk]
      · by_cases hg : guardPasses c args st.scopes mixin.selector = true
        · simp [fires, hk, hg]
        · simp [fires, hk, hg]
    · have hk2 : ¬ (c.prSelector mixin.selector = key ∧
          c.matchArguments mixin.selector args = true) := by
        simpa [keyArgsMatch] using hk
      obtain ⟨m1, m2, m3, m4, m5, m6, m7⟩ := ih (i + 1) ret st (by omega)
      simp only [matchLoop, hget, hk2, if_false]
      rw [m1, m2, m3, m4, m5, m6, m7]
      refine ⟨rfl, ?_, ?_, rfl, rfl, rfl, rfl⟩
      · simp [attemptEvents, hk]
      · simp [fires, hk]

theorem processParameterMixin_eq (c : Collab) (selector : TokenList) (parent : RulesetRef)
    (st : State) (key : TokenList) (args : List TokenList)
    (hkey : callKey selector = some key)
    (hargs : callArguments c st.scopes selector = .ok args) :
    processParameterMixin c selector parent st =
      .ok (matchLoop c key args parent st.parameterRulesets.length 0 false st).1
        (matchLoop c key args parent st.parameterRulesets.length 0 false st).2 := by
  simp [processParameterMixin, hkey, hargs]

theorem addDeclarationsCalls_append (a b : List Event) :
    addDeclarationsCalls (a ++ b) = addDeclarationsCalls a ++ addDeclarationsCalls b := by
  simp [addDeclarationsCalls, List.filterMap_append]

theorem scopeCalls_append (a b : List Event) :
    scopeCalls (a ++ b) = scopeCalls a ++ scopeCalls b := by
  simp [scopeCalls, List.filter_append]

theorem addDeclarationsCalls_putVariables (bs : List (String × Option TokenList)) :
    addDeclarationsCalls (bs.map (fun b => Event.putVariable b.1 b.2)) = [] := by
  induction bs with
  | nil => rfl
  | cons b bs ih =>
    have e : ∀ l, addDeclarationsCalls (Event.putVariable b.1 b.2 :: l) =
        addDeclarationsCalls l := fun _ => rfl
    rw [List.map_cons, e, ih]

theorem scopeCalls_putVariables (bs : List (String × Option TokenList)) :
    scopeCalls (bs.map (fun b => Event.putVariable b.1 b.2)) =
      bs.map (fun b => Event.putVariable b.1 b.2) := by
  induction bs with
  | nil => rfl
  | cons b bs ih =>
    have e : ∀ l, scopeCalls (Event.putVariable b.1 b.2 :: l) =
        Event.putVariable b.1 b.2 :: scopeCalls l := fun _ => rfl
    rw [List.map_cons, e, ih]

theorem addDeclarationsCalls_loopEvents (c : Collab) (key : TokenList) (args : List TokenList)
    (scopes : List Scope) (sels : List TokenList) : ∀ i : Nat,
    addDeclarationsCalls (loopEvents c key args scopes i sels) =
      firedFrom c key args scopes i sels := by
  induction sels with
  | nil => intro i; rfl
  | cons sel sels ih =>
    intro i
    rw [loopEvents_cons, firedFrom_cons, addDeclarationsCalls_append, ih]
    congr 1
    by_cases hk : keyArgsMatch c key args sel = true
    · by_cases hg : guardPasses c args scopes sel = true
      · simp [attemptEvents, fires, hk, hg, addDeclarationsCalls_append,
          addDeclarationsCalls_putVariables]
        simp [addDeclarationsCalls]
      · simp [attemptEvents, fires, hk, hg, addDeclarationsCalls_append,
          addDeclarationsCalls_putVariables]
        simp [addDeclarationsCalls]
    · simp [attemptEvents, fires, hk, addDeclarationsCalls]

theorem scopeCalls_loopEvents (c : Collab) (key : TokenList) (args : List TokenList)
    (scopes : List Scope) (sels : List TokenList) : ∀ i : Nat,
    scopeCalls (loopEvents c key args scopes i sels) =
      sels.flatMap (attemptScopeCalls c key args scopes) := by
  induction sels with
  | nil => intro i; rfl
  | cons sel sels ih =>
    intro i
    rw [loopEvents_cons, scopeCalls_append, ih, List.flatMap_cons]
    congr 1
    by_cases hk : keyArgsMatch c key args sel = true
    · have e1 : scopeCalls [Event.pushScope] = [Event.pushScope] := rfl
      have e2 : scopeCalls [Event.popScope] = [Event.popScope] := rfl
      have e3 : scopeCalls [Event.addDeclarations i] = [] := rfl
      have e4 : scopeCalls [] = [] := rfl
      by_cases hg : guardPasses c args scopes sel = true
      · simp only [attemptEvents, attemptScopeCalls, hk, hg, if_true, scopeCalls_append,
          scopeCalls_putVariables, e1, e2, e3, List.append_nil]
      · have hg2 : guardPasses c args scopes sel = false := by simpa using hg
        simp only [attemptEvents, attemptScopeCalls, hk, hg2, if_true, Bool.false_eq_true,
          if_false, scopeCalls_append, scopeCalls_putVariables, e1, e2, e4, List.append_nil]
    · simp [attemptEvents, attemptScopeCalls, hk, scopeCalls]

theorem mem_firedFrom (c : Collab) (key : TokenList) (args : List TokenList)
    (scopes : List Scope) (sels : List TokenList) : ∀ (i j : Nat),
    j ∈ firedFrom c key args scopes i sels ↔
      i ≤ j ∧ ∃ sel, sels.get? (j - i) = some sel ∧ fires c key args scopes sel = true := by
  induction sels with
  | nil => intro i j; simp [firedFrom]
  | cons sel sels ih =>
    intro i j
    rw [firedFrom_cons, List.mem_append, ih]
    constructor
    · rintro (h | ⟨h1, sel1, h2, h3⟩)
      · by_cases hf : fires c key args scopes sel = true
        · simp only [hf, if_true, List.mem_singleton] at h
          subst h
          exact ⟨le_refl _, sel, by simp, hf⟩
        · simp [hf] at h
      · refine ⟨by omega, sel1, ?_, h3⟩
        have : j - i = (j - (i + 1)) + 1 := by omega
        rw [this]
        simpa using h2
    · rintro ⟨h1, sel1, h2, h3⟩
      by_cases hji : j = i
      · subst hji
        simp only [Nat.sub_self, List.get?_cons_zero, Option.some.injEq] at h2
        subst h2
        left; simp [h3]
      · right
        refine ⟨by omega, sel1, ?_, h3⟩
        have : j - i = (j - (i + 1)) + 1 := by omega
        rw [this] at h2
        simpa using h2

theorem pairwise_firedFrom (c : Collab) (key : TokenList) (args : List TokenList)
    (scopes : List Scope) (sels : List TokenList) : ∀ i : Nat,
    (firedFrom c key args scopes i sels).Pairwise (· < ·) := by
  induction sels with
  | nil => intro i; simp [firedFrom]
  | cons sel sels ih =>
    intro i
    rw [firedFrom_cons, List.pairwise_append]
    refine ⟨?_, ih (i + 1), ?_⟩
    · by_cases hf : fires c key args scopes sel = true <;> simp [hf]
    · intro a ha b hb
      have hb2 := ((mem_firedFrom c key args scopes sels (i + 1) b).1 hb).1
      by_cases hf : fires c key args scopes sel = true
      · simp only [hf, if_true, List.mem_singleton] at ha
        omega
      · simp [hf] at ha

theorem fires_iff (c : Collab) (key : TokenList) (args : List TokenList) (scopes : List Scope)
    (sel : TokenList) :
    fires c key args scopes sel = true ↔
      (c.prSelector sel = key ∧ c.matchArguments sel args = true ∧
        (c.putArguments sel ([] :: scopes) args).1 = true ∧
        c.matchConditions sel (boundScopes c args scopes sel) = true) := by
  simp [fires, keyArgsMatch, guardPasses, and_assoc]

theorem tryMixin_noguard (c : Collab) (args : List TokenList) (parent : RulesetRef) (i : Nat)
    (mixin : Ruleset) (ret : Bool) (st : State)
    (hg : guardPasses c args st.scopes mixin.selector = false) :
    (tryMixin c args parent i mixin ret st).2.rulesets = st.rulesets ∧
    (tryMixin c args parent i mixin ret st).2.parameterRulesets = st.parameterRulesets := by
  obtain ⟨p1, p2, p3, p4, p5, p6⟩ :=
    putVariables_fields (c.putArguments mixin.selector ([] :: st.scopes) args).2 (pushScope st)
  have hb : (putVariables (c.putArguments mixin.selector ([] :: st.scopes) args).2
      (pushScope st)).scopes = boundScopes c args st.scopes mixin.selector := by
    rw [p1]; rfl
  have hcond : ¬ ((c.putArguments mixin.selector (pushScope st).scopes args).1 = true ∧
      c.matchConditions mixin.selector (putVariables
        (c.putArguments mixin.selector (pushScope st).scopes args).2 (pushScope st)).scopes
        = true) := by
    simp only [pushScope_scopes]; rw [hb]
    simpa [guardPasses] using hg
  simp only [tryMixin, hcond, if_false, popScope_rulesets, popScope_parameterRulesets]
  simp [p4, p6]

theorem matchLoop_nofire (c : Collab) (key : TokenList) (args : List TokenList)
    (parent : RulesetRef) (n : Nat) : ∀ (i : Nat) (ret : Bool) (st : State),
    i + n = st.parameterRulesets.length →
    firedFrom c key args st.scopes i ((registrySelectors st).drop i) = [] →
    (matchLoop c key args parent n i ret st).2.rulesets = st.rulesets ∧
    (matchLoop c key args parent n i ret st).2.parameterRulesets = st.parameterRulesets := by
  induction n with
  | zero => intro i ret st _ _; simp [matchLoop]
  | succ n ih =>
    intro i ret st h hf
    have hi : i < st.parameterRulesets.length := by omega
    have hget : st.parameterRulesets.get? i = some (st.parameterRulesets.get ⟨i, hi⟩) := by
      simp [List.getElem?_eq_getElem hi]
    have hd : (registrySelectors st).drop i =
        (st.parameterRulesets.get ⟨i, hi⟩).selector :: (registrySelectors st).drop (i + 1) := by
      have hi2 : i < (registrySelectors st).length := by simpa [registrySelectors] using hi
      rw [List.drop_eq_getElem_cons hi2]
      simp [registrySelectors]
    generalize st.parameterRulesets.get ⟨i, hi⟩ = mixin at hget hd
    rw [hd, firedFrom_cons, List.append_eq_nil] at hf
    obtain ⟨hf1, hf2⟩ := hf
    have hnf : fires c key args st.scopes mixin.selector = false := by
      by_cases hx : fires c key args st.scopes mixin.selector = true
      · simp [hx] at hf1
      · simpa using hx
    by_cases hk : keyArgsMatch c key args mixin.selector = true
    · have hk2 : c.prSelector mixin.selector = key ∧
          c.matchArguments mixin.selector args = true := by
        simpa [keyArgsMatch] using hk
      have hg : guardPasses c args st.scopes mixin.selector = false := by
        simpa [fires, hk] using hnf
      obtain ⟨t1, t2, t3, t4, t5, t6, t7⟩ := tryMixin_spec c args parent i mixin ret st
      obtain ⟨u1, u2⟩ := tryMixin_noguard c args parent i mixin ret st hg
      have hlen : i + 1 + n = (tryMixin c args parent i mixin ret st).2.parameterRulesets.length := by
        rw [u2]; omega
      have hf3 : firedFrom c key args (tryMixin c args parent i mixin ret st).2.scopes (i + 1)
          ((registrySelectors (tryMixin c args parent i mixin ret st).2).drop (i + 1)) = [] := by
        rw [t1, t7]; exact hf2
      obtain ⟨m1, m2⟩ := ih (i + 1) (tryMixin c args parent i mixin ret st).1
        (tryMixin c args parent i mixin ret st).2 hlen hf3
      simp only [matchLoop, hget, hk2, and_self, if_true]
      rw [m1, m2, u1, u2]
      exact ⟨rfl, rfl⟩
    · have hk2 : ¬ (c.prSelector mixin.selector = key ∧
          c.matchArguments mixin.selector args = true) := by
        simpa [keyArgsMatch] using hk
      obtain ⟨m1, m2⟩ := ih (i + 1) ret st (by omega) hf2
      simp only [matchLoop, hget, hk2, if_false]
      exact ⟨m1, m2⟩

theorem nesting_append (a b : List Event) : ∀ d : Nat,
    nesting d (a ++ b) = (nesting d a).bind (fun d1 => nesting d1 b) := by
  induction a with
  | nil => intro d; rfl
  | cons e a ih =>
    intro d
    cases e with
    | pushScope => simp only [List.cons_append, nesting]; exact ih _
    | popScope =>
      cases d with
      | zero => simp [nesting]
      | succ d => simp only [List.cons_append, nesting]; exact ih _
    | putVariable k v => simp only [List.cons_append, nesting]; exact ih _
    | importFile f => simp only [List.cons_append, nesting]; exact ih _
    | addDeclarations i => simp only [List.cons_append, nesting]; exact ih _

theorem nesting_append_of (a b : List Event) (d1 d2 d3 : Nat)
    (ha : nesting d1 a = some d2) (hb : nesting d2 b = some d3) :
    nesting d1 (a ++ b) = some d3 := by
  rw [nesting_append, ha]; exact hb

theorem nesting_putVariables (bs : List (String × Option TokenList)) (d : Nat) :
    nesting d (bs.map (fun b => Event.putVariable b.1 b.2)) = some d := by
  induction bs with
  | nil => rfl
  | cons b bs ih => simpa [nesting] using ih

theorem nesting_attemptEvents (c : Collab) (key : TokenList) (args : List TokenList)
    (scopes : List Scope) (i : Nat) (sel : TokenList) (d : Nat) :
    nesting d (attemptEvents c key args scopes i sel) = some d := by
  unfold attemptEvents
  split
  · apply nesting_append_of _ _ d (d + 1) d
    · apply nesting_append_of _ _ d (d + 1) (d + 1)
      · apply nesting_append_of _ _ d (d + 1) (d + 1)
        · rfl
        · exact nesting_putVariables _ _
      · split <;> rfl
    · rfl
  · rfl

theorem nesting_loopEvents (c : Collab) (key : TokenList) (args : List TokenList)
    (scopes : List Scope) (sels : List TokenList) (d : Nat) : ∀ i : Nat,
    nesting d (loopEvents c key args scopes i sels) = some d := by
  induction sels with
  | nil => intro i; rfl
  | cons sel sels ih =>
    intro i
    rw [loopEvents_cons]
    exact nesting_append_of _ _ d d d (nesting_attemptEvents ..) (ih _)

theorem nesting_shift (ev : List Event) : ∀ (d d1 k : Nat), nesting d ev = some d1 →
    nesting (d + k) ev = some (d1 + k) := by
  induction ev with
  | nil => intro d d1 k h; simp only [nesting, Option.some.injEq] at h ⊢; omega
  | cons e ev ih =>
    intro d d1 k h
    cases e with
    | pushScope =>
      simp only [nesting] at h ⊢
      have := ih (d + 1) d1 k h
      rwa [show d + k + 1 = d + 1 + k by omega]
    | popScope =>
      cases d with
      | zero => simp [nesting] at h
      | succ d =>
        simp only [nesting] at h
        have := ih d d1 k h
        rw [show d + 1 + k = (d + k) + 1 by omega]
        simpa only [nesting] using this
    | putVariable k1 v => simp only [nesting] at h ⊢; exact ih _ _ _ h
    | importFile f => simp only [nesting] at h ⊢; exact ih _ _ _ h
    | addDeclarations i => simp only [nesting] at h ⊢; exact ih _ _ _ h

/-! ## C3, C4, C9: the parametric matching loop -/

/-- C3 (additive overload resolution). When `processParameterMixin` has a call key and an
argument list, it returns, and the calls to `addDeclarations` it makes are exactly the positions
of the registered parameter rulesets whose selector equals the key, whose `matchArguments` accepts
the arguments and whose `putArguments` and `matchConditions` both succeed: each such position
occurs, no other does, and the positions are strictly increasing (registration order, each once,
all matches and not only the first). The result is true iff such a ruleset exists. -/
theorem additive_overload_resolution (c : Collab) (selector : TokenList) (parent : RulesetRef)
    (st : State) (key : TokenList) (args : List TokenList)
    (hkey : callKey selector = some key)
    (hargs : callArguments c st.scopes selector = .ok args) :
    ∃ ret st1 ev, processParameterMixin c selector parent st = .ok ret st1 ∧
      st1.trace = st.trace ++ ev ∧
      (∀ i, i ∈ addDeclarationsCalls ev ↔
        ∃ mixin, st.parameterRulesets.get? i = some mixin ∧
          c.prSelector mixin.selector = key ∧ c.matchArguments mixin.selector args = true ∧
          (c.putArguments mixin.selector ([] :: st.scopes) args).1 = true ∧
          c.matchConditions mixin.selector (boundScopes c args st.scopes mixin.selector) = true) ∧
      (addDeclarationsCalls ev).Pairwise (· < ·) ∧
      (ret = true ↔
        ∃ i mixin, st.parameterRulesets.get? i = some mixin ∧
          c.prSelector mixin.selector = key ∧ c.matchArguments mixin.selector args = true ∧
          (c.putArguments mixin.selector ([] :: st.scopes) args).1 = true ∧
          c.matchConditions mixin.selector (boundScopes c args st.scopes mixin.selector) = true) := by
  obtain ⟨m1, m2, m3, m4, m5, m6, m7⟩ :=
    matchLoop_spec c key args parent st.parameterRulesets.length 0 false st (by simp)
  have hmem : ∀ i, i ∈ firedFrom c key args st.scopes 0 (registrySelectors st) ↔
      ∃ mixin, st.parameterRulesets.get? i = some mixin ∧
        c.prSelector mixin.selector = key ∧ c.matchArguments mixin.selector args = true ∧
        (c.putArguments mixin.selector ([] :: st.scopes) args).1 = true ∧
        c.matchConditions mixin.selector (boundScopes c args st.scopes mixin.selector)
          = true := by
    intro i
    rw [mem_firedFrom]
    simp only [Nat.zero_le, true_and, Nat.sub_zero, registrySelectors, fires_iff]
    constructor
    · rintro ⟨sel, h1, h2⟩
      simp only [List.get?_eq_getElem?, List.getElem?_map, Option.map_eq_some'] at h1
      obtain ⟨mixin, h3, h4⟩ := h1
      subst h4
      exact ⟨mixin, by simpa using h3, h2⟩
    · rintro ⟨mixin, h1, h2⟩
      refine ⟨mixin.selector, ?_, h2⟩
      simp only [List.get?_eq_getElem?] at h1
      simp [h1]
  refine ⟨_, _, _, processParameterMixin_eq c selector parent st key args hkey hargs, m2, ?_, ?_, ?_⟩
  · intro i
    rw [List.drop_zero, addDeclarationsCalls_loopEvents]
    exact hmem i
  · rw [List.drop_zero, addDeclarationsCalls_loopEvents]
    exact pairwise_firedFrom c key args st.scopes _ 0
  · rw [m3, List.drop_zero]
    simp only [Bool.false_or, Bool.not_eq_true', List.isEmpty_eq_false]
    constructor
    · intro hne
      obtain ⟨i, hi⟩ := List.exists_mem_of_ne_nil _ hne
      exact ⟨i, (hmem i).1 hi⟩
    · rintro ⟨i, hi⟩
      exact List.ne_nil_of_mem ((hmem i).2 hi)

/-- C4 (guard-gated mixins). A registered parameter ruleset whose `matchConditions` is false
for the call (in particular one whose key and arguments match the call) gets no
`addDeclarations` call; if no other registered
ruleset matches key and arguments, `processParameterMixin` returns false and no ruleset of the
stylesheet or of the registry has changed (nothing was added to the calling ruleset). -/
theorem guard_gated_mixin (c : Collab) (selector : TokenList) (parent : RulesetRef)
    (st : State) (key : TokenList) (args : List TokenList)
    (hkey : callKey selector = some key)
    (hargs : callArguments c st.scopes selector = .ok args)
    (i : Nat) (mixin : Ruleset) (hi : st.parameterRulesets.get? i = some mixin)
    (hguard : c.matchConditions mixin.selector (boundScopes c args st.scopes mixin.selector)
      = false) :
    ∃ ret st1 ev, processParameterMixin c selector parent st = .ok ret st1 ∧
      st1.trace = st.trace ++ ev ∧
      i ∉ addDeclarationsCalls ev ∧
      ((∀ j m, st.parameterRulesets.get? j = some m → j ≠ i →
          ¬ (c.prSelector m.selector = key ∧ c.matchArguments m.selector args = true)) →
        ret = false ∧ st1.rulesets = st.rulesets ∧
          st1.parameterRulesets = st.parameterRulesets) := by
  obtain ⟨m1, m2, m3, m4, m5, m6, m7⟩ :=
    matchLoop_spec c key args parent st.parameterRulesets.length 0 false st (by simp)
  have hmem : ∀ j, j ∈ firedFrom c key args st.scopes 0 (registrySelectors st) →
      ∃ m, st.parameterRulesets.get? j = some m ∧ fires c key args st.scopes m.selector = true := by
    intro j hj
    rw [mem_firedFrom] at hj
    obtain ⟨_, sel, h1, h2⟩ := hj
    simp only [Nat.sub_zero, registrySelectors, List.get?_eq_getElem?, List.getElem?_map,
      Option.map_eq_some'] at h1
    obtain ⟨m, h3, h4⟩ := h1
    subst h4
    exact ⟨m, by simpa using h3, h2⟩
  have hnot : i ∉ firedFrom c key args st.scopes 0 (registrySelectors st) := by
    intro hj
    obtain ⟨m, h1, h2⟩ := hmem i hj
    rw [hi] at h1
    cases h1
    rw [fires_iff] at h2
    rw [h2.2.2.2] at hguard
    exact Bool.noConfusion hguard
  refine ⟨_, _, _, processParameterMixin_eq c selector parent st key args hkey hargs, m2, ?_, ?_⟩
  · rw [List.drop_zero, addDeclarationsCalls_loopEvents]; exact hnot
  · intro hothers
    have hnil : firedFrom c key args st.scopes 0 (registrySelectors st) = [] := by
      apply List.eq_nil_iff_forall_not_mem.2
      intro j hj
      obtain ⟨m, h1, h2⟩ := hmem j hj
      by_cases hji : j = i
      · subst hji; exact hnot hj
      · rw [fires_iff] at h2
        exact hothers j m h1 hji ⟨h2.1, h2.2.1⟩
    obtain ⟨n1, n2⟩ := matchLoop_nofire c key args parent st.parameterRulesets.length 0 false st
      (by simp) (by rw [List.drop_zero]; exact hnil)
    refine ⟨?_, n1, n2⟩
    rw [m3, List.drop_zero, hnil]
    rfl

/-- C9 (scope bracketing of a matching attempt). When `processParameterMixin` returns, the scope
calls it made are, for each registered parameter ruleset in order: nothing if its key or its
arguments do not match; otherwise exactly one `pushScope`, then the bindings of `putArguments`,
then exactly one `popScope`, whatever `putArguments` and `matchConditions` answer. The scope
stack at return is the scope stack at entry, so the depth is the same. -/
theorem scope_bracketing (c : Collab) (selector : TokenList) (parent : RulesetRef)
    (st : State) (ret : Bool) (st1 : State)
    (h : processParameterMixin c selector parent st = .ok ret st1) :
    ∃ key args ev, callKey selector = some key ∧
      callArguments c st.scopes selector = .ok args ∧
      st1.trace = st.trace ++ ev ∧
      scopeCalls ev = (registrySelectors st).flatMap (fun sel =>
        if c.prSelector sel = key ∧ c.matchArguments sel args = true then
          [Event.pushScope] ++
            (c.putArguments sel ([] :: st.scopes) args).2.map
              (fun b => Event.putVariable b.1 b.2) ++ [Event.popScope]
        else []) ∧
      nesting 0 ev = some 0 ∧
      st1.scopes = st.scopes ∧ st1.scopes.length = st.scopes.length := by
  unfold processParameterMixin at h
  cases hkey : callKey selector with
  | none => simp [hkey] at h
  | some key =>
    cases hargs : callArguments c st.scopes selector with
    | error e => simp [hkey, hargs] at h
    | ok args =>
      simp only [hkey, hargs, Outcome.ok.injEq] at h
      obtain ⟨_, h2⟩ := h
      obtain ⟨m1, m2, m3, m4, m5, m6, m7⟩ :=
        matchLoop_spec c key args parent st.parameterRulesets.length 0 false st (by simp)
      rw [h2] at m1 m2
      refine ⟨key, args, _, rfl, rfl, m2, ?_, ?_, m1, by rw [m1]⟩
      · rw [List.drop_zero, scopeCalls_loopEvents]
        congr 1
        funext sel
        simp [attemptScopeCalls, keyArgsMatch]
      · exact nesting_loopEvents ..

/-- Witness for C3: in the registry `.m(@a)`, `.m(@a; @b: 2)`, `.m(@a; @b)`, the call `.m(1)` is
accepted by the first two rulesets and both expand, in order; the third, which needs two
arguments, does not. In the registry `.m(@a)`, `.m(@a; @b)` (same key, arities 1 and 2), the
call `.m(1)` expands the first ruleset only and the call `.m(1; 2)` the second only. -/
theorem additive_overload_resolution_witness :
    callKey Demo.callM1 = some [Demo.dot, Demo.ident "m"] ∧
    callArguments specCollab Demo.overloads.scopes Demo.callM1 = .ok [[Demo.num "1"]] ∧
    (∃ ret st1 ev,
      processParameterMixin specCollab Demo.callM1 (.plain 0) Demo.overloads = .ok ret st1 ∧
      st1.trace = Demo.overloads.trace ++ ev ∧
      (∀ i, i ∈ addDeclarationsCalls ev ↔
        ∃ mixin, Demo.overloads.parameterRulesets.get? i = some mixin ∧
          specCollab.prSelector mixin.selector = [Demo.dot, Demo.ident "m"] ∧
          specCollab.matchArguments mixin.selector [[Demo.num "1"]] = true ∧
          (specCollab.putArguments mixin.selector ([] :: Demo.overloads.scopes)
            [[Demo.num "1"]]).1 = true ∧
          specCollab.matchConditions mixin.selector
            (boundScopes specCollab [[Demo.num "1"]] Demo.overloads.scopes mixin.selector)
            = true) ∧
      (addDeclarationsCalls ev).Pairwise (· < ·) ∧
      (ret = true ↔
        ∃ i mixin, Demo.overloads.parameterRulesets.get? i = some mixin ∧
          specCollab.prSelector mixin.selector = [Demo.dot, Demo.ident "m"] ∧
          specCollab.matchArguments mixin.selector [[Demo.num "1"]] = true ∧
          (specCollab.putArguments mixin.selector ([] :: Demo.overloads.scopes)
            [[Demo.num "1"]]).1 = true ∧
          specCollab.matchConditions mixin.selector
            (boundScopes specCollab [[Demo.num "1"]] Demo.overloads.scopes mixin.selector)
            = true)) ∧
    processParameterMixin specCollab Demo.callM1 (.plain 0) Demo.overloads =
      .ok true Demo.expanded ∧
    addDeclarationsCalls Demo.expanded.trace = [0, 1] ∧
    (processParameterMixin specCollab Demo.callM1 (.plain 0) Demo.twoArities).state?.map
      (fun s => addDeclarationsCalls s.trace) = some [0] ∧
    (processParameterMixin specCollab Demo.callM2 (.plain 0) Demo.twoArities).state?.map
      (fun s => addDeclarationsCalls s.trace) = some [1] :=
  ⟨by decide, rfl,
    additive_overload_resolution specCollab Demo.callM1 (.plain 0) Demo.overloads
      [Demo.dot, Demo.ident "m"] [[Demo.num "1"]] (by decide) rfl,
    by decide, by decide, by decide, by decide⟩

/-- Witness for C4: with a guard that is false, the only registered ruleset `.m(@a)` matches the
call `.m(1)` by key and arguments, is not expanded, and the call returns false. -/
theorem guard_gated_mixin_witness :
    callKey Demo.callM1 = some [Demo.dot, Demo.ident "m"] ∧
    callArguments Demo.falseGuard Demo.single.scopes Demo.callM1 = .ok [[Demo.num "1"]] ∧
    Demo.single.parameterRulesets.get? 0 = some ⟨Demo.selM1, [⟨"left", [Demo.atk "@a"]⟩]⟩ ∧
    (Demo.falseGuard.prSelector Demo.selM1 = [Demo.dot, Demo.ident "m"] ∧
      Demo.falseGuard.matchArguments Demo.selM1 [[Demo.num "1"]] = true) ∧
    Demo.falseGuard.matchConditions Demo.selM1
      (boundScopes Demo.falseGuard [[Demo.num "1"]] Demo.single.scopes Demo.selM1) = false ∧
    (∃ ret st1 ev,
      processParameterMixin Demo.falseGuard Demo.callM1 (.plain 0) Demo.single = .ok ret st1 ∧
      st1.trace = Demo.single.trace ++ ev ∧
      0 ∉ addDeclarationsCalls ev ∧
      ((∀ j m, Demo.single.parameterRulesets.get? j = some m → j ≠ 0 →
          ¬ (Demo.falseGuard.prSelector m.selector = [Demo.dot, Demo.ident "m"] ∧
            Demo.falseGuard.matchArguments m.selector [[Demo.num "1"]] = true)) →
        ret = false ∧ st1.rulesets = Demo.single.rulesets ∧
          st1.parameterRulesets = Demo.single.parameterRulesets)) ∧
    (∀ j m, Demo.single.parameterRulesets.get? j = some m → j ≠ 0 →
      ¬ (Demo.falseGuard.prSelector m.selector = [Demo.dot, Demo.ident "m"] ∧
        Demo.falseGuard.matchArguments m.selector [[Demo.num "1"]] = true)) :=
  ⟨by decide, rfl, by decide, by decide, rfl,
    guard_gated_mixin Demo.falseGuard Demo.callM1 (.plain 0) Demo.single
      [Demo.dot, Demo.ident "m"] [[Demo.num "1"]] (by decide) rfl 0
      ⟨Demo.selM1, [⟨"left", [Demo.atk "@a"]⟩]⟩ (by decide) rfl,
    by
      intro j m h hj
      cases j with
      | zero => exact absurd rfl hj
      | succ j => simp [Demo.single] at h⟩

/-- Witness for C9: the call `.m(1)` on the registry with three overloads of `.m`. -/
theorem scope_bracketing_witness :
    processParameterMixin specCollab Demo.callM1 (.plain 0) Demo.overloads =
      .ok true Demo.expanded ∧
    ∃ key args ev, callKey Demo.callM1 = some key ∧
      callArguments specCollab Demo.overloads.scopes Demo.callM1 = .ok args ∧
      Demo.expanded.trace = Demo.overloads.trace ++ ev ∧
      scopeCalls ev = (registrySelectors Demo.overloads).flatMap (fun sel =>
        if specCollab.prSelector sel = key ∧ specCollab.matchArguments sel args = true then
          [Event.pushScope] ++
            (specCollab.putArguments sel ([] :: Demo.overloads.scopes) args).2.map
              (fun b => Event.putVariable b.1 b.2) ++ [Event.popScope]
        else []) ∧
      nesting 0 ev = some 0 ∧
      Demo.expanded.scopes = Demo.overloads.scopes ∧
      Demo.expanded.scopes.length = Demo.overloads.scopes.length :=
  ⟨by decide,
    scope_bracketing specCollab Demo.callM1 (.plain 0) Demo.overloads true Demo.expanded
      (by decide)⟩

/-! ## Frame and scope invariants -/

theorem frame_refl (t : Option RulesetRef) (st : State) : Frame t st st := by
  intro r x h
  exact ⟨[], by simp [h], fun _ => rfl⟩

theorem frame_trans {t : Option RulesetRef} {a b d : State}
    (h1 : Frame t a b) (h2 : Frame t b d) : Frame t a d := by
  intro r x h
  obtain ⟨ds1, e1, n1⟩ := h1 r x h
  obtain ⟨ds2, e2, n2⟩ := h2 r _ e1
  refine ⟨ds1 ++ ds2, by simp [e2], fun hne => ?_⟩
  simp [n1 hne, n2 hne]

theorem frame_mono {t : Option RulesetRef} {a b : State} (h : Frame none a b) : Frame t a b := by
  intro r x hx
  obtain ⟨ds, e, n⟩ := h r x hx
  exact ⟨ds, e, fun _ => n (by simp)⟩

theorem getRulesetAt_congr {a b : State} (h1 : b.rulesets = a.rulesets)
    (h2 : b.parameterRulesets = a.parameterRulesets) (r : RulesetRef) :
    getRulesetAt b r = getRulesetAt a r := by
  cases r <;> simp [getRulesetAt, h1, h2]

theorem frame_of_eq {t : Option RulesetRef} {a b : State} (h1 : b.rulesets = a.rulesets)
    (h2 : b.parameterRulesets = a.parameterRulesets) : Frame t a b := by
  intro r x h
  exact ⟨[], by simp [getRulesetAt_congr h1 h2, h], fun _ => rfl⟩

theorem frame_congr_right {t : Option RulesetRef} {a b b1 : State} (h : Frame t a b)
    (h1 : b1.rulesets = b.rulesets) (h2 : b1.parameterRulesets = b.parameterRulesets) :
    Frame t a b1 :=
  frame_trans h (frame_of_eq h1 h2)

theorem frame_congr_left {t : Option RulesetRef} {a a1 b : State} (h : Frame t a b)
    (h1 : a.rulesets = a1.rulesets) (h2 : a.parameterRulesets = a1.parameterRulesets) :
    Frame t a1 b :=
  frame_trans (frame_of_eq h1 h2) h

theorem getRulesetAt_addDeclaration_self (r : RulesetRef) (d : Declaration) (st : State) :
    getRulesetAt (addDeclaration r d st) r = (getRulesetAt st r).map (addDeclTo d) := by
  cases r <;> simp [getRulesetAt, addDeclaration, List.getElem?_modify]

theorem getRulesetAt_addDeclaration_ne (r r1 : RulesetRef) (d : Declaration) (st : State)
    (h : r1 ≠ r) : getRulesetAt (addDeclaration r d st) r1 = getRulesetAt st r1 := by
  cases r with
  | plain i =>
    cases r1 with
    | plain j =>
      have : i ≠ j := fun e => h (by rw [e])
      simp [getRulesetAt, addDeclaration, List.getElem?_modify, this]
    | param j => simp [getRulesetAt, addDeclaration]
  | param i =>
    cases r1 with
    | plain j => simp [getRulesetAt, addDeclaration]
    | param j =>
      have : i ≠ j := fun e => h (by rw [e])
      simp [getRulesetAt, addDeclaration, List.getElem?_modify, this]

theorem frame_addDeclaration (r : RulesetRef) (d : Declaration) (st : State) :
    Frame (some r) st (addDeclaration r d st) := by
  intro r1 x h
  by_cases hr : r1 = r
  · subst hr
    refine ⟨[d], ?_, fun hne => absurd rfl hne⟩
    rw [getRulesetAt_addDeclaration_self, h]
    rfl
  · refine ⟨[], ?_, fun _ => rfl⟩
    rw [getRulesetAt_addDeclaration_ne _ _ _ _ hr, h]
    simp

theorem frame_addDeclarationList (r : RulesetRef) (ds : List Declaration) : ∀ st : State,
    Frame (some r) st (addDeclarationList r ds st) := by
  induction ds with
  | nil => intro st; exact frame_refl _ _
  | cons d ds ih =>
    intro st
    exact frame_trans (frame_addDeclaration r d st) (ih _)

theorem balanced_refl (st : State) : Balanced st st :=
  ⟨[], by simp, rfl⟩

theorem balanced_trans {a b d : State} (h1 : Balanced a b) (h2 : Balanced b d) :
    Balanced a d := by
  obtain ⟨e1, t1, n1⟩ := h1
  obtain ⟨e2, t2, n2⟩ := h2
  exact ⟨e1 ++ e2, by rw [t2, t1, List.append_assoc], nesting_append_of _ _ 0 0 0 n1 n2⟩

theorem balanced_of_eq {a b : State} (h : b.trace = a.trace) : Balanced a b :=
  ⟨[], by simp [h], rfl⟩

theorem step_refl (t : Option RulesetRef) (st : State) : Step t st st :=
  ⟨frame_refl _ _, rfl, rfl, balanced_refl _⟩

theorem step_trans {t : Option RulesetRef} {a b d : State} (h1 : Step t a b) (h2 : Step t b d) :
    Step t a d :=
  ⟨frame_trans h1.frame h2.frame, h2.tail.trans h1.tail, h2.len.trans h1.len,
    balanced_trans h1.bal h2.bal⟩

theorem step_mono {t : Option RulesetRef} {a b : State} (h : Step none a b) : Step t a b :=
  ⟨frame_mono h.frame, h.tail, h.len, h.bal⟩

/-- A change of the tokenizer only. -/
theorem step_of_eq {t : Option RulesetRef} {a b : State} (h1 : b.scopes = a.scopes)
    (h2 : b.rulesets = a.rulesets) (h3 : b.parameterRulesets = a.parameterRulesets)
    (h4 : b.trace = a.trace) : Step t a b :=
  ⟨frame_of_eq h2 h3, by rw [h1], by rw [h1], balanced_of_eq h4⟩

theorem step_putVariable (t : Option RulesetRef) (k : String) (v : Option TokenList)
    (st : State) : Step t st (putVariable k v st) :=
  ⟨frame_of_eq rfl rfl, bindInnermost_tail k v _, bindInnermost_length k v _,
    ⟨[Event.putVariable k v], rfl, rfl⟩⟩

theorem step_addDeclaration (r : RulesetRef) (d : Declaration) (st : State) :
    Step (some r) st (addDeclaration r d st) := by
  obtain ⟨g1, g2, g3, g4, g5, g6⟩ := addDeclaration_fields r d st
  exact ⟨frame_addDeclaration r d st, by rw [g1], by rw [g1], balanced_of_eq g2⟩

theorem AbortInv.of_len {a b : State} {r : Abort} (h : AbortInv b r)
    (hl : a.scopes.length ≤ b.scopes.length) : AbortInv a r :=
  fun s hs => le_trans hl (h s hs)

theorem AbortInv.raised (st s : State) (e : ParseException)
    (h : st.scopes.length ≤ s.scopes.length) : AbortInv st (.raised e s) := by
  intro s1 hs
  simp only [Abort.state?, Option.some.injEq] at hs
  subst hs; exact h

theorem AbortInv.fault (st s : State) (h : st.scopes.length ≤ s.scopes.length) :
    AbortInv st (.fault s) := by
  intro s1 hs
  simp only [Abort.state?, Option.some.injEq] at hs
  subst hs; exact h

theorem AbortInv.outOfFuel (st : State) : AbortInv st .outOfFuel := by
  intro s hs
  simp [Abort.state?] at hs

@[simp] theorem Outcome.sat_ok {α : Type} (a : α) (s : State) (P : State → Prop)
    (Q : Abort → Prop) : (Outcome.ok a s).Sat P Q ↔ P s := Iff.rfl

@[simp] theorem Outcome.sat_stop {α : Type} (r : Abort) (P : State → Prop)
    (Q : Abort → Prop) : (Outcome.stop r : Outcome α).Sat P Q ↔ Q r := Iff.rfl

/-- A state that differs from `st` by the tokenizer only. -/
theorem step_tokens (t : Option RulesetRef) (st : State) (toks : List Token) :
    Step t st { st with tokens := toks } :=
  step_of_eq rfl rfl rfl rfl

theorem liftCss_sat {α : Type} (t : Option RulesetRef)
    (r : Except ParseException (α × List Token)) (st : State) :
    (liftCss r st).Sat (fun s => Step t st s ∧ s.scopes = st.scopes) (AbortInv st) := by
  unfold liftCss
  split
  · exact AbortInv.raised _ _ _ (le_refl _)
  · exact ⟨step_tokens _ _ _, rfl⟩

theorem skipRead_step (t : Option RulesetRef) (st : State) :
    Step t st (skipWhitespace (readNextToken st)) :=
  step_of_eq rfl rfl rfl rfl

theorem parseValue_sat (c : Collab) (t : Option RulesetRef) (st : State) :
    (parseValue c st).Sat (fun s => Step t st s ∧ s.scopes = st.scopes) (AbortInv st) := by
  unfold parseValue liftCss
  split
  · split at * <;> simp_all
    · rename_i heq
      cases heq
      exact AbortInv.raised _ _ _ (le_refl _)
  · rename_i heq
    split at heq
    · cases heq
    · cases heq
      exact ⟨step_tokens _ _ _, rfl⟩
  · rename_i heq
    split at heq
    · cases heq
    · cases heq
      split
      · exact AbortInv.raised _ _ _ (le_refl _)
      · exact ⟨step_tokens _ _ _, rfl⟩

theorem parseVariableValue_sat (c : Collab) (t : Option RulesetRef) (keyword : String)
    (st : State) :
    (parseVariableValue c keyword st).Sat (Step t st) (AbortInv st) := by
  unfold parseVariableValue
  have h := parseValue_sat c t (skipWhitespace (readNextToken st))
  cases hv : parseValue c (skipWhitespace (readNextToken st)) with
  | stop r =>
    rw [hv] at h
    exact AbortInv.of_len h (le_refl _)
  | ok rule st1 =>
    rw [hv] at h
    obtain ⟨h1, h2⟩ := h
    have hs : Step t st st1 := step_trans (skipRead_step t st) h1
    have hl : st.scopes.length ≤ st1.scopes.length := by rw [hs.len]
    cases rule with
    | none => exact AbortInv.raised _ _ _ hl
    | some l =>
      cases l with
      | nil => exact AbortInv.raised _ _ _ hl
      | cons x xs =>
        simp only
        split
        · exact AbortInv.raised _ _ _ hl
        · exact step_trans hs (step_trans (step_putVariable t keyword _ st1)
            (skipRead_step t _))

theorem parseVariable_sat (c : Collab) (t : Option RulesetRef) (keyword : String)
    (st : State) :
    (parseVariable c keyword st).Sat (Step t st) (AbortInv st) := by
  unfold parseVariable
  split
  · split
    · exact step_refl _ _
    · simp only
      split
      · exact AbortInv.raised _ _ _ (le_refl _)
      · have h := parseVariableValue_sat c t (curStr st) (skipWhitespace (readNextToken st))
        cases hv : parseVariableValue c (curStr st) (skipWhitespace (readNextToken st)) with
        | stop r => rw [hv] at h; exact AbortInv.of_len h (le_refl _)
        | ok b s => rw [hv] at h; exact step_trans (skipRead_step t st) h
  · split
    · exact step_refl _ _
    · exact parseVariableValue_sat c t keyword st

@[simp] theorem putVariables_rulesets (bs : List (String × Option TokenList)) (st : State) :
    (putVariables bs st).rulesets = st.rulesets :=
  (putVariables_fields bs st).2.2.2.1

@[simp] theorem putVariables_parameterRulesets (bs : List (String × Option TokenList))
    (st : State) : (putVariables bs st).parameterRulesets = st.parameterRulesets :=
  (putVariables_fields bs st).2.2.2.2.2

theorem tryMixin_frame (c : Collab) (args : List TokenList) (parent : RulesetRef) (i : Nat)
    (mixin : Ruleset) (ret : Bool) (st : State) :
    Frame (some parent) st (tryMixin c args parent i mixin ret st).2 := by
  unfold tryMixin
  simp only
  split
  · refine frame_congr_right (frame_congr_left (frame_addDeclarationList parent _ _) ?_ ?_)
      rfl rfl
    · simp
    · simp
  · exact frame_of_eq (by simp) (by simp)

theorem matchLoop_frame (c : Collab) (key : TokenList) (args : List TokenList)
    (parent : RulesetRef) (n : Nat) : ∀ (i : Nat) (ret : Bool) (st : State),
    Frame (some parent) st (matchLoop c key args parent n i ret st).2 := by
  induction n with
  | zero => intro i ret st; exact frame_refl _ _
  | succ n ih =>
    intro i ret st
    unfold matchLoop
    split
    · exact frame_refl _ _
    · split
      · exact frame_trans (tryMixin_frame c args parent i _ ret st) (ih _ _ _)
      · exact ih _ _ _

theorem matchLoop_step (c : Collab) (key : TokenList) (args : List TokenList)
    (parent : RulesetRef) (st : State) :
    Step (some parent) st
      (matchLoop c key args parent st.parameterRulesets.length 0 false st).2 ∧
    (matchLoop c key args parent st.parameterRulesets.length 0 false st).2.scopes =
      st.scopes := by
  obtain ⟨m1, m2, m3, m4, m5, m6, m7⟩ :=
    matchLoop_spec c key args parent st.parameterRulesets.length 0 false st (by simp)
  exact ⟨⟨matchLoop_frame c key args parent _ 0 false st, by rw [m1], by rw [m1],
    ⟨_, m2, nesting_loopEvents c key args st.scopes _ 0 0⟩⟩, m1⟩

theorem processParameterMixin_sat (c : Collab) (selector : TokenList) (parent : RulesetRef)
    (st : State) :
    (processParameterMixin c selector parent st).Sat
      (fun s => Step (some parent) st s ∧ s.scopes = st.scopes) (AbortInv st) := by
  unfold processParameterMixin
  split
  · exact AbortInv.fault _ _ (le_refl _)
  · split
    · exact AbortInv.raised _ _ _ (le_refl _)
    · exact matchLoop_step ..

theorem copyDeclarations_sat (mixin target : RulesetRef) (fuel : Nat) :
    ∀ (i : Nat) (st : State),
    (copyDeclarations mixin target fuel i st).Sat
      (fun s => Step (some target) st s ∧ s.scopes = st.scopes) (AbortInv st) := by
  induction fuel with
  | zero => intro i st; exact AbortInv.outOfFuel _
  | succ fuel ih =>
    intro i st
    unfold copyDeclarations
    split
    · exact ⟨step_refl _ _, rfl⟩
    · rename_i d _
      have h := ih (i + 1) (addDeclaration target d st)
      have hs := step_addDeclaration target d st
      have hsc := (addDeclaration_fields target d st).1
      cases hc : copyDeclarations mixin target fuel (i + 1) (addDeclaration target d st) with
      | stop r => rw [hc] at h; exact AbortInv.of_len h (by rw [hsc])
      | ok u s => rw [hc] at h; exact ⟨step_trans hs h.1, by rw [h.2, hsc]⟩

theorem parseMixin_sat (c : Collab) (fuel : Nat) (selector : TokenList) (ruleset : RulesetRef)
    (st : State) :
    (parseMixin c fuel selector ruleset st).Sat
      (fun s => Step (some ruleset) st s ∧ s.scopes = st.scopes) (AbortInv st) := by
  unfold parseMixin
  have h := processParameterMixin_sat c selector ruleset st
  cases hp : processParameterMixin c selector ruleset st with
  | stop r => rw [hp] at h; exact h
  | ok ret st1 =>
    rw [hp] at h
    obtain ⟨h1, h2⟩ := h
    simp only
    split
    · rename_i m _
      have hc := copyDeclarations_sat (.plain m) ruleset fuel 0 st1
      cases hcd : copyDeclarations (.plain m) ruleset fuel 0 st1 with
      | stop r => rw [hcd] at hc; exact AbortInv.of_len hc (by rw [h2])
      | ok u s => rw [hcd] at hc; exact ⟨step_trans h1 hc.1, by rw [hc.2, h2]⟩
    · exact ⟨h1, h2⟩

theorem parseDeclarationRest_sat (c : Collab) (property : String) (rest : TokenList)
    (ruleset : RulesetRef) (st : State) :
    (parseDeclarationRest c property rest ruleset st).Sat
      (fun s => Step (some ruleset) st s ∧ s.scopes = st.scopes) (AbortInv st) := by
  unfold parseDeclarationRest
  have h := liftCss_sat (some ruleset) (c.cssParseValue st.tokens) st
  cases hl : liftCss (c.cssParseValue st.tokens) st with
  | stop r => rw [hl] at h; exact h
  | ok value st1 =>
    rw [hl] at h
    obtain ⟨h1, h2⟩ := h
    simp only
    split
    · exact AbortInv.raised _ _ _ (by rw [h2])
    · exact ⟨step_trans h1 (step_addDeclaration _ _ _),
        by rw [(addDeclaration_fields _ _ _).1, h2]⟩

theorem openRuleset_inv (c : Collab) (selector : Option TokenList) (st : State)
    (ref : RulesetRef) (st2 : State) (h : openRuleset c selector st = some (ref, st2)) :
    HeadInv st ref st2 := by
  unfold openRuleset at h
  cases selector with
  | none => simp at h
  | some sel =>
    simp only at h
    cases hl : sel.getLast? with
    | none => simp [hl] at h
    | some last =>
      simp only [hl] at h
      split at h
      · simp only [Option.some.injEq, Prod.mk.injEq] at h
        obtain ⟨h1, h2⟩ := h
        subst h1; subst h2
        refine ⟨?_, ?_, rfl, rfl, ⟨[Event.pushScope], rfl, rfl⟩⟩
        · intro r x hx
          refine ⟨[], ?_, fun _ => rfl⟩
          cases r with
          | plain i =>
            simp only [getRulesetAt, List.get?_eq_getElem?] at hx ⊢
            have hi : i < st.rulesets.length := by
              by_contra hcon
              rw [List.getElem?_eq_none (by omega)] at hx
              cases hx
            simp [List.getElem?_append_left hi, hx]
          | param i => simpa [getRulesetAt] using hx
        · simp [getRulesetAt]
      · simp only [Option.some.injEq, Prod.mk.injEq] at h
        obtain ⟨h1, h2⟩ := h
        subst h1; subst h2
        obtain ⟨p1, p2, p3, p4, p5, p6⟩ := putVariables_fields
          ((c.getKeywords sel).map (fun k => (k, (none : Option TokenList))))
          (registerParameterRuleset ⟨sel, []⟩ (pushScope st))
        have hf := foldl_bindInnermost
          ((c.getKeywords sel).map (fun k => (k, (none : Option TokenList)))) ([] :: st.scopes)
        refine ⟨?_, ?_, ?_, ?_, ⟨[Event.pushScope] ++
          ((c.getKeywords sel).map (fun k => (k, (none : Option TokenList)))).map
            (fun b => Event.putVariable b.1 b.2), ?_, ?_⟩⟩
        · intro r x hx
          refine ⟨[], ?_, fun _ => rfl⟩
          cases r with
          | plain i => simpa [getRulesetAt, p4] using hx
          | param i =>
            simp only [getRulesetAt, List.get?_eq_getElem?, p6] at hx ⊢
            have hi : i < st.parameterRulesets.length := by
              by_contra hcon
              rw [List.getElem?_eq_none (by omega)] at hx
              cases hx
            simp [List.getElem?_append_left hi, hx]
        · simp [getRulesetAt]
        · rw [p1]; exact hf.1
        · rw [p1]; exact hf.2
        · rw [p2]
          simp only [registerParameterRuleset_trace, pushScope_trace, List.append_assoc]
        · exact nesting_append_of _ _ 0 1 1 rfl (nesting_putVariables _ 1)

theorem parseRulesetHead_none (c : Collab) (selector : Option TokenList) (st st1 : State)
    (h : parseRulesetHead c selector st = .ok none st1) :
    Step none st st1 ∧ st1.scopes = st.scopes := by
  unfold parseRulesetHead at h
  have hl := liftCss_sat none (c.parseSelector st.tokens) st
  split at h
  · cases h
  · rename_i selector1 s1 heq
    have hs : Step none st s1 ∧ s1.scopes = st.scopes := by
      cases selector with
      | none => simp only at heq; rw [heq] at hl; exact hl
      | some s =>
        simp only [Outcome.ok.injEq] at heq
        obtain ⟨_, h2⟩ := heq
        subst h2
        exact ⟨step_refl _ _, rfl⟩
    split at h
    · split at h
      · simp only [Outcome.ok.injEq, true_and] at h
        subst h; exact hs
      · cases h
    · split at h
      · cases h
      · cases h

theorem parseRulesetHead_some (c : Collab) (selector : Option TokenList) (st st2 : State)
    (ref : RulesetRef) (h : parseRulesetHead c selector st = .ok (some ref) st2) :
    HeadInv st ref st2 := by
  unfold parseRulesetHead at h
  have hl := liftCss_sat none (c.parseSelector st.tokens) st
  split at h
  · cases h
  · rename_i selector1 s1 heq
    have hs : Step none st s1 ∧ s1.scopes = st.scopes := by
      cases selector with
      | none => simp only at heq; rw [heq] at hl; exact hl
      | some s =>
        simp only [Outcome.ok.injEq] at heq
        obtain ⟨_, h2⟩ := heq
        subst h2
        exact ⟨step_refl _ _, rfl⟩
    split at h
    · split at h
      · cases h
      · cases h
    · split at h
      · cases h
      · rename_i ruleset s2 hopen
        simp only [Outcome.ok.injEq, Option.some.injEq] at h
        obtain ⟨h1, h2⟩ := h
        subst h1; subst h2
        have hi := openRuleset_inv c selector1 (readNextToken s1) ruleset s2 hopen
        obtain ⟨ev, e1, e2⟩ := hi.trace
        obtain ⟨ev0, e3, e4⟩ := hs.1.bal
        refine ⟨?_, ?_, ?_, ?_, ⟨ev0 ++ ev, ?_, ?_⟩⟩
        · exact frame_trans hs.1.frame (frame_congr_right
            (frame_congr_left hi.frame rfl rfl) rfl rfl)
        · have := hi.fresh
          rw [getRulesetAt_congr (a := s1) (b := readNextToken s1) rfl rfl] at this
          cases ruleset with
          | plain i =>
            simp only [getRulesetAt] at this ⊢
            have hf := hs.1.frame
            by_contra hcon
            obtain ⟨x, hx⟩ := Option.ne_none_iff_exists'.1 hcon
            obtain ⟨ds, hd, _⟩ := hf (.plain i) x (by simpa [getRulesetAt] using hx)
            simp only [getRulesetAt] at hd
            rw [hd] at this
            cases this
          | param i =>
            simp only [getRulesetAt] at this ⊢
            have hf := hs.1.frame
            by_contra hcon
            obtain ⟨x, hx⟩ := Option.ne_none_iff_exists'.1 hcon
            obtain ⟨ds, hd, _⟩ := hf (.param i) x (by simpa [getRulesetAt] using hx)
            simp only [getRulesetAt] at hd
            rw [hd] at this
            cases this
        · simp only [skipWhitespace_scopes]
          rw [hi.tail]; simp [hs.2]
        · simp only [skipWhitespace_scopes]
          rw [hi.len]; simp [hs.2]
        · simp only [skipWhitespace_trace]
          rw [e1]; simp [e3, List.append_assoc]
        · exact nesting_append_of _ _ 0 0 1 e4 e2

theorem parseRulesetHead_stop (c : Collab) (selector : Option TokenList) (st : State)
    (r : Abort) (h : parseRulesetHead c selector st = .stop r) : AbortInv st r := by
  unfold parseRulesetHead at h
  have hl := liftCss_sat none (c.parseSelector st.tokens) st
  split at h
  · rename_i r1 heq
    cases h
    cases selector with
    | none => simp only at heq; rw [heq] at hl; exact hl
    | some s => cases heq
  · rename_i selector1 s1 heq
    have hs : s1.scopes = st.scopes := by
      cases selector with
      | none => simp only at heq; rw [heq] at hl; exact hl.2
      | some s =>
        simp only [Outcome.ok.injEq] at heq
        obtain ⟨_, h2⟩ := heq
        subst h2; rfl
    split at h
    · split at h
      · cases h
      · cases h
        exact AbortInv.raised _ _ _ (by rw [hs])
    · split at h
      · cases h
        exact AbortInv.fault _ _ (by simp [hs])
      · cases h

/-- The ruleset is closed: with the scope popped, the call has the effect of a `parseRuleset`. -/
theorem close_step {st st2 st3 : State} {ref : RulesetRef} (hh : HeadInv st ref st2)
    (hb : Step (some ref) st2 st3) :
    Step none st (popScope st3) ∧ (popScope st3).scopes = st.scopes := by
  have hsc : (popScope st3).scopes = st.scopes := by
    simp only [popScope_scopes]; rw [hb.tail, hh.tail]
  refine ⟨⟨?_, by rw [hsc], by rw [hsc], ?_⟩, hsc⟩
  · intro r x hx
    obtain ⟨ds1, e1, n1⟩ := hh.frame r x hx
    have hds1 : ds1 = [] := n1 (by simp)
    subst hds1
    obtain ⟨ds2, e2, n2⟩ := hb.frame r _ e1
    have hne : some r ≠ some ref := by
      intro e
      simp only [Option.some.injEq] at e
      subst e
      rw [hh.fresh] at hx
      cases hx
    have hds2 : ds2 = [] := n2 hne
    subst hds2
    refine ⟨[], ?_, fun _ => rfl⟩
    rw [getRulesetAt_congr (a := st3) (b := popScope st3) rfl rfl, e2]
    simp
  · obtain ⟨ev1, t1, n1⟩ := hh.trace
    obtain ⟨ev2, t2, n2⟩ := hb.bal
    refine ⟨ev1 ++ ev2 ++ [Event.popScope], ?_, ?_⟩
    · simp only [popScope_trace]
      rw [t2, t1]; simp [List.append_assoc]
    · apply nesting_append_of _ _ 0 1 0
      · apply nesting_append_of _ _ 0 1 1 n1
        have := nesting_shift ev2 0 0 1 n2
        simpa using this
      · rfl

theorem closeRuleset_sat (st st2 st3 : State) (ref : RulesetRef) (hh : HeadInv st ref st2)
    (hb : Step (some ref) st2 st3) :
    (closeRuleset st3).Sat (fun s => Step none st s ∧ s.scopes = st.scopes) (AbortInv st) := by
  obtain ⟨h1, h2⟩ := close_step hh hb
  unfold closeRuleset
  split
  · exact AbortInv.raised _ _ _ (by rw [h2])
  · refine ⟨step_trans h1 (skipRead_step none _), ?_⟩
    simp only [skipWhitespace_scopes, readNextToken_scopes]
    exact h2

theorem Outcome.sat_retTrue (o : Outcome Bool) (P : State → Prop) (Q : Abort → Prop) :
    (match o with
      | .stop r => (Outcome.stop r : Outcome Bool)
      | .ok _ s => .ok true s).Sat P Q ↔ o.Sat P Q := by
  cases o <;> exact Iff.rfl

theorem Outcome.Sat.after {α : Type} {o : Outcome α} {t : Option RulesetRef} {a b : State}
    (h : o.Sat (Step t b) (AbortInv b)) (hs : Step t a b) :
    o.Sat (Step t a) (AbortInv a) := by
  cases o with
  | ok x s => exact step_trans hs h
  | stop r => exact AbortInv.of_len h (by rw [hs.len])

theorem Outcome.Sat.weaken {α : Type} {o : Outcome α} {t : Option RulesetRef} {a : State}
    (h : o.Sat (fun s => Step t a s ∧ s.scopes = a.scopes) (AbortInv a)) :
    o.Sat (Step t a) (AbortInv a) := by
  cases o with
  | ok x s => exact h.1
  | stop r => exact h

/-- Invariants of `parseRuleset`, `parseRulesetStatement` and `parseNestedRule`, for every
outcome: effect of a normal return, and depth of the scope stack at an abort. -/
theorem parse_sat (c : Collab) : ∀ fuel : Nat,
    (∀ sel st, (parseRuleset c fuel sel st).Sat
      (fun s => Step none st s ∧ s.scopes = st.scopes) (AbortInv st)) ∧
    (∀ r st, (parseRulesetStatement c fuel r st).Sat (Step (some r) st) (AbortInv st)) ∧
    (∀ sel r st, (parseNestedRule c fuel sel r st).Sat
      (fun s => Step none st s ∧ s.scopes = st.scopes) (AbortInv st)) := by
  intro fuel
  induction fuel with
  | zero =>
    refine ⟨fun sel st => ?_, fun r st => ?_, fun sel r st => ?_⟩
    · rw [parseRuleset]; exact AbortInv.outOfFuel _
    · rw [parseRulesetStatement]; exact AbortInv.outOfFuel _
    · rw [parseNestedRule]; exact AbortInv.outOfFuel _
  | succ fuel ih =>
    obtain ⟨ihR, ihS, ihN⟩ := ih
    refine ⟨fun sel st => ?_, fun r st => ?_, fun sel r st => ?_⟩
    · rw [parseRuleset]
      cases hh : parseRulesetHead c sel st with
      | stop r => exact parseRulesetHead_stop c sel st r hh
      | ok o st1 =>
        cases o with
        | none => exact parseRulesetHead_none c sel st st1 hh
        | some ref =>
          have hi := parseRulesetHead_some c sel st st1 ref hh
          have hb := ihS ref st1
          dsimp only
          cases hbody : parseRulesetStatement c fuel ref st1 with
          | stop r =>
            rw [hbody] at hb
            exact AbortInv.of_len hb (by rw [hi.len]; omega)
          | ok b st3 =>
            rw [hbody] at hb
            exact closeRuleset_sat st st1 st3 ref hi hb
    · rw [parseRulesetStatement]
      have hl := liftCss_sat (some r) (c.parseSelector st.tokens) st
      cases hsel : liftCss (c.parseSelector st.tokens) st with
      | stop a => rw [hsel] at hl; exact hl
      | ok o st1 =>
        rw [hsel] at hl
        obtain ⟨hl1, -⟩ := hl
        cases o with
        | none =>
          dsimp only
          have hv := parseVariable_sat c (some r) "" st1
          cases hpv : parseVariable c "" st1 with
          | stop a => rw [hpv] at hv; exact AbortInv.of_len hv (by rw [hl1.len])
          | ok b st2 =>
            rw [hpv] at hv
            cases b with
            | false => exact step_trans hl1 hv
            | true =>
              dsimp only
              rw [Outcome.sat_retTrue]
              exact (ihS r st2).after (step_trans hl1 hv)
        | some selector =>
          dsimp only
          have hn := (ihN selector r st1).weaken (t := none)
          cases hnr : parseNestedRule c fuel selector r st1 with
          | stop a => rw [hnr] at hn; exact AbortInv.of_len hn (by rw [hl1.len])
          | ok b st2 =>
            rw [hnr] at hn
            have h2 : Step (some r) st st2 := step_trans hl1 (step_mono hn)
            cases b with
            | true =>
              dsimp only
              rw [Outcome.sat_retTrue]
              exact (ihS r st2).after h2
            | false =>
              dsimp only
              have hm := (parseMixin_sat c fuel selector r st2).weaken
              cases hpm : parseMixin c fuel selector r st2 with
              | stop a => rw [hpm] at hm; exact AbortInv.of_len hm (by rw [h2.len])
              | ok b3 st3 =>
                rw [hpm] at hm
                have h3 : Step (some r) st st3 := step_trans h2 hm
                have hl3 : st.scopes.length ≤ st3.scopes.length := by rw [h3.len]
                cases b3 with
                | true =>
                  dsimp only
                  split
                  · rw [Outcome.sat_retTrue]
                    exact (ihS r _).after (step_trans h3 (skipRead_step _ _))
                  · exact h3
                | false =>
                  dsimp only
                  split
                  · split
                    · rename_i t0 t1 rest _
                      have hd := (parseDeclarationRest_sat c t0.str rest r st3).weaken
                      cases hpd : parseDeclarationRest c t0.str rest r st3 with
                      | stop a => rw [hpd] at hd; exact AbortInv.of_len hd hl3
                      | ok u st4 =>
                        rw [hpd] at hd
                        have h4 : Step (some r) st st4 := step_trans h3 hd
                        dsimp only
                        split
                        · rw [Outcome.sat_retTrue]
                          exact (ihS r _).after (step_trans h4 (skipRead_step _ _))
                        · exact h4
                    · exact AbortInv.raised _ _ _ hl3
                  · exact AbortInv.raised _ _ _ hl3
    · rw [parseNestedRule]
      split
      · exact ⟨step_refl _ _, rfl⟩
      · have h := ihR (some (c.addPrefix sel (getSelector c st r))) st
        cases hr : parseRuleset c fuel (some (c.addPrefix sel (getSelector c st r))) st with
        | stop a => rw [hr] at h; exact h
        | ok b s => rw [hr] at h; exact h

/-! ## C7, C8: scope balance of `parseRuleset` -/

/-- C7 (scope balance on normal completion). When `parseRuleset` returns, the scope stack is
the stack at entry (same depth, same scopes), and the calls made during the call, those of
nested rulesets, variable declarations and mixin calls included, push and pop scopes in equal
number and properly nested. -/
theorem scope_balance_on_return (c : Collab) (fuel : Nat) (selector : Option TokenList)
    (st : State) (b : Bool) (st1 : State)
    (h : parseRuleset c fuel selector st = .ok b st1) :
    st1.scopes.length = st.scopes.length ∧ st1.scopes = st.scopes ∧
      ∃ ev, st1.trace = st.trace ++ ev ∧ nesting 0 ev = some 0 := by
  have hs := (parse_sat c fuel).1 selector st
  rw [h] at hs
  exact ⟨hs.1.len, hs.2, hs.1.bal⟩

/-- Witness for C7: a ruleset whose body holds a variable declaration, a nested ruleset and a
mixin call. -/
theorem scope_balance_on_return_witness :
    parseRuleset specCollab 8 none Demo.bodyStart = .ok true Demo.bodyEnd ∧
    (Demo.bodyEnd.scopes.length = Demo.bodyStart.scopes.length ∧
      Demo.bodyEnd.scopes = Demo.bodyStart.scopes ∧
      ∃ ev, Demo.bodyEnd.trace = Demo.bodyStart.trace ++ ev ∧ nesting 0 ev = some 0) :=
  ⟨by decide!,
    scope_balance_on_return specCollab 8 none Demo.bodyStart true Demo.bodyEnd
      (by decide!)⟩

/-- Counterexample to C8 as stated: on `.a \x7b .nonexistent-mixin(); \x7d` the body statement
raises, the exception leaves `parseRuleset` with the scope it pushed still on the stack: depth
2 at the throw, 1 at entry. -/
theorem scope_balance_on_error_counterexample :
    parseRuleset specCollab 3 none (initialState Demo.unresolved) =
      .stop (.raised ⟨".nonexistent-mixin()", "a mixin that has been defined"⟩
        Demo.unresolvedThrow) ∧
    (initialState Demo.unresolved).scopes.length = 1 ∧
    Demo.unresolvedThrow.scopes.length = 2 := by
  decide

/-- C8, amended (scope balance on error paths). Every call of `parseRuleset` that raises a
`ParseException` is in one of three cases. (1) The head raises (the opening bracket is missing):
no scope was pushed and the stack is the one at entry. (2) The body returned and the closing
bracket is missing: the scope was popped before the throw and the stack is the one at entry.
(3) The exception is raised while the body is parsed: it leaves `parseRuleset` unchanged, the
scope that `parseRuleset` pushed is not popped, and the depth at the throw is at least the depth
at entry plus one. -/
theorem scope_balance_on_error (c : Collab) (fuel : Nat) (selector : Option TokenList)
    (st : State) (e : ParseException) (s : State)
    (h : parseRuleset c (fuel + 1) selector st = .stop (.raised e s)) :
    (parseRulesetHead c selector st = .stop (.raised e s) ∧ s.scopes = st.scopes) ∨
    (∃ ref st2, parseRulesetHead c selector st = .ok (some ref) st2 ∧
      ((∃ b st3, parseRulesetStatement c fuel ref st2 = .ok b st3 ∧
          e = ⟨curStr (popScope st3), "end of declaration block (\x27\x7d\x27)"⟩ ∧
          s = popScope st3 ∧ s.scopes = st.scopes ∧ s.scopes.length = st.scopes.length) ∨
        (parseRulesetStatement c fuel ref st2 = .stop (.raised e s) ∧
          st2.scopes.length = st.scopes.length + 1 ∧
          st.scopes.length + 1 ≤ s.scopes.length))) := by
  rw [parseRuleset] at h
  cases hh : parseRulesetHead c selector st with
  | stop r =>
    rw [hh] at h
    simp only [Outcome.stop.injEq] at h
    subst h
    left
    refine ⟨rfl, ?_⟩
    -- the head raises before any scope is pushed
    unfold parseRulesetHead at hh
    have hl := liftCss_sat none (c.parseSelector st.tokens) st
    split at hh
    · rename_i r1 heq
      cases selector with
      | none =>
        simp only at heq
        unfold liftCss at heq
        split at heq
        · simp only [Outcome.stop.injEq] at heq hh
          rw [← heq] at hh
          simp only [Abort.raised.injEq] at hh
          exact hh.2 ▸ rfl
        · cases heq
      | some x => cases heq
    · rename_i selector1 s1 heq
      have hs : s1.scopes = st.scopes := by
        cases selector with
        | none => simp only at heq; rw [heq] at hl; exact hl.2
        | some x =>
          simp only [Outcome.ok.injEq] at heq
          obtain ⟨_, h2⟩ := heq
          subst h2; rfl
      split at hh
      · split at hh
        · cases hh
        · simp only [Outcome.stop.injEq, Abort.raised.injEq] at hh
          rw [← hh.2]; exact hs
      · split at hh
        · cases hh
        · cases hh
  | ok o st2 =>
    rw [hh] at h
    cases o with
    | none => cases h
    | some ref =>
      right
      refine ⟨ref, st2, rfl, ?_⟩
      have hi := parseRulesetHead_some c selector st st2 ref hh
      dsimp only at h
      cases hb : parseRulesetStatement c fuel ref st2 with
      | stop r =>
        rw [hb] at h
        simp only [Outcome.stop.injEq] at h
        subst h
        right
        have hs := (parse_sat c fuel).2.1 ref st2
        rw [hb] at hs
        have := hs s rfl
        exact ⟨rfl, hi.len, by rw [← hi.len]; exact this⟩
      | ok b st3 =>
        rw [hb] at h
        left
        have hs := (parse_sat c fuel).2.1 ref st2
        rw [hb] at hs
        obtain ⟨_, h2⟩ := close_step hi hs
        dsimp only at h
        unfold closeRuleset at h
        split at h
        · simp only [Outcome.stop.injEq, Abort.raised.injEq] at h
          obtain ⟨h3, h4⟩ := h
          subst h3; subst h4
          exact ⟨b, st3, rfl, rfl, rfl, h2, by rw [h2]⟩
        · cases h

/-- Witness for C8, amended: the unresolved mixin call of `unresolved`. -/
theorem scope_balance_on_error_witness :
    parseRuleset specCollab (2 + 1) none (initialState Demo.unresolved) =
      .stop (.raised ⟨".nonexistent-mixin()", "a mixin that has been defined"⟩
        Demo.unresolvedThrow) ∧
    ((parseRulesetHead specCollab none (initialState Demo.unresolved) =
        .stop (.raised ⟨".nonexistent-mixin()", "a mixin that has been defined"⟩
          Demo.unresolvedThrow) ∧
        Demo.unresolvedThrow.scopes = (initialState Demo.unresolved).scopes) ∨
    (∃ ref st2, parseRulesetHead specCollab none (initialState Demo.unresolved) =
        .ok (some ref) st2 ∧
      ((∃ b st3, parseRulesetStatement specCollab 2 ref st2 = .ok b st3 ∧
          (⟨".nonexistent-mixin()", "a mixin that has been defined"⟩ : ParseException) =
            ⟨curStr (popScope st3), "end of declaration block (\x27\x7d\x27)"⟩ ∧
          Demo.unresolvedThrow = popScope st3 ∧
          Demo.unresolvedThrow.scopes = (initialState Demo.unresolved).scopes ∧
          Demo.unresolvedThrow.scopes.length = (initialState Demo.unresolved).scopes.length) ∨
        (parseRulesetStatement specCollab 2 ref st2 =
            .stop (.raised ⟨".nonexistent-mixin()", "a mixin that has been defined"⟩
              Demo.unresolvedThrow) ∧
          st2.scopes.length = (initialState Demo.unresolved).scopes.length + 1 ∧
          (initialState Demo.unresolved).scopes.length + 1 ≤
            Demo.unresolvedThrow.scopes.length)))) :=
  ⟨by decide,
    scope_balance_on_error specCollab 2 none (initialState Demo.unresolved) _ _ (by decide)⟩

/-! ## C1: nested rules -/

/-- Counterexample to C1 as stated: in `.a \x7b .m() \x7b color: red; \x7d \x7d` the nested
selector is followed by a block, but the combined selector `.a .m()` ends in `)`: no ruleset
with that selector is added to the stylesheet (it holds `.a` only); the block becomes a parameter
ruleset of the registry. -/
theorem nested_rule_flattening_counterexample :
    (parseStylesheet specCollab 9 (initialState Demo.nestedParam)).state?.map
        (fun s => (s.rulesets, s.parameterRulesets)) =
      some ([⟨[Demo.dot, Demo.ident "a"], []⟩],
        [⟨[Demo.dot, Demo.ident "a", Demo.space, Demo.dot, Demo.ident "m", Demo.lparen,
            Demo.rparen],
          [⟨"color", [Demo.space, Demo.ident "red"]⟩]⟩]) := by
  decide!

/-- C1, amended (nested-rule flattening). Let the selector `S` have been read in the body of
`ruleset`, the current token be the opening bracket, and the combined selector
`S.addPrefix(ruleset->getSelector())` not end in `PAREN_CLOSED`. Then:
* `parseRuleset`, called by `parseNestedRule` with the combined selector, adds to the stylesheet,
  at the first free position, a new ruleset with the combined selector and no declaration, and
  pushes a scope, before the inner block is parsed;
* the call is the parse of the inner block with the new ruleset as target
  (`parseRulesetStatement`), followed by the closing bracket, and it returns true;
* when it returns, the new ruleset holds the declarations that the parse of the inner block has
  added to it, the stylesheet is the one left by the inner block, and every ruleset that existed
  before the call, the enclosing one included, has the same selector and the same declarations.
The enclosing `ruleset` is arbitrary, so the statement applies at every nesting depth, with the
already-combined selector of a nested enclosing ruleset as prefix. -/
theorem nested_rule_flattening (c : Collab) (fuel : Nat) (S : TokenList)
    (ruleset : RulesetRef) (st : State) (last : Token)
    (hcur : curType st = .BRACKET_OPEN)
    (hlast : (c.addPrefix S (getSelector c st ruleset)).getLast? = some last)
    (hplain : last.type ≠ .PAREN_CLOSED) :
    parseRulesetHead c (some (c.addPrefix S (getSelector c st ruleset))) st =
      .ok (some (.plain st.rulesets.length))
        (skipWhitespace (addRuleset ⟨c.addPrefix S (getSelector c st ruleset), []⟩
          (pushScope (readNextToken st)))) ∧
    parseNestedRule c (fuel + 2) S ruleset st =
      (match parseRulesetStatement c fuel (.plain st.rulesets.length)
          (skipWhitespace (addRuleset ⟨c.addPrefix S (getSelector c st ruleset), []⟩
            (pushScope (readNextToken st)))) with
        | .stop r => .stop r
        | .ok _ st3 =>
          match closeRuleset st3 with
          | .stop r => .stop r
          | .ok _ s => .ok true s) ∧
    (∀ (b : Bool) (st1 : State), parseNestedRule c (fuel + 2) S ruleset st = .ok b st1 →
      b = true ∧
      (∃ ds b3 st3,
        st1.rulesets.get? st.rulesets.length =
          some ⟨c.addPrefix S (getSelector c st ruleset), ds⟩ ∧
        parseRulesetStatement c fuel (.plain st.rulesets.length)
          (skipWhitespace (addRuleset ⟨c.addPrefix S (getSelector c st ruleset), []⟩
            (pushScope (readNextToken st)))) = .ok b3 st3 ∧
        st3.rulesets.get? st.rulesets.length =
          some ⟨c.addPrefix S (getSelector c st ruleset), ds⟩ ∧
        st1.rulesets = st3.rulesets) ∧
      (∀ r x, getRulesetAt st r = some x → getRulesetAt st1 r = some x)) := by
  have hhead : parseRulesetHead c (some (c.addPrefix S (getSelector c st ruleset))) st =
      .ok (some (.plain st.rulesets.length))
        (skipWhitespace (addRuleset ⟨c.addPrefix S (getSelector c st ruleset), []⟩
          (pushScope (readNextToken st)))) := by
    simp [parseRulesetHead, hcur, openRuleset, hlast, hplain]
  have hunf : parseNestedRule c (fuel + 2) S ruleset st =
      (match parseRulesetStatement c fuel (.plain st.rulesets.length)
          (skipWhitespace (addRuleset ⟨c.addPrefix S (getSelector c st ruleset), []⟩
            (pushScope (readNextToken st)))) with
        | .stop r => .stop r
        | .ok _ st3 =>
          match closeRuleset st3 with
          | .stop r => .stop r
          | .ok _ s => .ok true s) := by
    rw [parseNestedRule]
    simp only [hcur, ne_eq, not_true_eq_false, if_false]
    rw [parseRuleset, hhead]
    dsimp only
    cases parseRulesetStatement c fuel (.plain st.rulesets.length)
        (skipWhitespace (addRuleset ⟨c.addPrefix S (getSelector c st ruleset), []⟩
          (pushScope (readNextToken st)))) with
    | stop a => rfl
    | ok b3 st3 => rfl
  refine ⟨hhead, hunf, ?_⟩
  intro b st1 h
  have hinv := (parse_sat c (fuel + 2)).2.2 S ruleset st
  rw [h] at hinv
  have hframe : ∀ r x, getRulesetAt st r = some x → getRulesetAt st1 r = some x := by
    intro r x hx
    obtain ⟨ds, e, n⟩ := hinv.1.frame r x hx
    rw [e, n (by simp)]
    simp
  rw [hunf] at h
  cases hbody : parseRulesetStatement c fuel (.plain st.rulesets.length)
      (skipWhitespace (addRuleset ⟨c.addPrefix S (getSelector c st ruleset), []⟩
        (pushScope (readNextToken st)))) with
  | stop a => rw [hbody] at h; cases h
  | ok b3 st3 =>
    rw [hbody] at h
    dsimp only at h
    have hstep := (parse_sat c fuel).2.1 (.plain st.rulesets.length)
      (skipWhitespace (addRuleset ⟨c.addPrefix S (getSelector c st ruleset), []⟩
        (pushScope (readNextToken st))))
    rw [hbody] at hstep
    obtain ⟨ds, e, -⟩ := hstep.frame (.plain st.rulesets.length)
      ⟨c.addPrefix S (getSelector c st ruleset), []⟩ (by simp [getRulesetAt])
    simp only [getRulesetAt, List.nil_append] at e
    cases hcl : closeRuleset st3 with
    | stop a => rw [hcl] at h; cases h
    | ok b4 s4 =>
      rw [hcl] at h
      simp only [Outcome.ok.injEq] at h
      have hb := h.1
      have hrs : st1.rulesets = st3.rulesets := by
        rw [← h.2]
        unfold closeRuleset at hcl
        split at hcl
        · cases hcl
        · simp only [Outcome.ok.injEq] at hcl
          rw [← hcl.2]; rfl
      exact ⟨hb.symm, ⟨ds, b3, st3, by rw [hrs]; exact e, rfl, e, hrs⟩, hframe⟩

/-- Witness for C1, amended: the nested rule of `.a \x7b .b \x7b color: red; \x7d \x7d`. The
last part runs the whole parser on that input and on a rule nested twice: the stylesheet holds
`.a` and `.a .b` (resp. `.a`, `.a .b` and `.a .b .c`) as top-level rulesets, the innermost one
with `color: red` (the value keeps the whitespace token read after the colon), the enclosing
ones without declaration. -/
theorem nested_rule_flattening_witness :
    (curType Demo.atNested = .BRACKET_OPEN ∧
      (specCollab.addPrefix [Demo.dot, Demo.ident "b"]
        (getSelector specCollab Demo.atNested (.plain 0))).getLast? = some (Demo.ident "b") ∧
      (Demo.ident "b").type ≠ .PAREN_CLOSED) ∧
    (parseNestedRule specCollab (2 + 2) [Demo.dot, Demo.ident "b"] (.plain 0) Demo.atNested =
        .ok true Demo.afterNested →
      true = true ∧
      (∃ ds b3 st3,
        Demo.afterNested.rulesets.get? Demo.atNested.rulesets.length =
          some ⟨specCollab.addPrefix [Demo.dot, Demo.ident "b"]
            (getSelector specCollab Demo.atNested (.plain 0)), ds⟩ ∧
        parseRulesetStatement specCollab 2 (.plain Demo.atNested.rulesets.length)
          (skipWhitespace (addRuleset ⟨specCollab.addPrefix [Demo.dot, Demo.ident "b"]
            (getSelector specCollab Demo.atNested (.plain 0)), []⟩
            (pushScope (readNextToken Demo.atNested)))) = .ok b3 st3 ∧
        st3.rulesets.get? Demo.atNested.rulesets.length =
          some ⟨specCollab.addPrefix [Demo.dot, Demo.ident "b"]
            (getSelector specCollab Demo.atNested (.plain 0)), ds⟩ ∧
        Demo.afterNested.rulesets = st3.rulesets) ∧
      (∀ r x, getRulesetAt Demo.atNested r = some x →
        getRulesetAt Demo.afterNested r = some x)) ∧
    parseNestedRule specCollab (2 + 2) [Demo.dot, Demo.ident "b"] (.plain 0) Demo.atNested =
      .ok true Demo.afterNested ∧
    specCollab.addPrefix [Demo.dot, Demo.ident "b"]
        (getSelector specCollab Demo.atNested (.plain 0)) =
      [Demo.dot, Demo.ident "a", Demo.space, Demo.dot, Demo.ident "b"] ∧
    (parseStylesheet specCollab 9 (initialState Demo.nestedRule)).state?.map (·.rulesets) =
      some [⟨[Demo.dot, Demo.ident "a"], []⟩,
        ⟨[Demo.dot, Demo.ident "a", Demo.space, Demo.dot, Demo.ident "b"],
          [⟨"color", [Demo.space, Demo.ident "red"]⟩]⟩] ∧
    (parseStylesheet specCollab 12 (initialState Demo.nestedTwice)).state?.map (·.rulesets) =
      some [⟨[Demo.dot, Demo.ident "a"], []⟩,
        ⟨[Demo.dot, Demo.ident "a", Demo.space, Demo.dot, Demo.ident "b"], []⟩,
        ⟨[Demo.dot, Demo.ident "a", Demo.space, Demo.dot, Demo.ident "b", Demo.space, Demo.dot,
            Demo.ident "c"],
          [⟨"color", [Demo.space, Demo.ident "red"]⟩]⟩] :=
  ⟨⟨by decide, by decide, by decide⟩,
    (nested_rule_flattening specCollab 2 [Demo.dot, Demo.ident "b"] (.plain 0) Demo.atNested
      (Demo.ident "b") (by decide) (by decide) (by decide)).2.2 true Demo.afterNested,
    by decide!, by decide, by decide!, by decide!⟩

/-! ## C2: plain mixins -/

theorem getRuleset_some (rs : List Ruleset) (selector : TokenList) : ∀ m : Nat,
    getRuleset rs selector = some m → ∃ M, rs.get? m = some M ∧ M.selector = selector := by
  induction rs with
  | nil => intro m h; simp [getRuleset] at h
  | cons r rs ih =>
    intro m h
    unfold getRuleset at h
    split at h
    · rename_i hsel
      simp only [Option.some.injEq] at h
      subst h
      exact ⟨r, rfl, hsel⟩
    · simp only [Option.map_eq_some'] at h
      obtain ⟨k, hk, hm⟩ := h
      subst hm
      obtain ⟨M, h1, h2⟩ := ih k hk
      exact ⟨M, by simpa using h1, h2⟩

theorem getRulesetAt_addDeclarationList_self (r : RulesetRef) (ds : List Declaration) :
    ∀ (st : State) (x : Ruleset), getRulesetAt st r = some x →
      getRulesetAt (addDeclarationList r ds st) r =
        some ⟨x.selector, x.declarations ++ ds⟩ := by
  induction ds with
  | nil => intro st x h; simp [h]
  | cons d ds ih =>
    intro st x h
    rw [addDeclarationList_cons,
      ih (addDeclaration r d st) (addDeclTo d x)
        (by rw [getRulesetAt_addDeclaration_self, h]; rfl)]
    simp [addDeclTo]

theorem getRulesetAt_addDeclarationList_ne (r r1 : RulesetRef) (ds : List Declaration)
    (hne : r1 ≠ r) : ∀ st : State,
      getRulesetAt (addDeclarationList r ds st) r1 = getRulesetAt st r1 := by
  induction ds with
  | nil => intro st; rfl
  | cons d ds ih =>
    intro st
    rw [addDeclarationList_cons, ih, getRulesetAt_addDeclaration_ne _ _ _ _ hne]

/-- The copy loop on a mixin that is not the target: it ends after as many iterations as the
mixin has declarations left, and has appended them in order. -/
theorem copyDeclarations_ne (mixin target : RulesetRef) (M : Ruleset) (hne : mixin ≠ target)
    (fuel : Nat) : ∀ (i : Nat) (st : State), getRulesetAt st mixin = some M →
      M.declarations.length - i < fuel →
      copyDeclarations mixin target fuel i st =
        .ok () (addDeclarationList target (M.declarations.drop i) st) := by
  induction fuel with
  | zero => intro i st _ h; omega
  | succ fuel ih =>
    intro i st hM hf
    unfold copyDeclarations
    simp only [getDeclarations, hM]
    by_cases hi : i < M.declarations.length
    · have hget : M.declarations.get? i = some (M.declarations.get ⟨i, hi⟩) := by
        simp [List.getElem?_eq_getElem hi]
      rw [hget]
      dsimp only
      rw [ih (i + 1) _ (by rw [getRulesetAt_addDeclaration_ne _ _ _ _ hne]; exact hM)
        (by omega)]
      rw [List.drop_eq_getElem_cons hi]
      rfl
    · have hget : M.declarations.get? i = none := by
        simp only [List.get?_eq_getElem?]
        exact List.getElem?_eq_none (by omega)
      rw [hget, List.drop_eq_nil_of_le (by omega)]
      rfl

/-- C2 (plain mixin expansion). When the lookup `getRuleset(selector)` of `parseMixin` (made
after `processParameterMixin` has returned, in the state `st1` it leaves) gives a ruleset `M`
that is not the calling ruleset `R`, then, the copy loop having fuel for the declarations of
`M`, `parseMixin` returns true; the clones of the declarations of `M` are appended to `R` in the
order of `M`, after everything `R` holds in `st1`, which is what `R` held at the call followed
by the declarations contributed by the parametric matches; and `M` is unchanged, by the copy and
by the parametric matches. -/
theorem plain_mixin_expansion (c : Collab) (fuel : Nat) (selector : TokenList)
    (R : RulesetRef) (st : State) (ret : Bool) (st1 : State) (m : Nat)
    (hp : processParameterMixin c selector R st = .ok ret st1)
    (hg : getRuleset st1.rulesets selector = some m)
    (hne : R ≠ .plain m) :
    ∃ M, st1.rulesets.get? m = some M ∧ M.selector = selector ∧
      (M.declarations.length < fuel →
        parseMixin c fuel selector R st =
          .ok true (addDeclarationList R M.declarations st1) ∧
        (∀ x, getRulesetAt st1 R = some x →
          getRulesetAt (addDeclarationList R M.declarations st1) R =
            some ⟨x.selector, x.declarations ++ M.declarations⟩) ∧
        getRulesetAt (addDeclarationList R M.declarations st1) (.plain m) = some M) ∧
      (∀ M0, st.rulesets.get? m = some M0 → M0 = M) ∧
      (∀ x0, getRulesetAt st R = some x0 →
        ∃ dsP, getRulesetAt st1 R = some ⟨x0.selector, x0.declarations ++ dsP⟩) := by
  obtain ⟨M, hM, hsel⟩ := getRuleset_some st1.rulesets selector m hg
  refine ⟨M, hM, hsel, ?_, ?_, ?_⟩
  rotate_left 2
  · intro x0 hx0
    have hs := processParameterMixin_sat c selector R st
    rw [hp] at hs
    obtain ⟨ds, e, -⟩ := hs.1.frame R x0 hx0
    exact ⟨ds, e⟩
  · intro hf
    have hM2 : getRulesetAt st1 (.plain m) = some M := by simpa [getRulesetAt] using hM
    have hcopy := copyDeclarations_ne (.plain m) R M (fun e => hne e.symm) fuel 0 st1 hM2
      (by omega)
    refine ⟨?_, fun x hx => getRulesetAt_addDeclarationList_self R _ st1 x hx, ?_⟩
    · unfold parseMixin
      rw [hp]
      dsimp only
      rw [hg]
      dsimp only
      rw [hcopy]
      rfl
    · rw [getRulesetAt_addDeclarationList_ne _ _ _ (fun e => hne e.symm), hM2]
  · intro M0 hM0
    have hs := processParameterMixin_sat c selector R st
    rw [hp] at hs
    obtain ⟨ds, e, n⟩ := hs.1.frame (.plain m) M0 (by simpa [getRulesetAt] using hM0)
    have hds : ds = [] := n (by
      intro e2
      simp only [Option.some.injEq] at e2
      exact hne e2.symm)
    subst hds
    simp only [getRulesetAt, List.append_nil] at e
    rw [hM] at e
    simp only [Option.some.injEq] at e
    rw [e]

/-- Witness for C2: the ruleset `.a` calls the plain mixin `.box`. -/
theorem plain_mixin_expansion_witness :
    (processParameterMixin specCollab [Demo.dot, Demo.ident "box"] (.plain 0) Demo.plainMixin =
        .ok false Demo.plainMixin ∧
      getRuleset Demo.plainMixin.rulesets [Demo.dot, Demo.ident "box"] = some 1 ∧
      RulesetRef.plain 0 ≠ .plain 1) ∧
    (∃ M, Demo.plainMixin.rulesets.get? 1 = some M ∧
      M.selector = [Demo.dot, Demo.ident "box"] ∧
      (M.declarations.length < 3 →
        parseMixin specCollab 3 [Demo.dot, Demo.ident "box"] (.plain 0) Demo.plainMixin =
          .ok true (addDeclarationList (.plain 0) M.declarations Demo.plainMixin) ∧
        (∀ x, getRulesetAt Demo.plainMixin (.plain 0) = some x →
          getRulesetAt (addDeclarationList (.plain 0) M.declarations Demo.plainMixin)
              (.plain 0) =
            some ⟨x.selector, x.declarations ++ M.declarations⟩) ∧
        getRulesetAt (addDeclarationList (.plain 0) M.declarations Demo.plainMixin)
          (.plain 1) = some M) ∧
      (∀ M0, Demo.plainMixin.rulesets.get? 1 = some M0 → M0 = M) ∧
      (∀ x0, getRulesetAt Demo.plainMixin (.plain 0) = some x0 →
        ∃ dsP, getRulesetAt Demo.plainMixin (.plain 0) =
          some ⟨x0.selector, x0.declarations ++ dsP⟩)) ∧
    parseMixin specCollab 3 [Demo.dot, Demo.ident "box"] (.plain 0) Demo.plainMixin =
      .ok true Demo.plainMixinDone :=
  ⟨⟨by decide, by decide, by decide⟩,
    plain_mixin_expansion specCollab 3 [Demo.dot, Demo.ident "box"] (.plain 0) Demo.plainMixin
      false Demo.plainMixin 1 (by decide) (by decide) (by decide),
    by decide⟩

/-! ## C6: unresolved mixin call -/

/-- C6 (unresolved mixin call). If the selector `S` of a ruleset-body statement is not followed
by the opening bracket, `parseMixin` returns false for it, and `S` does not begin with an
identifier followed by a colon, then `parseRulesetStatement` raises the `ParseException` whose
source is the text of `S` and whose expectation is "a mixin that has been defined". No function
catches it: an abort of the body is the abort of `parseRuleset`, of `parseStatement`, of the
statement loop and of `parseStylesheet`, which therefore returns no stylesheet. -/
theorem unresolved_mixin_raises (c : Collab) (fuel : Nat) (ruleset : RulesetRef) (st : State)
    (S : TokenList) (toks : List Token) (st3 : State)
    (hsel : c.parseSelector st.tokens = .ok (some S, toks))
    (hnb : curType { st with tokens := toks } ≠ .BRACKET_OPEN)
    (hmix : parseMixin c (fuel + 1) S ruleset { st with tokens := toks } = .ok false st3)
    (hdecl : ¬ ∃ t0 t1 rest, S = t0 :: t1 :: rest ∧ t0.type = .IDENTIFIER ∧ t1.type = .COLON) :
    parseRulesetStatement c (fuel + 2) ruleset st =
      .stop (.raised ⟨tokensToString S, "a mixin that has been defined"⟩ st3) ∧
    (∀ (f : Nat) (sel : Option TokenList) (st0 st2 : State) (ref : RulesetRef) (r : Abort),
      parseRulesetHead c sel st0 = .ok (some ref) st2 →
      parseRulesetStatement c f ref st2 = .stop r →
      parseRuleset c (f + 1) sel st0 = .stop r) ∧
    (∀ (f : Nat) (st0 : State) (r : Abort),
      parseRuleset c f none st0 = .stop r → parseStatement c (f + 1) st0 = .stop r) ∧
    (∀ (f : Nat) (st0 : State) (r : Abort),
      parseStatement c f st0 = .stop r → parseStatements c (f + 1) st0 = .stop r) ∧
    (∀ (f : Nat) (st0 : State) (r : Abort),
      parseStatements c f (skipWhitespace st0) = .stop r →
      parseStylesheet c (f + 1) st0 = .stop r) := by
  refine ⟨?_, ?_, ?_, ?_, ?_⟩
  · rw [parseRulesetStatement]
    have h1 : liftCss (c.parseSelector st.tokens) st = .ok (some S) { st with tokens := toks } := by
      rw [hsel]; rfl
    rw [h1]
    dsimp only
    rw [parseNestedRule]
    simp only [hnb, ne_eq, not_false_eq_true, if_true]
    rw [hmix]
    dsimp only
    split
    · rename_i t0 t1 rest
      split
      · rename_i hc
        exact absurd ⟨t0, t1, rest, rfl, hc.1, hc.2⟩ hdecl
      · rfl
    · rfl
  · intro f sel st0 st2 ref r h1 h2
    rw [parseRuleset, h1]
    dsimp only
    rw [h2]
  · intro f st0 r h
    rw [parseStatement, h]
  · intro f st0 r h
    rw [parseStatements, h]
  · intro f st0 r h
    rw [parseStylesheet, h]

/-- Witness for C6: `.a \x7b .nonexistent-mixin(); \x7d` with no matching ruleset; the whole
parse ends with the exception. -/
theorem unresolved_mixin_raises_witness :
    (specCollab.parseSelector Demo.atCall.tokens =
        .ok (some Demo.callUnknown, [Demo.semi, Demo.space, Demo.rbrace]) ∧
      curType { Demo.atCall with tokens := [Demo.semi, Demo.space, Demo.rbrace] } ≠
        .BRACKET_OPEN ∧
      parseMixin specCollab (0 + 1) Demo.callUnknown (.plain 0)
        { Demo.atCall with tokens := [Demo.semi, Demo.space, Demo.rbrace] } =
        .ok false Demo.unresolvedThrow ∧
      ¬ ∃ t0 t1 rest, Demo.callUnknown = t0 :: t1 :: rest ∧ t0.type = .IDENTIFIER ∧
        t1.type = .COLON) ∧
    parseRulesetStatement specCollab (0 + 2) (.plain 0) Demo.atCall =
      .stop (.raised ⟨tokensToString Demo.callUnknown, "a mixin that has been defined"⟩
        Demo.unresolvedThrow) ∧
    tokensToString Demo.callUnknown = ".nonexistent-mixin()" ∧
    parseStylesheet specCollab 6 (initialState Demo.unresolved) =
      .stop (.raised ⟨".nonexistent-mixin()", "a mixin that has been defined"⟩
        Demo.unresolvedThrow) :=
  have hd : ¬ ∃ t0 t1 rest, Demo.callUnknown = t0 :: t1 :: rest ∧ t0.type = .IDENTIFIER ∧
      t1.type = .COLON := by
    rintro ⟨t0, t1, rest, h1, h2, _⟩
    simp only [Demo.callUnknown, List.cons.injEq] at h1
    rw [← h1.1] at h2
    exact absurd h2 (by decide)
  ⟨⟨rfl, by decide, by decide, hd⟩,
    (unresolved_mixin_raises specCollab 0 (.plain 0) Demo.atCall Demo.callUnknown
      [Demo.semi, Demo.space, Demo.rbrace] Demo.unresolvedThrow rfl (by decide) (by decide)
      hd).1,
    by decide, by decide!⟩

/-! ## C10: variable declarations -/

theorem parseVariableValue_ok (c : Collab) (keyword : String) (st : State) (v : TokenList)
    (toks : List Token) (v1 : TokenList)
    (hval : c.cssParseValue (skipWhitespace (readNextToken st)).tokens = .ok (some v, toks))
    (hproc : c.processValue st.scopes v = .ok v1) (hne : v1 ≠ [])
    (hdelim : curType { st with tokens := toks } = .DELIMITER) :
    parseVariableValue c keyword st = .ok true (afterVariable keyword v1 toks st) := by
  have h1 : parseValue c (skipWhitespace (readNextToken st)) =
      .ok (some v1) { st with tokens := toks } := by
    unfold parseValue
    rw [hval]
    simp only [liftCss]
    have : ({ skipWhitespace (readNextToken st) with tokens := toks } : State).scopes
        = st.scopes := rfl
    rw [this, hproc]
    rfl
  unfold parseVariableValue
  rw [h1]
  cases v1 with
  | nil => exact absurd rfl hne
  | cons t ts =>
    simp only [hdelim, ne_eq, not_true_eq_false, if_false]
    rfl

/-- C10 (variable declarations are consumed, not emitted). Let the current token be an
at-keyword, followed by a colon, a value that `CssParser::parseValue` parses and `processValue`
turns into a non-empty token list `v1`, and a delimiter. Then
* at top level `parseAtRuleOrVariable` returns true in the state `afterVariable`;
* in a ruleset body, where `parseSelector` has found no selector, `parseRulesetStatement` goes on
  with the rest of the body from the state `afterVariable`;
* between the two states there is exactly one call of the value processor, the `putVariable` of
  the keyword with the processed value, which binds it in the innermost scope; the rulesets and
  at-rules of the stylesheet and the registry are the same (no at-rule, no ruleset and no
  declaration is added). -/
theorem variable_declaration_consumed (c : Collab) (fuel : Nat) (sk : State) (v : TokenList)
    (toks : List Token) (v1 : TokenList)
    (hat : curType sk = .ATKEYWORD) (hk : curStr sk ≠ "")
    (hcolon : curType (skipWhitespace (readNextToken sk)) = .COLON)
    (hval : c.cssParseValue (skipWhitespace (readNextToken
      (skipWhitespace (readNextToken sk)))).tokens = .ok (some v, toks))
    (hproc : c.processValue sk.scopes v = .ok v1) (hne : v1 ≠ [])
    (hdelim : curType { sk with tokens := toks } = .DELIMITER) :
    parseAtRuleOrVariable c (fuel + 1) sk = .ok true (afterVariable (curStr sk) v1 toks sk) ∧
    (∀ (ruleset : RulesetRef) (st : State),
      liftCss (c.parseSelector st.tokens) st = .ok none sk →
      parseRulesetStatement c (fuel + 1) ruleset st =
        match parseRulesetStatement c fuel ruleset (afterVariable (curStr sk) v1 toks sk) with
        | .stop r => .stop r
        | .ok _ s => .ok true s) ∧
    (afterVariable (curStr sk) v1 toks sk).trace =
      sk.trace ++ [Event.putVariable (curStr sk) (some v1)] ∧
    (afterVariable (curStr sk) v1 toks sk).scopes =
      bindInnermost (curStr sk) (some v1) sk.scopes ∧
    (afterVariable (curStr sk) v1 toks sk).rulesets = sk.rulesets ∧
    (afterVariable (curStr sk) v1 toks sk).atRules = sk.atRules ∧
    (afterVariable (curStr sk) v1 toks sk).parameterRulesets = sk.parameterRulesets := by
  have hvv : parseVariableValue c (curStr sk) (skipWhitespace (readNextToken sk)) =
      .ok true (afterVariable (curStr sk) v1 toks sk) :=
    parseVariableValue_ok c (curStr sk) (skipWhitespace (readNextToken sk)) v toks v1 hval
      hproc hne hdelim
  refine ⟨?_, ?_, rfl, rfl, rfl, rfl, rfl⟩
  · rw [parseAtRuleOrVariable]
    simp only [hat, ne_eq, not_true_eq_false, if_false]
    have hpv : parseVariable c (curStr sk) (skipWhitespace (readNextToken sk)) =
        .ok true (afterVariable (curStr sk) v1 toks sk) := by
      unfold parseVariable
      simp only [hk, if_false, hcolon, ne_eq, not_true_eq_false]
      exact hvv
    rw [hpv]
  · intro ruleset st hsel
    rw [parseRulesetStatement, hsel]
    dsimp only
    have hpv : parseVariable c "" sk = .ok true (afterVariable (curStr sk) v1 toks sk) := by
      unfold parseVariable
      simp only [if_true, hat, ne_eq, not_true_eq_false, if_false, hcolon]
      exact hvv
    rw [hpv]

/-- Witness for C10: the declaration `@x: 1;` at the start of `innerVariable`. -/
theorem variable_declaration_consumed_witness :
    (curType (initialState Demo.innerVariable) = .ATKEYWORD ∧
      curStr (initialState Demo.innerVariable) ≠ "" ∧
      curType (skipWhitespace (readNextToken (initialState Demo.innerVariable))) = .COLON ∧
      specCollab.cssParseValue (skipWhitespace (readNextToken (skipWhitespace (readNextToken
        (initialState Demo.innerVariable))))).tokens =
        .ok (some [Demo.num "1"], Demo.innerVariable.drop 4) ∧
      specCollab.processValue (initialState Demo.innerVariable).scopes [Demo.num "1"] =
        .ok [Demo.num "1"] ∧
      [Demo.num "1"] ≠ [] ∧
      curType { initialState Demo.innerVariable with tokens := Demo.innerVariable.drop 4 } =
        .DELIMITER) ∧
    parseAtRuleOrVariable specCollab (0 + 1) (initialState Demo.innerVariable) =
      .ok true (afterVariable (curStr (initialState Demo.innerVariable)) [Demo.num "1"]
        (Demo.innerVariable.drop 4) (initialState Demo.innerVariable)) ∧
    afterVariable (curStr (initialState Demo.innerVariable)) [Demo.num "1"]
        (Demo.innerVariable.drop 4) (initialState Demo.innerVariable) =
      ⟨Demo.innerVariable.drop 6, [[("@x", some [Demo.num "1"])]], [], [], [],
        [.putVariable "@x" (some [Demo.num "1"])]⟩ :=
  ⟨⟨by decide, by decide, by decide, rfl, rfl, by decide, by decide⟩,
    (variable_declaration_consumed specCollab 0 (initialState Demo.innerVariable)
      [Demo.num "1"] (Demo.innerVariable.drop 4) [Demo.num "1"] (by decide) (by decide)
      (by decide) rfl rfl (by decide) (by decide)).1,
    by decide⟩

/-! ## C5: variable resolution -/

theorem lookupVariable_bind_self (k : String) (v : Option TokenList) (sc : Scope)
    (rest : List Scope) : lookupVariable (bindInnermost k v (sc :: rest)) k = some v := by
  simp [bindInnermost, lookupVariable]

theorem lookupVariable_bind_other (k k1 : String) (v : Option TokenList) (scopes : List Scope)
    (h : k ≠ k1) : lookupVariable (bindInnermost k v scopes) k1 = lookupVariable scopes k1 := by
  cases scopes with
  | nil => rfl
  | cons sc rest => simp [bindInnermost, lookupVariable, List.find?, h]

theorem lookupVariable_unbound (k : String) (sc : Scope) (rest : List Scope)
    (h : ∀ b ∈ sc, b.1 ≠ k) : lookupVariable (sc :: rest) k = lookupVariable rest k := by
  have : sc.find? (fun b => decide (b.1 = k)) = none := by
    rw [List.find?_eq_none]
    intro b hb
    simpa using h b hb
  simp [lookupVariable, this]

/-- C5 (variable resolution precedence). The value processor resolves a name in the scope stack
it is given, innermost scope first. In the parser:
* a variable declaration binds in the innermost scope, so the name resolves to that value from
  then on, and the other names resolve as before;
* `parseRuleset` pushes an empty scope for the body, in which a name that the body has not bound
  resolves to the binding of the enclosing scopes;
* when `parseRuleset` returns, the scope stack is the one at entry: every name resolves as
  before the ruleset, whatever its body has bound;
* substitution replaces a reference by the value the name resolves to.
On the three inputs `@x: 1; .a \x7b @x: 2; color: @x; \x7d`,
`@x: 1; .a \x7b color: @x; \x7d` and `@x: 1; .a \x7b @x: 2; \x7d .b \x7b color: @x; \x7d` the
declaration is `color: 2`, `color: 1` and `color: 1`. -/
theorem variable_resolution_precedence (c : Collab) :
    (∀ (k : String) (v : Option TokenList) (st : State), st.scopes ≠ [] →
      lookupVariable (putVariable k v st).scopes k = some v ∧
      ∀ k1, k ≠ k1 →
        lookupVariable (putVariable k v st).scopes k1 = lookupVariable st.scopes k1) ∧
    (∀ (k : String) (st : State),
      lookupVariable (pushScope st).scopes k = lookupVariable st.scopes k) ∧
    (∀ (k : String) (sc : Scope) (rest : List Scope), (∀ b ∈ sc, b.1 ≠ k) →
      lookupVariable (sc :: rest) k = lookupVariable rest k) ∧
    (∀ (fuel : Nat) (selector : Option TokenList) (st : State) (b : Bool) (st1 : State),
      parseRuleset c fuel selector st = .ok b st1 →
      ∀ k, lookupVariable st1.scopes k = lookupVariable st.scopes k) ∧
    (∀ (scopes : List Scope) (k : String) (v : TokenList),
      lookupVariable scopes k = some (some v) →
      substitute scopes [⟨.ATKEYWORD, k⟩] = v) ∧
    (parseStylesheet specCollab 9 (initialState Demo.innerVariable)).state?.map (·.rulesets) =
      some [⟨[Demo.dot, Demo.ident "a"], [⟨"color", [Demo.num "2"]⟩]⟩] ∧
    (parseStylesheet specCollab 8 (initialState Demo.outerVariable)).state?.map (·.rulesets) =
      some [⟨[Demo.dot, Demo.ident "a"], [⟨"color", [Demo.num "1"]⟩]⟩] ∧
    (parseStylesheet specCollab 9 (initialState Demo.hiddenVariable)).state?.map (·.rulesets) =
      some [⟨[Demo.dot, Demo.ident "a"], []⟩,
        ⟨[Demo.dot, Demo.ident "b"], [⟨"color", [Demo.num "1"]⟩]⟩] := by
  refine ⟨?_, ?_, ?_, ?_, ?_, by decide!, by decide!, by decide!⟩
  · intro k v st hne
    cases hs : st.scopes with
    | nil => exact absurd hs hne
    | cons sc rest =>
      simp only [putVariable_scopes, hs]
      exact ⟨lookupVariable_bind_self k v sc rest,
        fun k1 h => lookupVariable_bind_other k k1 v _ h⟩
  · intro k st
    simp [lookupVariable]
  · exact lookupVariable_unbound
  · intro fuel selector st b st1 h k
    have hs := (parse_sat c fuel).1 selector st
    rw [h] at hs
    rw [hs.2]
  · intro scopes k v h
    simp [substitute, h]

/-- Witness for C5: after the ruleset of `bodyStart`, whose body binds `@x`, the name `@x`
resolves as before the ruleset (it is not bound). -/
theorem variable_resolution_precedence_witness :
    parseRuleset specCollab 8 none Demo.bodyStart = .ok true Demo.bodyEnd ∧
    (∀ k, lookupVariable Demo.bodyEnd.scopes k = lookupVariable Demo.bodyStart.scopes k) ∧
    lookupVariable Demo.bodyEnd.scopes "@x" = none :=
  ⟨by decide!,
    (variable_resolution_precedence specCollab).2.2.2.1 8 none Demo.bodyStart true
      Demo.bodyEnd (by decide!),
    by decide⟩

/-! ## C14: detection of a parametric definition -/

/-- The head of `parseRuleset` when it creates a ruleset: the selector `S` (given, or read by
`parseSelector`), the opening bracket, and `openRuleset` on the state after the bracket. -/
theorem parseRulesetHead_some_inv (c : Collab) (selector : Option TokenList) (st st2 : State)
    (ref : RulesetRef) (h : parseRulesetHead c selector st = .ok (some ref) st2) :
    ∃ S toks s2,
      (selector = some S ∧ toks = st.tokens ∨
        selector = none ∧ c.parseSelector st.tokens = .ok (some S, toks)) ∧
      curType { st with tokens := toks } = .BRACKET_OPEN ∧
      openRuleset c (some S) (readNextToken { st with tokens := toks }) = some (ref, s2) ∧
      st2 = skipWhitespace s2 := by
  unfold parseRulesetHead at h
  split at h
  · cases h
  · rename_i selector1 s1 heq
    have hs : ∃ toks, s1 = { st with tokens := toks } ∧
        (selector = selector1 ∧ toks = st.tokens ∧ selector ≠ none ∨
          selector = none ∧ c.parseSelector st.tokens = .ok (selector1, toks)) := by
      cases selector with
      | none =>
        simp only at heq
        unfold liftCss at heq
        split at heq
        · cases heq
        · rename_i a toks hr
          simp only [Outcome.ok.injEq] at heq
          exact ⟨toks, heq.2.symm, Or.inr ⟨rfl, by rw [hr, heq.1]⟩⟩
      | some s =>
        simp only [Outcome.ok.injEq] at heq
        exact ⟨st.tokens, heq.2.symm, Or.inl ⟨by rw [heq.1], rfl, by simp⟩⟩
    obtain ⟨toks, hs1, hs2⟩ := hs
    subst hs1
    split at h
    · split at h <;> cases h
    · rename_i hcur
      split at h
      · cases h
      · rename_i ruleset s2 hopen
        simp only [Outcome.ok.injEq, Option.some.injEq] at h
        obtain ⟨h1, h2⟩ := h
        subst h1
        cases selector1 with
        | none => simp [openRuleset] at hopen
        | some S =>
          refine ⟨S, toks, s2, ?_, by simpa using hcur, hopen, h2.symm⟩
          rcases hs2 with ⟨e1, e2, _⟩ | ⟨e1, e2⟩
          · exact Or.inl ⟨e1, e2⟩
          · exact Or.inr ⟨e1, e2⟩

/-- C14 (parametric-definition detection). For every call of `parseRuleset` that returns true,
with `S` the selector of the ruleset (the argument, or the selector read by `parseSelector`),
the head of the call creates the ruleset `ref` whose body is then parsed, and:
* `ref` is a parameter ruleset iff the last token of `S` has type `PAREN_CLOSED`;
* in that case exactly one `ParameterRuleset`, built from `S`, is appended to the registry, and
  the rulesets and at-rules of the stylesheet are unchanged by the head;
* otherwise exactly one `Ruleset` with selector `S` and no declaration is appended to the
  stylesheet, before the body is parsed, and the registry is unchanged by the head. -/
theorem parametric_definition_detection (c : Collab) (fuel : Nat)
    (selector : Option TokenList) (st st1 : State)
    (h : parseRuleset c (fuel + 1) selector st = .ok true st1) :
    ∃ S toks last ref st2 b3 st3,
      (selector = some S ∧ toks = st.tokens ∨
        selector = none ∧ c.parseSelector st.tokens = .ok (some S, toks)) ∧
      S.getLast? = some last ∧
      parseRulesetHead c selector st = .ok (some ref) st2 ∧
      parseRulesetStatement c fuel ref st2 = .ok b3 st3 ∧
      (last.type = .PAREN_CLOSED ↔ ∃ i, ref = .param i) ∧
      (last.type = .PAREN_CLOSED →
        ref = .param st.parameterRulesets.length ∧
        st2.parameterRulesets = st.parameterRulesets ++ [⟨S, []⟩] ∧
        st2.rulesets = st.rulesets ∧ st2.atRules = st.atRules) ∧
      (last.type ≠ .PAREN_CLOSED →
        ref = .plain st.rulesets.length ∧
        st2.rulesets = st.rulesets ++ [⟨S, []⟩] ∧
        st2.parameterRulesets = st.parameterRulesets ∧ st2.atRules = st.atRules) := by
  rw [parseRuleset] at h
  cases hh : parseRulesetHead c selector st with
  | stop r => rw [hh] at h; cases h
  | ok o st2 =>
    rw [hh] at h
    cases o with
    | none => cases h
    | some ref =>
      dsimp only at h
      cases hb : parseRulesetStatement c fuel ref st2 with
      | stop r => rw [hb] at h; cases h
      | ok b3 st3 =>
        obtain ⟨S, toks, s2, hS, hcur, hopen, hst2⟩ :=
          parseRulesetHead_some_inv c selector st st2 ref hh
        unfold openRuleset at hopen
        simp only at hopen
        cases hl : S.getLast? with
        | none => simp [hl] at hopen
        | some last =>
          simp only [hl] at hopen
          refine ⟨S, toks, last, ref, st2, b3, st3, hS, hl, rfl, hb, ?_⟩
          by_cases hp : last.type = .PAREN_CLOSED
          · simp only [hp, ne_eq, not_true_eq_false, if_false, Option.some.injEq,
              Prod.mk.injEq] at hopen
            obtain ⟨h1, h2⟩ := hopen
            subst h1; subst h2; subst hst2
            refine ⟨⟨fun _ => ⟨_, rfl⟩, fun _ => hp⟩, fun _ => ⟨rfl, ?_, ?_, ?_⟩,
              fun hne => absurd hp hne⟩
            · simp
            · simp
            · simp [(putVariables_fields _ _).2.2.2.2.1]
          · simp only [hp, ne_eq, not_false_eq_true, if_true, Option.some.injEq,
              Prod.mk.injEq] at hopen
            obtain ⟨h1, h2⟩ := hopen
            subst h1; subst h2; subst hst2
            refine ⟨⟨fun hc => absurd hc hp, fun ⟨i, hi⟩ => by cases hi⟩,
              fun hc => absurd hc hp, fun _ => ⟨rfl, ?_, ?_, ?_⟩⟩
            · simp
            · simp
            · simp

/-- Witness for C14: the parametric definition `.m(@a) \x7b left: @a \x7d`. -/
theorem parametric_definition_detection_witness :
    parseRuleset specCollab (2 + 1) none (initialState Demo.paramDef) =
      .ok true Demo.paramDefDone ∧
    ∃ S toks last ref st2 b3 st3,
      ((none : Option TokenList) = some S ∧ toks = (initialState Demo.paramDef).tokens ∨
        (none : Option TokenList) = none ∧
          specCollab.parseSelector (initialState Demo.paramDef).tokens = .ok (some S, toks)) ∧
      S.getLast? = some last ∧
      parseRulesetHead specCollab none (initialState Demo.paramDef) = .ok (some ref) st2 ∧
      parseRulesetStatement specCollab 2 ref st2 = .ok b3 st3 ∧
      (last.type = .PAREN_CLOSED ↔ ∃ i, ref = .param i) ∧
      (last.type = .PAREN_CLOSED →
        ref = .param (initialState Demo.paramDef).parameterRulesets.length ∧
        st2.parameterRulesets = (initialState Demo.paramDef).parameterRulesets ++ [⟨S, []⟩] ∧
        st2.rulesets = (initialState Demo.paramDef).rulesets ∧
        st2.atRules = (initialState Demo.paramDef).atRules) ∧
      (last.type ≠ .PAREN_CLOSED →
        ref = .plain (initialState Demo.paramDef).rulesets.length ∧
        st2.rulesets = (initialState Demo.paramDef).rulesets ++ [⟨S, []⟩] ∧
        st2.parameterRulesets = (initialState Demo.paramDef).parameterRulesets ∧
        st2.atRules = (initialState Demo.paramDef).atRules) :=
  ⟨by decide!,
    parametric_definition_detection specCollab 2 none (initialState Demo.paramDef)
      Demo.paramDefDone (by decide!)⟩

/-! ## C18: a ruleset without selector -/

/-- C18 (optional selector), refuted by the code. Whenever `parseSelector` finds no selector and
the current token is the opening bracket, `parseRuleset` reads the bracket, pushes a scope and
then evaluates `selector->back()` on the null selector (line 134): the call stops on that access
instead of returning true. On `\x7b color: red \x7d` both `parseRuleset` and the whole parse stop
there, with the declaration list unread. -/
theorem optional_selector_null_access :
    (∀ (c : Collab) (fuel : Nat) (st : State) (toks : List Token),
      c.parseSelector st.tokens = .ok (none, toks) →
      curType { st with tokens := toks } = .BRACKET_OPEN →
      parseRuleset c (fuel + 1) none st =
        .stop (.fault (pushScope (readNextToken { st with tokens := toks })))) ∧
    specCollab.parseSelector (initialState Demo.noSelector).tokens =
      .ok (none, Demo.noSelector) ∧
    parseRuleset specCollab 3 none (initialState Demo.noSelector) =
      .stop (.fault Demo.noSelectorFault) ∧
    parseStylesheet specCollab 5 (initialState Demo.noSelector) =
      .stop (.fault Demo.noSelectorFault) := by
  refine ⟨?_, rfl, by decide!, by decide!⟩
  intro c fuel st toks hsel hcur
  rw [parseRuleset, parseRulesetHead]
  simp only [liftCss, hsel]
  simp [hcur, openRuleset]

/-! ## C11, C19: the `@import` at-rule -/

theorem substr_quoted (q q1 : Char) (p : List Char) (k : Nat) (hk : k ≤ p.length) :
    substr (String.mk (q :: p ++ [q1])) (p.length + 2 - (k + 1)) k =
      String.mk (p.drop (p.length - k)) := by
  unfold substr
  have h1 : p.length + 2 - (k + 1) = (p.length - k) + 1 := by omega
  rw [h1]
  congr 1
  show List.take k (List.drop (p.length - k) (p ++ [q1])) = _
  rw [List.drop_append_of_le_length (by omega)]
  rw [List.take_append_of_le_length (by simp; omega)]
  apply List.take_of_length_le
  simp; omega

theorem substr_quoted_short (q q1 : Char) (p : List Char) :
    substr (String.mk (q :: p ++ [q1])) 0 (p.length + 1) = String.mk (q :: p) := by
  unfold substr
  congr 1
  show List.take (p.length + 1) (q :: (p ++ [q1])) = _
  rw [List.take_succ_cons, List.take_left']
  rfl

theorem length_quoted (q q1 : Char) (p : List Char) :
    (String.mk (q :: p ++ [q1])).length = p.length + 2 := by
  simp [String.length]

theorem isCssImport_iff (s : String) :
    isCssImport s = true ↔ ¬ s.length < 5 ∧ substr s (s.length - 5) 4 = ".css" := by
  unfold isCssImport
  simp only [Bool.not_eq_true', Bool.or_eq_false_iff, decide_eq_false_iff_not, ne_eq, not_not]

/-- A quoted path is a CSS import iff the path ends in `.css`. -/
theorem isCssImport_quoted (q q1 : Char) (p : List Char) (hq : q ≠ '.') :
    isCssImport (String.mk (q :: p ++ [q1])) = true ↔ ".css".data <:+ p := by
  rw [isCssImport_iff, length_quoted, List.suffix_iff_eq_drop]
  have hl : ".css".data.length = 4 := rfl
  rw [hl]
  by_cases h4 : 4 ≤ p.length
  · rw [substr_quoted q q1 p 4 h4, String.ext_iff]
    constructor
    · intro h; exact h.2.symm
    · intro h; exact ⟨by omega, h.symm⟩
  · constructor
    · rintro ⟨h5, h⟩
      exfalso
      have h3 : p.length = 3 := by omega
      have hs := substr_quoted_short q q1 p
      rw [h3] at hs h
      rw [hs, String.ext_iff] at h
      exact hq (List.head_eq_of_cons_eq h)
    · intro h
      exfalso
      have := congrArg List.length h
      rw [List.length_drop, hl] at this
      omega

theorem importFileName_iff (s : String) (h0 : s.length ≠ 0) :
    importFileName s =
      if ¬ s.length < 6 ∧ substr s (s.length - 6) 5 = ".less" then some (substr s 1 (s.length - 2))
      else some (substr (String.mk (s.data.take (s.length - 1) ++ ".less".data ++
        s.data.drop (s.length - 1))) 1 (s.length + 5 - 2)) := by
  unfold importFileName
  by_cases h : s.length < 6 ∨ substr s (s.length - 6) 5 ≠ ".less"
  · rw [if_pos h, if_neg h0, if_neg]
    intro ⟨h1, h2⟩
    rcases h with h | h
    · exact h1 h
    · exact h h2
  · rw [if_neg h, if_pos]
    constructor
    · intro h1; exact h (Or.inl h1)
    · by_contra h2; exact h (Or.inr h2)

/-- The file name of a quoted path: the path itself when it ends in `.less`, the path followed
by `.less` otherwise. -/
theorem importFileName_quoted (q q1 : Char) (p : List Char) (hq : q ≠ '.') :
    importFileName (String.mk (q :: p ++ [q1])) =
      some (if ".less".data <:+ p then String.mk p else String.mk (p ++ ".less".data)) := by
  rw [importFileName_iff _ (by rw [length_quoted]; omega), length_quoted]
  have hl : ".less".data.length = 5 := rfl
  have hcond : (¬ p.length + 2 < 6 ∧
      substr (String.mk (q :: p ++ [q1])) (p.length + 2 - 6) 5 = ".less") ↔
      ".less".data <:+ p := by
    rw [List.suffix_iff_eq_drop, hl]
    by_cases h5 : 5 ≤ p.length
    · rw [substr_quoted q q1 p 5 h5, String.ext_iff]
      constructor
      · intro h; exact h.2.symm
      · intro h; exact ⟨by omega, h.symm⟩
    · constructor
      · rintro ⟨h6, h⟩
        exfalso
        have h4 : p.length = 4 := by omega
        have hs := substr_quoted_short q q1 p
        rw [h4] at hs h
        rw [hs, String.ext_iff] at h
        exact hq (List.head_eq_of_cons_eq h)
      · intro h
        exfalso
        have := congrArg List.length h
        rw [List.length_drop, hl] at this
        omega
  by_cases hs : ".less".data <:+ p
  · rw [if_pos (hcond.2 hs), if_pos hs]
    congr 1
    unfold substr
    congr 1
    show List.take (p.length + 2 - 2) (List.drop 0 (p ++ [q1])) = p
    simp
  · rw [if_neg (fun h => hs (hcond.1 h)), if_neg hs]
    congr 1
    unfold substr
    congr 1
    have e1 : List.take (p.length + 2 - 1) (q :: p ++ [q1]) = q :: p := by
      show List.take (p.length + 1) (q :: (p ++ [q1])) = _
      rw [List.take_succ_cons, List.take_left']
      rfl
    have e2 : List.drop (p.length + 2 - 1) (q :: p ++ [q1]) = [q1] := by
      show List.drop (p.length + 1) (q :: (p ++ [q1])) = _
      rw [List.drop_succ_cons, List.drop_left']
      rfl
    show List.take (p.length + 2 + 5 - 2)
      (List.drop 1 (List.take (p.length + 2 - 1) (q :: p ++ [q1]) ++ ".less".data ++
        List.drop (p.length + 2 - 1) (q :: p ++ [q1]))) = p ++ ".less".data
    rw [e1, e2]
    show List.take (p.length + 2 + 5 - 2) ((p ++ ".less".data) ++ [q1]) = _
    rw [List.take_left']
    rw [List.length_append, hl]
    omega

/-- With a keyword, `parseVariable` returns false without effect when the current token is not
a colon. -/
theorem parseVariable_false (c : Collab) (keyword : String) (st : State)
    (hk : keyword ≠ "") (hcolon : curType st ≠ .COLON) :
    parseVariable c keyword st = .ok false st := by
  unfold parseVariable
  rw [if_neg hk, if_pos hcolon]

/-- The loop of `parseAny` changes the token stream only. -/
theorem parseAnyLoop_fields (c : Collab) (fuel : Nat) :
    ∀ (rule : TokenList) (st : State) (rule1 : TokenList) (st1 : State),
      parseAnyLoop c fuel rule st = .ok rule1 st1 →
      st1.scopes = st.scopes ∧ st1.rulesets = st.rulesets ∧ st1.atRules = st.atRules ∧
        st1.parameterRulesets = st.parameterRulesets ∧ st1.trace = st.trace := by
  induction fuel with
  | zero => intro rule st rule1 st1 h; cases h
  | succ n ih =>
    intro rule st rule1 st1 h
    rw [parseAnyLoop] at h
    split at h
    · cases h
    · have h1 := ih _ _ _ _ h
      exact h1
    · cases h; exact ⟨rfl, rfl, rfl, rfl, rfl⟩

/-- The rule of an at-rule is read with no effect but on the token stream. -/
theorem parseAtRuleBody_fields (c : Collab) (fuel : Nat) (st : State) (rule : TokenList)
    (st2 : State) (h : parseAtRuleBody c fuel st = .ok rule st2) :
    st2.scopes = st.scopes ∧ st2.rulesets = st.rulesets ∧ st2.atRules = st.atRules ∧
      st2.parameterRulesets = st.parameterRulesets ∧ st2.trace = st.trace := by
  unfold parseAtRuleBody at h
  cases hl : parseAnyLoop c fuel [] st with
  | stop r => rw [hl] at h; cases h
  | ok rule0 st1 =>
    rw [hl] at h
    have h1 := parseAnyLoop_fields c fuel [] st rule0 st1 hl
    dsimp only at h
    split at h
    · cases h
    · cases h; exact h1
    · split at h
      · cases h
      · cases h
        simpa using h1

/-- C19 (malformed `@import`). For an at-rule with keyword `@import` (the token after the keyword
and whitespace is not a colon, so it is not a variable declaration) whose rule tokens have been
collected up to the delimiter or through a block: if the rule is not exactly one token of type
`STRING`, `parseAtRuleOrVariable` raises the `ParseException` built from the text of the rule
and "A string with the file path"; up to the throw no at-rule has been added to the stylesheet,
no ruleset either, and the trace holds no call of `importFile` that it did not hold at entry. -/
theorem malformed_import_raises (c : Collab) (fuel : Nat) (st st2 : State) (rule : TokenList)
    (hat : curType st = .ATKEYWORD) (hkw : curStr st = "@import")
    (hcolon : curType (skipWhitespace (readNextToken st)) ≠ .COLON)
    (hbody : parseAtRuleBody c fuel (skipWhitespace (readNextToken st)) = .ok rule st2)
    (hbad : ∀ t, rule = [t] → t.type ≠ .STRING) :
    parseAtRuleOrVariable c (fuel + 1) st =
      .stop (.raised ⟨tokensToString rule, "A string with the file path"⟩ st2) ∧
    st2.atRules = st.atRules ∧ st2.rulesets = st.rulesets ∧
    st2.parameterRulesets = st.parameterRulesets ∧ st2.trace = st.trace := by
  have hf := parseAtRuleBody_fields c fuel _ rule st2 hbody
  refine ⟨?_, by simpa using hf.2.2.1, by simpa using hf.2.1, by simpa using hf.2.2.2.1,
    by simpa using hf.2.2.2.2⟩
  rw [parseAtRuleOrVariable, if_neg (by simp [hat]), hkw,
    parseVariable_false c "@import" _ (by decide) hcolon]
  dsimp only
  rw [hbody]
  dsimp only
  rw [if_pos rfl]
  match rule, hbad with
  | [], _ => rfl
  | [t], hbad => simp only [if_pos (hbad t rfl)]
  | _ :: _ :: _, _ => rfl

/-- Witness for C19: `@import foo, "a.css";`. -/
theorem malformed_import_raises_witness :
    parseAtRuleBody Demo.withFile 7
        (skipWhitespace (readNextToken (initialState Demo.importBad))) =
      .ok [Demo.ident "foo", Demo.comma, Demo.space, Demo.str "a.css"] (initialState []) ∧
    (parseAtRuleOrVariable Demo.withFile (7 + 1) (initialState Demo.importBad) =
      .stop (.raised
        ⟨tokensToString [Demo.ident "foo", Demo.comma, Demo.space, Demo.str "a.css"],
          "A string with the file path"⟩ (initialState [])) ∧
    (initialState []).atRules = (initialState Demo.importBad).atRules ∧
    (initialState []).rulesets = (initialState Demo.importBad).rulesets ∧
    (initialState []).parameterRulesets = (initialState Demo.importBad).parameterRulesets ∧
    (initialState []).trace = (initialState Demo.importBad).trace) :=
  ⟨by decide!,
    malformed_import_raises Demo.withFile 7 (initialState Demo.importBad) (initialState [])
      [Demo.ident "foo", Demo.comma, Demo.space, Demo.str "a.css"]
      (by decide) (by decide) (by decide) (by decide!) (by intro t h; cases h)⟩

/-- C11 (`@import` dispatch). For an at-rule with keyword `@import` (the token after the keyword
and whitespace is not a colon) whose rule is exactly one `STRING` token `t`, made of the path
`p` between two quote characters:
* up to the decision no at-rule has been added and `importFile` has not been called;
* if `p` ends in `.css`, the call returns true in the state where exactly the at-rule
  `@import t` has been appended to the stylesheet, and the trace is the trace at entry:
  `importFile` is not called;
* otherwise the call is the single call `importFile(f)` made in the state after the rule, which
  holds no new at-rule, where `f` is `p` when `p` ends in `.less` and `p` followed by `.less`
  when it does not; the call returns true when `importFile` returns and stops as `importFile`
  stops. -/
theorem import_dispatch (c : Collab) (fuel : Nat) (st st2 : State) (t : Token) (q q1 : Char)
    (p : String)
    (hat : curType st = .ATKEYWORD) (hkw : curStr st = "@import")
    (hcolon : curType (skipWhitespace (readNextToken st)) ≠ .COLON)
    (hbody : parseAtRuleBody c fuel (skipWhitespace (readNextToken st)) = .ok [t] st2)
    (hstr : t.type = .STRING) (hp : t.str = String.mk (q :: p.data ++ [q1]))
    (hq : q ≠ '.') :
    st2.atRules = st.atRules ∧ st2.trace = st.trace ∧
    (".css".data <:+ p.data →
      parseAtRuleOrVariable c (fuel + 1) st = .ok true (addAtRule ⟨"@import", [t]⟩ st2) ∧
      (addAtRule ⟨"@import", [t]⟩ st2).atRules = st.atRules ++ [⟨"@import", [t]⟩] ∧
      (addAtRule ⟨"@import", [t]⟩ st2).trace = st.trace) ∧
    (¬ ".css".data <:+ p.data →
      parseAtRuleOrVariable c (fuel + 1) st =
        match importFile c fuel (if ".less".data <:+ p.data then p else p ++ ".less") st2 with
        | .stop r => .stop r
        | .ok _ st3 => .ok true st3) := by
  have hf := parseAtRuleBody_fields c fuel _ [t] st2 hbody
  have ha : st2.atRules = st.atRules := by simpa using hf.2.2.1
  have ht : st2.trace = st.trace := by simpa using hf.2.2.2.2
  have hunf : parseAtRuleOrVariable c (fuel + 1) st =
      if isCssImport t.str then .ok true (addAtRule ⟨"@import", [t]⟩ st2)
      else
        match importFileName t.str with
        | none => .stop (.fault st2)
        | some filename =>
          match importFile c fuel filename st2 with
          | .stop r => .stop r
          | .ok _ st3 => .ok true st3 := by
    rw [parseAtRuleOrVariable, if_neg (by simp [hat]), hkw,
      parseVariable_false c "@import" _ (by decide) hcolon]
    dsimp only
    rw [hbody]
    dsimp only
    rw [if_pos rfl, if_neg (by simp [hstr])]
  refine ⟨ha, ht, ?_, ?_⟩
  · intro hcss
    have hc : isCssImport t.str = true := by
      rw [hp]; exact (isCssImport_quoted q q1 p.data hq).2 hcss
    rw [hunf, hc]
    simp [ha, ht]
  · intro hcss
    have hc : isCssImport t.str = false := by
      rw [hp]
      cases h : isCssImport (String.mk (q :: p.data ++ [q1])) with
      | false => rfl
      | true => exact absurd ((isCssImport_quoted q q1 p.data hq).1 h) hcss
    rw [hunf, hc, hp, importFileName_quoted q q1 p.data hq]
    have hname : (if ".less".data <:+ p.data then String.mk p.data
        else String.mk (p.data ++ ".less".data)) =
        (if ".less".data <:+ p.data then p else p ++ ".less") := by
      split <;> rfl
    rw [hname]
    simp

/-- Witness for C11: `@import "lib";` with a file `lib.less`: the rule is the string token, the
path does not end in `.css` and not in `.less`, and `importFile("lib.less")` is called. -/
theorem import_dispatch_witness :
    parseAtRuleBody Demo.withFile 7
        (skipWhitespace (readNextToken (initialState Demo.importLib))) =
      .ok [Demo.str "lib"] (initialState []) ∧
    parseAtRuleOrVariable Demo.withFile (7 + 1) (initialState Demo.importLib) =
      .ok true Demo.imported ∧
    ((initialState []).atRules = (initialState Demo.importLib).atRules ∧
    (initialState []).trace = (initialState Demo.importLib).trace ∧
    (".css".data <:+ "lib".data →
      parseAtRuleOrVariable Demo.withFile (7 + 1) (initialState Demo.importLib) =
        .ok true (addAtRule ⟨"@import", [Demo.str "lib"]⟩ (initialState [])) ∧
      (addAtRule ⟨"@import", [Demo.str "lib"]⟩ (initialState [])).atRules =
        (initialState Demo.importLib).atRules ++ [⟨"@import", [Demo.str "lib"]⟩] ∧
      (addAtRule ⟨"@import", [Demo.str "lib"]⟩ (initialState [])).trace =
        (initialState Demo.importLib).trace) ∧
    (¬ ".css".data <:+ "lib".data →
      parseAtRuleOrVariable Demo.withFile (7 + 1) (initialState Demo.importLib) =
        match importFile Demo.withFile 7
          (if ".less".data <:+ "lib".data then "lib" else "lib" ++ ".less")
          (initialState []) with
        | .stop r => .stop r
        | .ok _ st3 => .ok true st3)) :=
  ⟨by decide!, by decide!,
    import_dispatch Demo.withFile 7 (initialState Demo.importLib) (initialState [])
      (Demo.str "lib") (Char.ofNat 34) (Char.ofNat 34) "lib"
      (by decide) (by decide) (by decide) (by decide!) rfl rfl (by decide)⟩

/-! ## C16: the mixin engine is additive -/

/-- The copy loop touches neither the token stream, nor the scopes, nor the at-rules, and it
raises nothing. -/
theorem copyDeclarations_fields (mixin target : RulesetRef) (fuel : Nat) :
    ∀ (i : Nat) (st : State),
      (∀ s, copyDeclarations mixin target fuel i st = .ok () s →
        s.tokens = st.tokens ∧ s.scopes = st.scopes ∧ s.atRules = st.atRules) ∧
      (∀ r, copyDeclarations mixin target fuel i st = .stop r → r = .outOfFuel) := by
  induction fuel with
  | zero =>
    intro i st
    exact ⟨fun s h => (by cases h), fun r h => (by cases h; rfl)⟩
  | succ n ih =>
    intro i st
    rw [copyDeclarations]
    split
    · exact ⟨fun s h => (by cases h; exact ⟨rfl, rfl, rfl⟩), fun r h => (by cases h)⟩
    · rename_i d _
      have hf := addDeclaration_fields target d st
      refine ⟨fun s h => ?_, fun r h => (ih _ _).2 r h⟩
      have h1 := (ih _ _).1 s h
      exact ⟨h1.1.trans hf.2.2.1, h1.2.1.trans hf.1, h1.2.2.trans hf.2.2.2.1⟩

/-- C16 (the mixin engine is additive). For every selector, calling ruleset and state:
* when `parseMixin` returns, the token stream, the scope stack and the at-rules are those at
  entry (the selector is a value of the model and is never written);
* when it returns false, the rulesets of the stylesheet, the registry and hence the declarations
  of the calling ruleset are also those at entry;
* when it raises or stops on the key, it does so in the state at entry. -/
theorem mixin_engine_additive (c : Collab) (fuel : Nat) (selector : TokenList)
    (ruleset : RulesetRef) (st : State) :
    (∀ b st1, parseMixin c fuel selector ruleset st = .ok b st1 →
      st1.tokens = st.tokens ∧ curType st1 = curType st ∧ st1.scopes = st.scopes ∧
      st1.atRules = st.atRules ∧
      (b = false → st1.rulesets = st.rulesets ∧
        st1.parameterRulesets = st.parameterRulesets ∧
        getDeclarations st1 ruleset = getDeclarations st ruleset)) ∧
    (∀ r s, parseMixin c fuel selector ruleset st = .stop r → r.state? = some s → s = st) := by
  unfold parseMixin processParameterMixin
  cases hk : callKey selector with
  | none =>
    refine ⟨fun b st1 h => (by cases h), fun r s h hs => ?_⟩
    cases h
    simpa [Abort.state?] using hs.symm
  | some key =>
    dsimp only
    cases ha : callArguments c st.scopes selector with
    | error e =>
      refine ⟨fun b st1 h => (by cases h), fun r s h hs => ?_⟩
      cases h
      simpa [Abort.state?] using hs.symm
    | ok args =>
      dsimp only
      have hspec := matchLoop_spec c key args ruleset st.parameterRulesets.length 0 false st
        (by simp)
      have hnofire := matchLoop_nofire c key args ruleset st.parameterRulesets.length 0 false st
        (by simp)
      generalize matchLoop c key args ruleset st.parameterRulesets.length 0 false st = ml
        at hspec hnofire
      cases hg : getRuleset ml.2.rulesets selector with
      | some m =>
        dsimp only
        have hc := copyDeclarations_fields (.plain m) ruleset fuel 0 ml.2
        constructor
        · intro b st1 h
          cases hcp : copyDeclarations (.plain m) ruleset fuel 0 ml.2 with
          | stop r => rw [hcp] at h; cases h
          | ok u s2 =>
            rw [hcp] at h
            simp only [Outcome.ok.injEq] at h
            obtain ⟨hb1, h⟩ := h
            subst hb1
            subst h
            have h1 := hc.1 s2 hcp
            have ht : s2.tokens = st.tokens := h1.1.trans hspec.2.2.2.1
            refine ⟨ht, ?_, h1.2.1.trans hspec.1, h1.2.2.trans hspec.2.2.2.2.1,
              fun hb => by cases hb⟩
            unfold curType
            rw [ht]
        · intro r s h hs
          cases hcp : copyDeclarations (.plain m) ruleset fuel 0 ml.2 with
          | stop r1 =>
            rw [hcp] at h
            cases h
            rw [hc.2 r hcp] at hs
            cases hs
          | ok u s2 => rw [hcp] at h; cases h
      | none =>
        dsimp only
        refine ⟨fun b st1 h => ?_, fun r s h hs => by cases h⟩
        cases h
        have ht : ml.2.tokens = st.tokens := hspec.2.2.2.1
        refine ⟨ht, ?_, hspec.1, hspec.2.2.2.2.1, fun hb => ?_⟩
        · unfold curType
          rw [ht]
        · have hfired : firedFrom c key args st.scopes 0 ((registrySelectors st).drop 0) = [] := by
            have h3 := hspec.2.2.1
            rw [hb] at h3
            cases hf : firedFrom c key args st.scopes 0 ((registrySelectors st).drop 0) with
            | nil => rfl
            | cons a l => rw [hf] at h3; simp at h3
          have h4 := hnofire hfired
          refine ⟨h4.1, h4.2, ?_⟩
          unfold getDeclarations
          cases ruleset with
          | plain i => simp only [getRulesetAt, h4.1]
          | param i => simp only [getRulesetAt, h4.2]

/-! ## C20: a ruleset that calls itself -/

/-- When the mixin is the calling ruleset, every iteration of the copy loop appends to the list
it iterates over: the position never reaches the end, whatever the number of iterations
allowed. -/
theorem copyDeclarations_self (r : RulesetRef) (fuel : Nat) :
    ∀ (i : Nat) (st : State) (x : Ruleset), getRulesetAt st r = some x →
      i < x.declarations.length → copyDeclarations r r fuel i st = .stop .outOfFuel := by
  induction fuel with
  | zero => intro i st x _ _; rfl
  | succ n ih =>
    intro i st x hx hi
    rw [copyDeclarations]
    have hd : getDeclarations st r = x.declarations := by simp [getDeclarations, hx]
    rw [hd]
    have hget : x.declarations.get? i = some (x.declarations.get ⟨i, hi⟩) :=
      List.get?_eq_get hi
    rw [hget]
    dsimp only
    apply ih (i + 1) _ ⟨x.selector, x.declarations ++ [x.declarations.get ⟨i, hi⟩]⟩
    · rw [getRulesetAt_addDeclaration_self, hx]
      rfl
    · simp only [List.length_append, List.length_singleton]
      omega

/-- The body of `.a \x7b color: red; .a; \x7d` never returns: after the declaration, the call
`.a` finds the ruleset being built and the copy loop does not end. -/
theorem selfCall_body (k : Nat) :
    parseRulesetStatement specCollab (k + 2) (.plain 0) Demo.selfCallBody =
      .stop .outOfFuel := by
  have hm : ∀ fuel, parseMixin specCollab fuel [Demo.dot, Demo.ident "a"] (.plain 0)
      Demo.selfCallAt = .stop .outOfFuel := by
    intro fuel
    have h1 : processParameterMixin specCollab [Demo.dot, Demo.ident "a"] (.plain 0)
        Demo.selfCallAt = .ok false Demo.selfCallAt := by decide
    have h2 : getRuleset Demo.selfCallAt.rulesets [Demo.dot, Demo.ident "a"] = some 0 := by
      decide
    rw [parseMixin, h1]
    dsimp only
    rw [h2]
    dsimp only
    rw [copyDeclarations_self (.plain 0) fuel 0 Demo.selfCallAt
      ⟨[Demo.dot, Demo.ident "a"], [⟨"color", [Demo.space, Demo.ident "red"]⟩]⟩ rfl
      (by decide)]
  have h2 : parseRulesetStatement specCollab (k + 1) (.plain 0)
      (skipWhitespace (readNextToken Demo.selfCallDeclared)) = .stop .outOfFuel := by
    rw [parseRulesetStatement]
    have hs : liftCss
        (specCollab.parseSelector (skipWhitespace (readNextToken Demo.selfCallDeclared)).tokens)
        (skipWhitespace (readNextToken Demo.selfCallDeclared)) =
        .ok (some [Demo.dot, Demo.ident "a"]) Demo.selfCallAt := by
      decide
    rw [hs]
    dsimp only
    cases k with
    | zero => rfl
    | succ j =>
      have hn : parseNestedRule specCollab (j + 1) [Demo.dot, Demo.ident "a"] (.plain 0)
          Demo.selfCallAt = .ok false Demo.selfCallAt := by
        rw [parseNestedRule, if_pos (by decide)]
      rw [hn]
      dsimp only
      rw [hm]
  rw [parseRulesetStatement]
  have hs : liftCss (specCollab.parseSelector Demo.selfCallBody.tokens) Demo.selfCallBody =
      .ok (some [Demo.ident "color", Demo.colon, Demo.space, Demo.ident "red"])
        Demo.selfCallValue := by
    decide
  rw [hs]
  dsimp only
  have hn : parseNestedRule specCollab (k + 1)
      [Demo.ident "color", Demo.colon, Demo.space, Demo.ident "red"] (.plain 0)
      Demo.selfCallValue = .ok false Demo.selfCallValue := by
    rw [parseNestedRule, if_pos (by decide)]
  rw [hn]
  dsimp only
  have hmx : parseMixin specCollab (k + 1)
      [Demo.ident "color", Demo.colon, Demo.space, Demo.ident "red"] (.plain 0)
      Demo.selfCallValue = .ok false Demo.selfCallValue := by
    have h1 : processParameterMixin specCollab
        [Demo.ident "color", Demo.colon, Demo.space, Demo.ident "red"] (.plain 0)
        Demo.selfCallValue = .ok false Demo.selfCallValue := by decide
    rw [parseMixin, h1]
    rfl
  rw [hmx]
  dsimp only
  have hd : parseDeclarationRest specCollab (Demo.ident "color").str
      [Demo.space, Demo.ident "red"] (.plain 0) Demo.selfCallValue =
      .ok () Demo.selfCallDeclared := by decide
  rw [if_pos (by decide)]
  rw [hd]
  dsimp only
  rw [if_pos (by decide), h2]

/-- C20 (termination of the plain-mixin expansion), refuted by the code when the mixin found is
the calling ruleset. The copy loop of `parseMixin` compares its position with the end of the
declarations at every iteration and appends to the calling ruleset; when both are the same
object, a position inside the list stays inside it, so with any bound on the number of
iterations the loop is still running when the bound is reached. On
`.a \x7b color: red; .a; \x7d` the lookup of `.a` returns the ruleset being built, which holds
one declaration: `parseMixin` does not return, and neither does the parse of the stylesheet. -/
theorem self_mixin_copy_diverges :
    (∀ (r : RulesetRef) (fuel i : Nat) (st : State) (x : Ruleset),
      getRulesetAt st r = some x → i < x.declarations.length →
      copyDeclarations r r fuel i st = .stop .outOfFuel) ∧
    getRuleset Demo.selfCallAt.rulesets [Demo.dot, Demo.ident "a"] = some 0 ∧
    (getDeclarations Demo.selfCallAt (.plain 0)).length = 1 ∧
    (∀ fuel, parseMixin specCollab fuel [Demo.dot, Demo.ident "a"] (.plain 0)
      Demo.selfCallAt = .stop .outOfFuel) ∧
    (∀ fuel, parseStylesheet specCollab fuel (initialState Demo.selfCall) =
      .stop .outOfFuel) := by
  refine ⟨fun r fuel i st x hx hi => copyDeclarations_self r fuel i st x hx hi, by decide,
    by decide, ?_, ?_⟩
  · intro fuel
    have h1 : processParameterMixin specCollab [Demo.dot, Demo.ident "a"] (.plain 0)
        Demo.selfCallAt = .ok false Demo.selfCallAt := by decide
    have h2 : getRuleset Demo.selfCallAt.rulesets [Demo.dot, Demo.ident "a"] = some 0 := by
      decide
    rw [parseMixin, h1]
    dsimp only
    rw [h2]
    dsimp only
    rw [copyDeclarations_self (.plain 0) fuel 0 Demo.selfCallAt
      ⟨[Demo.dot, Demo.ident "a"], [⟨"color", [Demo.space, Demo.ident "red"]⟩]⟩ rfl
      (by decide)]
  · intro fuel
    have hhead : parseRulesetHead specCollab none (initialState Demo.selfCall) =
        .ok (some (.plain 0)) Demo.selfCallBody := by decide
    have hr : ∀ n, parseRuleset specCollab n none (initialState Demo.selfCall) =
        .stop .outOfFuel := by
      intro n
      match n with
      | 0 => rfl
      | 1 => decide
      | 2 => decide!
      | k + 3 =>
        rw [parseRuleset, hhead]
        dsimp only
        rw [selfCall_body k]
    match fuel with
    | 0 => rfl
    | 1 => rfl
    | 2 => rfl
    | n + 3 =>
      have e : skipWhitespace (initialState Demo.selfCall) = initialState Demo.selfCall := by
        decide
      rw [parseStylesheet, e, parseStatements, parseStatement, hr]

/-! ## C15: the argument list of a call -/

/-- The inner argument loop on a segment without separator followed by a separator or a closing
parenthesis: the segment is the argument, the iterator is left after the separator. -/
theorem readArgument_segment (e : Token) (rest : List Token) (he : isArgEnd e = true) :
    ∀ (s : TokenList), (∀ t ∈ s, isArgEnd t = false) →
      readArgument (s ++ e :: rest) = (s, rest) := by
  intro s
  induction s with
  | nil => intro _; simp [readArgument, he]
  | cons t ts ih =>
    intro hs
    have ht : isArgEnd t = false := hs t (List.mem_cons_self _ _)
    have := ih (fun u hu => hs u (List.mem_cons_of_mem _ hu))
    simp [readArgument, ht, this]

/-- The argument loop on segments that hold no separator and no closing parenthesis, each
followed by a separator or a closing parenthesis: one argument per segment, in order. -/
theorem readArguments_segments :
    ∀ (segs : List (TokenList × Token)) (fuel : Nat),
      (∀ p ∈ segs, (∀ t ∈ p.1, isArgEnd t = false) ∧ isArgEnd p.2 = true) →
      (segs.flatMap (fun p => p.1 ++ [p.2])).length ≤ fuel →
      readArguments fuel (segs.flatMap (fun p => p.1 ++ [p.2])) = segs.map (·.1) := by
  intro segs
  induction segs with
  | nil =>
    intro fuel _ _
    cases fuel <;> rfl
  | cons p ps ih =>
    intro fuel hp hlen
    have h1 := hp p (List.mem_cons_self _ _)
    have hflat : (p :: ps).flatMap (fun p => p.1 ++ [p.2]) =
        p.1 ++ p.2 :: ps.flatMap (fun p => p.1 ++ [p.2]) := by
      simp [List.flatMap_cons]
    rw [hflat] at hlen ⊢
    have hseg := readArgument_segment p.2 (ps.flatMap (fun p => p.1 ++ [p.2])) h1.2 p.1 h1.1
    cases fuel with
    | zero => simp at hlen
    | succ n =>
      cases hl : p.1 ++ p.2 :: ps.flatMap (fun p => p.1 ++ [p.2]) with
      | nil => simp at hl
      | cons t ts =>
        rw [readArguments, ← hl, hseg]
        simp only [List.map_cons]
        rw [ih n (fun q hq => hp q (List.mem_cons_of_mem _ hq))]
        simp only [List.length_append, List.length_cons] at hlen
        omega

/-- A selector without opening parenthesis is its own key and leaves nothing to the argument
loop. -/
theorem splitKey_noParen : ∀ (sel : TokenList), (∀ t ∈ sel, t.type ≠ .PAREN_OPEN) →
    splitKey sel = (sel, []) := by
  intro sel
  induction sel with
  | nil => intro _; rfl
  | cons t ts ih =>
    intro h
    have ht := h t (List.mem_cons_self _ _)
    have := ih (fun u hu => h u (List.mem_cons_of_mem _ hu))
    simp [splitKey, ht, this]

/-- C15 (argument splitting), refuted by the code for nested parentheses. The argument loop ends
an argument at every token `,` or `;` and at every `PAREN_CLOSED`, whatever the nesting:
* on flat arguments (segments holding no `,`, `;` or `)`, each followed by one) the list has one
  entry per segment, in order, and a selector without parenthesis gives the empty list, as the
  claim says;
* on `.m(rgb(1,2,3))`, which `parseSelector` reads as one selector, the list has four entries,
  `rgb(1`, `2`, `3` and an empty one, instead of the single argument `rgb(1,2,3)`. -/
theorem argument_splitting_nested :
    (∀ (segs : List (TokenList × Token)) (fuel : Nat),
      (∀ p ∈ segs, (∀ t ∈ p.1, isArgEnd t = false) ∧ isArgEnd p.2 = true) →
      (segs.flatMap (fun p => p.1 ++ [p.2])).length ≤ fuel →
      readArguments fuel (segs.flatMap (fun p => p.1 ++ [p.2])) = segs.map (·.1)) ∧
    (∀ (sel : TokenList), (∀ t ∈ sel, t.type ≠ .PAREN_OPEN) →
      readArguments (splitKey sel).2.length (splitKey sel).2 = []) ∧
    readArguments (splitKey Demo.callM12).2.length (splitKey Demo.callM12).2 =
      [[Demo.num "1"], [Demo.space, Demo.num "2"]] ∧
    specCollab.parseSelector (Demo.rgbCall ++ [Demo.semi]) =
      .ok (some Demo.rgbCall, [Demo.semi]) ∧
    callKey Demo.rgbCall = some [Demo.dot, Demo.ident "m"] ∧
    readArguments (splitKey Demo.rgbCall).2.length (splitKey Demo.rgbCall).2 =
      [[Demo.ident "rgb", Demo.lparen, Demo.num "1"], [Demo.num "2"], [Demo.num "3"], []] ∧
    callArguments specCollab [[]] Demo.rgbCall =
      .ok [[Demo.ident "rgb", Demo.lparen, Demo.num "1"], [Demo.num "2"], [Demo.num "3"],
        []] := by
  refine ⟨readArguments_segments, ?_, by decide, rfl, by decide, by decide, rfl⟩
  intro sel h
  rw [splitKey_noParen sel h]
  rfl

/-! ## C12: a call before the definition -/

/-- When no registered parameter ruleset matches the key and the arguments, the registry loop
does nothing. -/
theorem matchLoop_nomatch (c : Collab) (key : TokenList) (args : List TokenList)
    (parent : RulesetRef) (n : Nat) : ∀ (i : Nat) (ret : Bool) (st : State),
    (∀ M ∈ st.parameterRulesets, keyArgsMatch c key args M.selector = false) →
    matchLoop c key args parent n i ret st = (ret, st) := by
  induction n with
  | zero => intro i ret st _; rfl
  | succ n ih =>
    intro i ret st h
    rw [matchLoop]
    split
    · rfl
    · rename_i mixin hget
      have hm : keyArgsMatch c key args mixin.selector = false :=
        h mixin (List.get?_mem hget)
      have hcond : ¬ (c.prSelector mixin.selector = key ∧
          c.matchArguments mixin.selector args = true) := by
        intro hc
        simp [keyArgsMatch, hc.1, hc.2] at hm
      rw [if_neg hcond]
      exact ih _ _ _ h

/-- A call that nothing defined so far answers: `parseMixin` returns false and changes
nothing. -/
theorem parseMixin_undefined (c : Collab) (fuel : Nat) (selector : TokenList)
    (ruleset : RulesetRef) (st : State) (key : TokenList) (args : List TokenList)
    (hkey : callKey selector = some key)
    (hargs : callArguments c st.scopes selector = .ok args)
    (hplain : getRuleset st.rulesets selector = none)
    (hparam : ∀ M ∈ st.parameterRulesets, keyArgsMatch c key args M.selector = false) :
    parseMixin c fuel selector ruleset st = .ok false st := by
  rw [parseMixin, processParameterMixin_eq c selector ruleset st key args hkey hargs,
    matchLoop_nomatch c key args ruleset _ 0 false st hparam]
  dsimp only
  rw [hplain]

/-- C12 (forward references), as the code has it: a call is resolved against the definitions
read so far. If, when the call is reached, no ruleset of the stylesheet has the call selector
and no registered parameter ruleset matches the key and the arguments of the call, then
whatever tokens are still to be read (a definition of the mixin included):
* `parseMixin` returns false and leaves the state as it is;
* a statement made of that selector, not followed by a block and not of the form
  `IDENTIFIER COLON ...`, raises the `ParseException` "a mixin that has been defined" with the
  text of the selector, in the state that follows the selector. -/
theorem mixin_resolution_single_pass (c : Collab) (fuel : Nat) (selector : TokenList)
    (ruleset : RulesetRef) (st : State) (key : TokenList) (args : List TokenList)
    (hkey : callKey selector = some key)
    (hargs : callArguments c st.scopes selector = .ok args)
    (hplain : getRuleset st.rulesets selector = none)
    (hparam : ∀ M ∈ st.parameterRulesets, keyArgsMatch c key args M.selector = false) :
    (∀ toks, parseMixin c fuel selector ruleset { st with tokens := toks } =
      .ok false { st with tokens := toks }) ∧
    (∀ toks rest, c.parseSelector toks = .ok (some selector, rest) →
      curType { st with tokens := rest } ≠ .BRACKET_OPEN →
      (∀ t0 t1 r, selector = t0 :: t1 :: r → ¬ (t0.type = .IDENTIFIER ∧ t1.type = .COLON)) →
      parseRulesetStatement c (fuel + 2) ruleset { st with tokens := toks } =
        .stop (.raised ⟨tokensToString selector, "a mixin that has been defined"⟩
          { st with tokens := rest })) := by
  have hm : ∀ fuel1 toks, parseMixin c fuel1 selector ruleset { st with tokens := toks } =
      .ok false { st with tokens := toks } := fun fuel1 toks =>
    parseMixin_undefined c fuel1 selector ruleset { st with tokens := toks } key args hkey
      hargs hplain hparam
  refine ⟨hm fuel, ?_⟩
  intro toks rest hsel hcur hdecl
  rw [parseRulesetStatement]
  simp only [liftCss, hsel]
  rw [parseNestedRule, if_pos hcur]
  dsimp only
  rw [hm (fuel + 1) rest]
  dsimp only
  match selector, hdecl with
  | [], _ => rfl
  | [_], _ => rfl
  | t0 :: t1 :: r, hdecl => simp only [if_neg (hdecl t0 t1 r rfl)]

/-- Witness for C12: the call `.m` in `.a \x7b .m; \x7d .m \x7b color: red; \x7d`. -/
theorem mixin_resolution_single_pass_witness :
    (∀ toks, parseMixin specCollab 1 [Demo.dot, Demo.ident "m"] (.plain 0)
        { Demo.forwardPlainBody with tokens := toks } =
      .ok false { Demo.forwardPlainBody with tokens := toks }) ∧
    (∀ toks rest,
      specCollab.parseSelector toks = .ok (some [Demo.dot, Demo.ident "m"], rest) →
      curType { Demo.forwardPlainBody with tokens := rest } ≠ .BRACKET_OPEN →
      (∀ t0 t1 r, [Demo.dot, Demo.ident "m"] = t0 :: t1 :: r →
        ¬ (t0.type = .IDENTIFIER ∧ t1.type = .COLON)) →
      parseRulesetStatement specCollab (1 + 2) (.plain 0)
          { Demo.forwardPlainBody with tokens := toks } =
        .stop (.raised
          ⟨tokensToString [Demo.dot, Demo.ident "m"], "a mixin that has been defined"⟩
          { Demo.forwardPlainBody with tokens := rest })) :=
  mixin_resolution_single_pass specCollab 1 [Demo.dot, Demo.ident "m"] (.plain 0)
    Demo.forwardPlainBody [Demo.dot, Demo.ident "m"] [] (by decide) rfl (by decide)
    (by intro M hM; cases hM)

/-- Counterexample to C12 as stated: with the call before the only definition, plain
(`.a \x7b .m; \x7d .m \x7b color: red; \x7d`) or parametric
(`.a \x7b .m(1); \x7d .m(@a) \x7b left: @a; \x7d`), the parse raises at the call and `.a`
receives nothing; with the definition first the same statements parse and `.a` receives the
declaration. -/
theorem forward_reference_counterexample :
    parseStylesheet specCollab 8 (initialState Demo.forwardPlain) =
      .stop (.raised ⟨".m", "a mixin that has been defined"⟩ Demo.forwardPlainThrow) ∧
    parseStylesheet specCollab 8 (initialState Demo.forwardParam) =
      .stop (.raised ⟨".m(1)", "a mixin that has been defined"⟩ Demo.forwardParamThrow) ∧
    parseStylesheet specCollab 8 (initialState Demo.backwardPlain) =
      .ok () Demo.backwardPlainDone ∧
    parseStylesheet specCollab 8 (initialState Demo.backwardParam) =
      .ok () Demo.backwardParamDone := by
  refine ⟨by decide!, by decide!, by decide!, by decide!⟩

/-! ## C17: placeholders for the formal parameters -/

/-- Bindings added one by one to the innermost scope end up in front of it, the last one
first. -/
theorem foldl_bindInnermost_cons (bs : List (String × Option TokenList)) :
    ∀ (sc : Scope) (rest : List Scope),
      bs.foldl (fun s b => bindInnermost b.1 b.2 s) (sc :: rest) = (bs.reverse ++ sc) :: rest := by
  induction bs with
  | nil => intro sc rest; rfl
  | cons b bs ih =>
    intro sc rest
    rw [List.foldl_cons]
    show List.foldl (fun s b => bindInnermost b.1 b.2 s) (((b.1, b.2) :: sc) :: rest) bs = _
    rw [ih]
    simp

/-- A name bound in the innermost scope is resolved there: the lookup returns the value of one
of its bindings in that scope, whatever the outer scopes hold. -/
theorem lookupVariable_innermost (k : String) (sc : Scope) (h : ∃ b ∈ sc, b.1 = k) :
    ∃ v, (k, v) ∈ sc ∧ ∀ rest1, lookupVariable (sc :: rest1) k = some v := by
  cases hf : sc.find? (fun b => decide (b.1 = k)) with
  | none =>
    exfalso
    obtain ⟨b, hb, hk⟩ := h
    rw [List.find?_eq_none] at hf
    exact hf b hb (by simpa using hk)
  | some b =>
    have hk : b.1 = k := by simpa using List.find?_some hf
    have hm : b ∈ sc := List.mem_of_find?_eq_some hf
    refine ⟨b.2, ?_, fun rest1 => ?_⟩
    · rw [← hk]; exact hm
    · simp [lookupVariable, hf]

/-- When all the bindings of a name in the innermost scope are placeholders, the lookup returns
the placeholder. -/
theorem lookupVariable_placeholder (k : String) (sc : Scope) (rest : List Scope)
    (h : ∃ b ∈ sc, b.1 = k) (hnone : ∀ b ∈ sc, b.1 = k → b.2 = none) :
    lookupVariable (sc :: rest) k = some none := by
  obtain ⟨v, hv, hl⟩ := lookupVariable_innermost k sc h
  have hn : v = none := hnone (k, v) hv rfl
  rw [hl rest, hn]

/-- A variable declaration that returns has added one binding to the innermost scope. -/
theorem parseVariableValue_scopes (c : Collab) (keyword : String) (st : State) (b : Bool)
    (s : State) (h : parseVariableValue c keyword st = .ok b s) :
    ∃ v, s.scopes = bindInnermost keyword (some v) st.scopes := by
  unfold parseVariableValue at h
  have hv := parseValue_sat c none (skipWhitespace (readNextToken st))
  cases hp : parseValue c (skipWhitespace (readNextToken st)) with
  | stop r => rw [hp] at h; cases h
  | ok rule st1 =>
    rw [hp] at h hv
    have hsc : st1.scopes = st.scopes := by simpa using hv.2
    dsimp only at h
    split at h
    · cases h
    · cases h
    · rename_i t ts
      split at h
      · cases h
      · cases h
        exact ⟨t :: ts, by simp [putVariable, hsc]⟩

/-- Function `parseVariable` leaves the scopes as they are or adds one binding to the innermost
scope. -/
theorem parseVariable_scopes (c : Collab) (keyword : String) (st : State) (b : Bool)
    (s : State) (h : parseVariable c keyword st = .ok b s) :
    s.scopes = st.scopes ∨ ∃ k v, s.scopes = bindInnermost k (some v) st.scopes := by
  unfold parseVariable at h
  split at h
  · split at h
    · cases h; exact Or.inl rfl
    · dsimp only at h
      split at h
      · cases h
      · obtain ⟨v, hv⟩ := parseVariableValue_scopes c _ _ b s h
        exact Or.inr ⟨_, v, by simpa using hv⟩
  · split at h
    · cases h; exact Or.inl rfl
    · obtain ⟨v, hv⟩ := parseVariableValue_scopes c _ _ b s h
      exact Or.inr ⟨_, v, hv⟩

/-- The statements of a body only add bindings to the innermost scope: when
`parseRulesetStatement` returns, the innermost scope is the one at entry with bindings added in
front, and the outer scopes are those at entry. -/
theorem parseRulesetStatement_head (c : Collab) : ∀ (fuel : Nat) (r : RulesetRef)
    (st : State) (b : Bool) (s : State) (sc : Scope) (rest : List Scope),
    st.scopes = sc :: rest → parseRulesetStatement c fuel r st = .ok b s →
    ∃ extra, s.scopes = (extra ++ sc) :: rest := by
  intro fuel
  induction fuel with
  | zero => intro r st b s sc rest _ h; cases h
  | succ n ih =>
    intro r st b s sc rest hsc h
    rw [parseRulesetStatement] at h
    have hl := liftCss_sat (α := Option TokenList) none (c.parseSelector st.tokens) st
    cases hsel : liftCss (c.parseSelector st.tokens) st with
    | stop e => rw [hsel] at h; cases h
    | ok sel st1 =>
      rw [hsel] at h hl
      have h1 : st1.scopes = sc :: rest := hl.2.trans hsc
      cases sel with
      | none =>
        dsimp only at h
        cases hv : parseVariable c "" st1 with
        | stop e => rw [hv] at h; cases h
        | ok b2 st2 =>
          rw [hv] at h
          have h2 : ∃ extra, st2.scopes = (extra ++ sc) :: rest := by
            rcases parseVariable_scopes c "" st1 b2 st2 hv with e | ⟨k, v, e⟩
            · exact ⟨[], by rw [e, h1]; rfl⟩
            · exact ⟨[(k, some v)], by rw [e, h1]; rfl⟩
          cases b2 with
          | false => cases h; exact h2
          | true =>
            dsimp only at h
            obtain ⟨e2, he2⟩ := h2
            cases hr : parseRulesetStatement c n r st2 with
            | stop e => rw [hr] at h; cases h
            | ok b3 st3 =>
              rw [hr] at h
              cases h
              obtain ⟨e3, he3⟩ := ih r st2 b3 s (e2 ++ sc) rest he2 hr
              exact ⟨e3 ++ e2, by rw [he3, List.append_assoc]⟩
      | some selector =>
        dsimp only at h
        have hn := (parse_sat c n).2.2 selector r st1
        cases hnr : parseNestedRule c n selector r st1 with
        | stop e => rw [hnr] at h; cases h
        | ok b2 st2 =>
          rw [hnr] at h hn
          have h2 : st2.scopes = sc :: rest := hn.2.trans h1
          cases b2 with
          | true =>
            dsimp only at h
            cases hr : parseRulesetStatement c n r st2 with
            | stop e => rw [hr] at h; cases h
            | ok b3 st3 =>
              rw [hr] at h
              cases h
              exact ih r st2 b3 s sc rest h2 hr
          | false =>
            dsimp only at h
            have hm := parseMixin_sat c n selector r st2
            cases hmx : parseMixin c n selector r st2 with
            | stop e => rw [hmx] at h; cases h
            | ok b3 st3 =>
              rw [hmx] at h hm
              have h3 : st3.scopes = sc :: rest := hm.2.trans h2
              cases b3 with
              | true =>
                dsimp only at h
                split at h
                · cases hr : parseRulesetStatement c n r (skipWhitespace (readNextToken st3)) with
                  | stop e => rw [hr] at h; cases h
                  | ok b4 st4 =>
                    rw [hr] at h
                    cases h
                    exact ih r _ b4 s sc rest (by simpa using h3) hr
                · cases h; exact ⟨[], h3⟩
              | false =>
                dsimp only at h
                split at h
                · rename_i t0 t1 rest0
                  split at h
                  · have hd := parseDeclarationRest_sat c t0.str rest0 r st3
                    cases hdr : parseDeclarationRest c t0.str rest0 r st3 with
                    | stop e => rw [hdr] at h; cases h
                    | ok u st4 =>
                      rw [hdr] at h hd
                      have h4 : st4.scopes = sc :: rest := hd.2.trans h3
                      dsimp only at h
                      split at h
                      · cases hr : parseRulesetStatement c n r
                            (skipWhitespace (readNextToken st4)) with
                        | stop e => rw [hr] at h; cases h
                        | ok b5 st5 =>
                          rw [hr] at h
                          cases h
                          exact ih r _ b5 s sc rest (by simpa using h4) hr
                      · cases h; exact ⟨[], h4⟩
                  · cases h
                · cases h

/-- C17 (formal-parameter placeholders). When the head of `parseRuleset` creates a parameter
ruleset from the selector `S`, the body is parsed from the state `st2` that the head leaves, and
at the start of the body:
* the scope pushed for the ruleset holds exactly one placeholder binding (NULL) for each name of
  `getKeywords()`, on top of the scopes at entry;
* the lookup of each such name returns the placeholder;
and while the body is parsed, from any state whose innermost scope is that scope with bindings
added in front, a call of `parseRulesetStatement` that returns leaves the scopes in that form:
the outer scopes are those at entry, and the lookup of a formal parameter name returns a binding
of the innermost scope (the placeholder, unless the body itself has declared the name), never a
binding of an outer scope. -/
theorem formal_parameter_placeholders (c : Collab) (selector : Option TokenList)
    (st st2 : State) (i : Nat)
    (h : parseRulesetHead c selector st = .ok (some (.param i)) st2) :
    (∀ fuel, parseRuleset c (fuel + 1) selector st =
      match parseRulesetStatement c fuel (.param i) st2 with
      | .stop r => .stop r
      | .ok _ st3 => closeRuleset st3) ∧
    ∃ S, getRulesetAt st2 (.param i) = some ⟨S, []⟩ ∧
      st2.scopes = ((c.getKeywords S).reverse.map (fun k => (k, none))) :: st.scopes ∧
      (∀ k ∈ c.getKeywords S, lookupVariable st2.scopes k = some none) ∧
      (∀ (fuel : Nat) (r : RulesetRef) (s s1 : State) (b : Bool) (extra : Scope),
        s.scopes = (extra ++ (c.getKeywords S).reverse.map (fun k => (k, none))) :: st.scopes →
        parseRulesetStatement c fuel r s = .ok b s1 →
        ∃ extra1,
          s1.scopes =
            (extra1 ++ (c.getKeywords S).reverse.map (fun k => (k, none))) :: st.scopes ∧
          ∀ k ∈ c.getKeywords S,
            ∃ v, (k, v) ∈ extra1 ++ (c.getKeywords S).reverse.map (fun k => (k, none)) ∧
              (∀ outer, lookupVariable
                ((extra1 ++ (c.getKeywords S).reverse.map (fun k => (k, none))) :: outer) k =
                  some v) ∧
              ((∀ b1 ∈ extra1, b1.1 ≠ k) → v = none)) := by
  refine ⟨fun fuel => by rw [parseRuleset, h], ?_⟩
  obtain ⟨S, toks, s2, hS, hcur, hopen, hst2⟩ := parseRulesetHead_some_inv c selector st st2 _ h
  unfold openRuleset at hopen
  simp only at hopen
  cases hl : S.getLast? with
  | none => simp [hl] at hopen
  | some last =>
    simp only [hl] at hopen
    split at hopen
    · simp at hopen
    · simp only [Option.some.injEq, Prod.mk.injEq, RulesetRef.param.injEq] at hopen
      obtain ⟨hi, hs2⟩ := hopen
      subst hs2
      subst hst2
      have hscopes : (skipWhitespace (putVariables ((c.getKeywords S).map (fun k => (k, none)))
          (registerParameterRuleset ⟨S, []⟩
            (pushScope (readNextToken { st with tokens := toks }))))).scopes =
          ((c.getKeywords S).reverse.map (fun k => (k, none))) :: st.scopes := by
        rw [skipWhitespace_scopes, (putVariables_fields _ _).1]
        simp only [registerParameterRuleset_scopes, pushScope_scopes, readNextToken_scopes]
        rw [foldl_bindInnermost_cons]
        simp [List.map_reverse]
      have hmem : ∀ k ∈ c.getKeywords S,
          ∃ b ∈ (c.getKeywords S).reverse.map (fun k => (k, (none : Option TokenList))),
            b.1 = k := by
        intro k hk
        exact ⟨(k, none), by simpa using hk, rfl⟩
      refine ⟨S, ?_, hscopes, ?_, ?_⟩
      · rw [← hi]
        simp [getRulesetAt]
      · intro k hk
        rw [hscopes]
        apply lookupVariable_placeholder k _ _ (hmem k hk)
        intro b hb _
        simp only [List.mem_map] at hb
        obtain ⟨_, _, rfl⟩ := hb
        rfl
      · intro fuel r s s1 b extra hs hr
        obtain ⟨e1, he1⟩ := parseRulesetStatement_head c fuel r s b s1 _ _ hs hr
        refine ⟨e1 ++ extra, by rw [he1, List.append_assoc], ?_⟩
        intro k hk
        obtain ⟨b0, hb0, hk0⟩ := hmem k hk
        obtain ⟨v, hv, hlook⟩ := lookupVariable_innermost k
          ((e1 ++ extra) ++ (c.getKeywords S).reverse.map (fun k => (k, none)))
          ⟨b0, List.mem_append_right _ hb0, hk0⟩
        refine ⟨v, hv, hlook, ?_⟩
        intro hno
        rcases List.mem_append.1 hv with hv1 | hv1
        · exact absurd rfl (hno (k, v) hv1)
        · simp only [List.mem_map] at hv1
          obtain ⟨_, _, he⟩ := hv1
          simp only [Prod.mk.injEq] at he
          exact he.2.symm

/-- Witness for C17: in `@x: 5; .class (@x: 0) \x7bleft: @x \x7d` the head of the ruleset binds
`@x` to the placeholder above the outer `@x: 5`, and the declaration of the body stays
`left: @x`. -/
theorem formal_parameter_placeholders_witness :
    parseRulesetHead specCollab none Demo.placeholderAt =
      .ok (some (.param 0)) Demo.placeholderBody ∧
    parseStylesheet specCollab 8 (initialState Demo.placeholder) = .ok () Demo.placeholderDone ∧
    (∀ fuel, parseRuleset specCollab (fuel + 1) none Demo.placeholderAt =
      match parseRulesetStatement specCollab fuel (.param 0) Demo.placeholderBody with
      | .stop r => .stop r
      | .ok _ st3 => closeRuleset st3) ∧
    ∃ S, getRulesetAt Demo.placeholderBody (.param 0) = some ⟨S, []⟩ ∧
      Demo.placeholderBody.scopes =
        ((specCollab.getKeywords S).reverse.map (fun k => (k, none))) ::
          Demo.placeholderAt.scopes ∧
      (∀ k ∈ specCollab.getKeywords S,
        lookupVariable Demo.placeholderBody.scopes k = some none) ∧
      (∀ (fuel : Nat) (r : RulesetRef) (s s1 : State) (b : Bool) (extra : Scope),
        s.scopes = (extra ++ (specCollab.getKeywords S).reverse.map (fun k => (k, none))) ::
          Demo.placeholderAt.scopes →
        parseRulesetStatement specCollab fuel r s = .ok b s1 →
        ∃ extra1,
          s1.scopes =
            (extra1 ++ (specCollab.getKeywords S).reverse.map (fun k => (k, none))) ::
              Demo.placeholderAt.scopes ∧
          ∀ k ∈ specCollab.getKeywords S,
            ∃ v, (k, v) ∈
                extra1 ++ (specCollab.getKeywords S).reverse.map (fun k => (k, none)) ∧
              (∀ outer, lookupVariable
                ((extra1 ++ (specCollab.getKeywords S).reverse.map (fun k => (k, none))) ::
                  outer) k = some v) ∧
              ((∀ b1 ∈ extra1, b1.1 ≠ k) → v = none)) :=
  ⟨by decide!, by decide!,
    formal_parameter_placeholders specCollab none Demo.placeholderAt Demo.placeholderBody 0
      (by decide!)⟩

/-! ## C13: plain CSS

Facts about the productions of `namespace Css`. -/

/-- The whitespace tokens (comments left out) at the start of a token stream. -/
theorem parseWhitespace_eq : ∀ (toks : List Token) (acc : TokenList),
    Css.parseWhitespace acc toks =
      (acc ++ (toks.takeWhile isSpace).filter (fun t => decide (t.type = .WHITESPACE)),
        toks.dropWhile isSpace) := by
  intro toks
  induction toks with
  | nil => intro acc; simp [Css.parseWhitespace]
  | cons t ts ih =>
    intro acc
    rw [Css.parseWhitespace]
    by_cases h1 : t.type = .WHITESPACE
    · rw [if_pos h1, ih]
      have hs : isSpace t = true := by simp [isSpace, h1]
      simp [List.takeWhile_cons, List.dropWhile_cons, hs, h1]
    · rw [if_neg h1]
      by_cases h2 : t.type = .COMMENT
      · rw [if_pos h2, ih]
        have hs : isSpace t = true := by simp [isSpace, h2]
        simp [List.takeWhile_cons, List.dropWhile_cons, hs, h1]
      · rw [if_neg h2]
        have hs : isSpace t = false := by simp [isSpace, h1, h2]
        simp [List.takeWhile_cons, List.dropWhile_cons, hs]

theorem parseWhitespace_fst (a acc : TokenList) (toks : List Token) :
    (Css.parseWhitespace (a ++ acc) toks).1 = a ++ (Css.parseWhitespace acc toks).1 := by
  simp [parseWhitespace_eq]

theorem parseWhitespace_snd (acc acc1 : TokenList) (toks : List Token) :
    (Css.parseWhitespace acc toks).2 = (Css.parseWhitespace acc1 toks).2 := by
  simp [parseWhitespace_eq]

theorem parseWhitespace_length (acc : TokenList) (toks : List Token) :
    (Css.parseWhitespace acc toks).2.length ≤ toks.length := by
  rw [parseWhitespace_eq]
  exact (List.dropWhile_sublist _).length_le

/-- The items of a bracketed construct are appended to the list given: a longer list in front
changes nothing else. -/
theorem parseItems_prefix (a : TokenList) : ∀ (fuel : Nat) (closer : TokenType)
    (acc : TokenList) (toks : List Token),
    Css.parseItems fuel closer (a ++ acc) toks =
      match Css.parseItems fuel closer acc toks with
      | .error e => .error e
      | .ok (x, rest) => .ok (a ++ x, rest) := by
  intro fuel
  induction fuel with
  | zero => intro closer acc toks; rfl
  | succ n ih =>
    intro closer acc toks
    cases toks with
    | nil => rfl
    | cons t ts =>
      rw [Css.parseItems, Css.parseItems]
      by_cases h1 : t.type = closer
      · simp only [if_pos h1, List.append_assoc]
      · simp only [if_neg h1]
        have hw : ∀ x : TokenList, (Css.parseWhitespace (a ++ x) ts).1 =
            a ++ (Css.parseWhitespace x ts).1 := fun x => parseWhitespace_fst a x ts
        have hw2 : ∀ x : TokenList, (Css.parseWhitespace (a ++ x) ts).2 =
            (Css.parseWhitespace x ts).2 := fun x => parseWhitespace_snd _ _ ts
        by_cases h2 : Css.isSimpleAny t.type = true ∨ t.type = .ATKEYWORD ∨ t.type = .DELIMITER
        · simp only [if_pos h2]
          rw [List.append_assoc, hw, hw2, ih]
        · simp only [if_neg h2]
          rw [List.append_assoc, hw, hw2]
          split
          · rfl
          · rename_i inner _
            rw [ih]
            cases hp : Css.parseItems n inner (Css.parseWhitespace (acc ++ [t]) ts).1
                (Css.parseWhitespace (acc ++ [t]) ts).2 with
            | error e => rfl
            | ok r =>
              obtain ⟨acc1, rest⟩ := r
              simp only
              rw [parseWhitespace_fst a acc1 rest, parseWhitespace_snd (a ++ acc1) acc1 rest, ih]

/-- The items of a bracketed construct consume at least the closing token. -/
theorem parseItems_progress : ∀ (fuel : Nat) (closer : TokenType) (acc : TokenList)
    (toks : List Token) (x : TokenList) (rest : List Token),
    Css.parseItems fuel closer acc toks = .ok (x, rest) → rest.length < toks.length := by
  intro fuel
  induction fuel with
  | zero => intro closer acc toks x rest h; cases h
  | succ n ih =>
    intro closer acc toks x rest h
    cases toks with
    | nil => cases h
    | cons t ts =>
      rw [Css.parseItems] at h
      by_cases h1 : t.type = closer
      · simp only [if_pos h1, Except.ok.injEq, Prod.mk.injEq] at h
        rw [← h.2]
        simp
      · simp only [if_neg h1] at h
        have hl := parseWhitespace_length (acc ++ [t]) ts
        by_cases h2 : Css.isSimpleAny t.type = true ∨ t.type = .ATKEYWORD ∨ t.type = .DELIMITER
        · simp only [if_pos h2] at h
          have := ih _ _ _ _ _ h
          simp only [List.length_cons]
          omega
        · simp only [if_neg h2] at h
          split at h
          · cases h
          · rename_i inner _
            cases hp : Css.parseItems n inner (Css.parseWhitespace (acc ++ [t]) ts).1
                (Css.parseWhitespace (acc ++ [t]) ts).2 with
            | error e => rw [hp] at h; cases h
            | ok r =>
              obtain ⟨acc1, rest1⟩ := r
              rw [hp] at h
              simp only at h
              have h3 := ih _ _ _ _ _ hp
              have h4 := ih _ _ _ _ _ h
              have h5 := parseWhitespace_length acc1 rest1
              simp only [List.length_cons]
              omega

/-- The result of `parseItems` starts with the list given. -/
theorem parseItems_growth (fuel : Nat) (closer : TokenType) (acc : TokenList)
    (toks : List Token) (x : TokenList) (rest : List Token)
    (h : Css.parseItems fuel closer acc toks = .ok (x, rest)) : ∃ more, x = acc ++ more := by
  have hp := parseItems_prefix acc fuel closer [] toks
  rw [List.append_nil, h] at hp
  cases hq : Css.parseItems fuel closer [] toks with
  | error e => rw [hq] at hp; cases hp
  | ok r =>
    obtain ⟨y, rest1⟩ := r
    rw [hq] at hp
    simp only [Except.ok.injEq, Prod.mk.injEq] at hp
    exact ⟨y, hp.1⟩

/-- Function `parseAny` appends to the list given: a longer list in front changes nothing else. -/
theorem parseAny_prefix (a acc : TokenList) (toks : List Token) :
    Css.parseAny (a ++ acc) toks =
      match Css.parseAny acc toks with
      | .error e => .error e
      | .ok (b, x, rest) => .ok (b, a ++ x, rest) := by
  cases toks with
  | nil => rfl
  | cons t ts =>
    rw [Css.parseAny, Css.parseAny]
    by_cases h1 : Css.isSimpleAny t.type = true
    · simp only [if_pos h1]
      rw [List.append_assoc, parseWhitespace_fst, parseWhitespace_snd (a ++ (acc ++ [t])) (acc ++ [t])]
    · simp only [if_neg h1]
      split
      · rfl
      · rename_i inner _
        rw [List.append_assoc, parseWhitespace_fst,
          parseWhitespace_snd (a ++ (acc ++ [t])) (acc ++ [t]), parseItems_prefix]
        cases hp : Css.parseItems (ts.length + 1) inner (Css.parseWhitespace (acc ++ [t]) ts).1
            (Css.parseWhitespace (acc ++ [t]) ts).2 with
        | error e => rfl
        | ok r =>
          obtain ⟨acc1, rest⟩ := r
          simp only
          rw [parseWhitespace_fst a acc1 rest, parseWhitespace_snd (a ++ acc1) acc1 rest]

/-- When `parseAny` reads something, it reads the current token first and consumes it. -/
theorem parseAny_true (acc : TokenList) (toks : List Token) (x : TokenList)
    (rest : List Token) (h : Css.parseAny acc toks = .ok (true, x, rest)) :
    ∃ t ts more, toks = t :: ts ∧ x = acc ++ t :: more ∧ rest.length < toks.length ∧
      (Css.isSimpleAny t.type = true ∨ t.type = .PAREN_OPEN ∨ t.type = .BRACE_OPEN) := by
  cases toks with
  | nil => simp [Css.parseAny] at h
  | cons t ts =>
    refine ⟨t, ts, ?_⟩
    rw [Css.parseAny] at h
    by_cases h1 : Css.isSimpleAny t.type = true
    · simp only [if_pos h1, Except.ok.injEq, Prod.mk.injEq, true_and] at h
      rw [parseWhitespace_eq] at h
      obtain ⟨hx, hr⟩ := h
      refine ⟨(ts.takeWhile isSpace).filter (fun t => decide (t.type = .WHITESPACE)), rfl, ?_, ?_,
        Or.inl h1⟩
      · rw [← hx]; simp
      · rw [← hr]
        have := (List.dropWhile_sublist isSpace (l := ts)).length_le
        simp only [List.length_cons]
        omega
    · simp only [if_neg h1] at h
      split at h
      · cases h
      · rename_i inner hin
        have hty : t.type = .PAREN_OPEN ∨ t.type = .BRACE_OPEN := by
          revert hin
          cases t.type <;> simp
        cases hp : Css.parseItems (ts.length + 1) inner (Css.parseWhitespace (acc ++ [t]) ts).1
            (Css.parseWhitespace (acc ++ [t]) ts).2 with
        | error e => rw [hp] at h; cases h
        | ok r =>
          obtain ⟨acc1, rest1⟩ := r
          rw [hp] at h
          simp only [Except.ok.injEq, Prod.mk.injEq, true_and] at h
          obtain ⟨more, hmore⟩ := parseItems_growth _ _ _ _ _ _ hp
          have hprog := parseItems_progress _ _ _ _ _ _ hp
          have hl1 := parseWhitespace_length (acc ++ [t]) ts
          have hl2 := parseWhitespace_length acc1 rest1
          rw [parseWhitespace_eq ts (acc ++ [t])] at hmore
          rw [parseWhitespace_eq rest1 acc1] at h
          obtain ⟨hx, hr⟩ := h
          refine ⟨(ts.takeWhile isSpace).filter (fun t => decide (t.type = .WHITESPACE)) ++ more ++
            (rest1.takeWhile isSpace).filter (fun t => decide (t.type = .WHITESPACE)), rfl, ?_, ?_,
            Or.inr hty⟩
          · rw [← hx, hmore]
            simp
          · rw [← hr]
            rw [parseWhitespace_eq rest1 acc1] at hl2
            simp only [List.length_cons] at hl2 ⊢
            omega

/-- When `parseAny` reads nothing, it leaves the list and the token stream as they are, and the
current token starts no `any`. -/
theorem parseAny_false (acc : TokenList) (toks : List Token) (x : TokenList)
    (rest : List Token) (h : Css.parseAny acc toks = .ok (false, x, rest)) :
    x = acc ∧ rest = toks ∧ Css.isSimpleAny (Css2.headType toks) = false ∧
      Css2.headType toks ≠ .PAREN_OPEN ∧ Css2.headType toks ≠ .BRACE_OPEN := by
  cases toks with
  | nil =>
    simp only [Css.parseAny, Except.ok.injEq, Prod.mk.injEq, true_and] at h
    exact ⟨h.1.symm, h.2.symm, rfl, by simp [Css2.headType], by simp [Css2.headType]⟩
  | cons t ts =>
    rw [Css.parseAny] at h
    by_cases h1 : Css.isSimpleAny t.type = true
    · simp [if_pos h1] at h
    · simp only [if_neg h1] at h
      split at h
      · rename_i hin
        simp only [Except.ok.injEq, Prod.mk.injEq, true_and] at h
        refine ⟨h.1.symm, h.2.symm, by simpa [Css2.headType] using h1, ?_, ?_⟩
        · simp only [Css2.headType]
          intro hc
          rw [hc] at hin
          simp at hin
        · simp only [Css2.headType]
          intro hc
          rw [hc] at hin
          simp at hin
      · rename_i inner hin
        cases hp : Css.parseItems (ts.length + 1) inner (Css.parseWhitespace (acc ++ [t]) ts).1
            (Css.parseWhitespace (acc ++ [t]) ts).2 with
        | error e => rw [hp] at h; cases h
        | ok r =>
          obtain ⟨acc1, rest1⟩ := r
          rw [hp] at h
          simp at h

/-- At a token that starts no `any`, `parseAny` reads nothing. -/
theorem parseAny_stop (acc : TokenList) (toks : List Token)
    (h1 : Css.isSimpleAny (Css2.headType toks) = false)
    (h2 : Css2.headType toks ≠ .PAREN_OPEN) (h3 : Css2.headType toks ≠ .BRACE_OPEN) :
    Css.parseAny acc toks = .ok (false, acc, toks) := by
  cases toks with
  | nil => rfl
  | cons t ts =>
    simp only [Css2.headType] at h1 h2 h3
    rw [Css.parseAny, if_neg (by simp [h1])]
    split
    · rfl
    · rename_i inner hin
      exfalso
      revert hin
      cases ht : t.type <;> simp_all

/-- When `parseBlock` reads nothing, the current token is not an opening bracket. -/
theorem parseBlock_false (acc : TokenList) (toks : List Token) (x : TokenList)
    (rest : List Token) (h : Css.parseBlock acc toks = .ok (false, x, rest)) :
    x = acc ∧ rest = toks ∧ Css2.headType toks ≠ .BRACKET_OPEN := by
  cases toks with
  | nil =>
    simp only [Css.parseBlock, Except.ok.injEq, Prod.mk.injEq, true_and] at h
    exact ⟨h.1.symm, h.2.symm, by simp [Css2.headType]⟩
  | cons t ts =>
    rw [Css.parseBlock] at h
    by_cases h1 : t.type = .BRACKET_OPEN
    · rw [if_pos h1] at h
      cases hp : Css.parseItems (ts.length + 1) .BRACKET_CLOSED
          (Css.parseWhitespace (acc ++ [t]) ts).1 (Css.parseWhitespace (acc ++ [t]) ts).2 with
      | error e => rw [hp] at h; cases h
      | ok r =>
        obtain ⟨acc1, rest1⟩ := r
        rw [hp] at h
        simp at h
    · rw [if_neg h1] at h
      simp only [Except.ok.injEq, Prod.mk.injEq, true_and] at h
      exact ⟨h.1.symm, h.2.symm, by simpa [Css2.headType] using h1⟩

/-- When `parseBlock` reads a block, the opening bracket is the first token that it appends. -/
theorem parseBlock_true (acc : TokenList) (toks : List Token) (x : TokenList)
    (rest : List Token) (h : Css.parseBlock acc toks = .ok (true, x, rest)) :
    ∃ t ts more, toks = t :: ts ∧ t.type = .BRACKET_OPEN ∧ x = acc ++ t :: more ∧
      rest.length < toks.length := by
  cases toks with
  | nil => simp [Css.parseBlock] at h
  | cons t ts =>
    rw [Css.parseBlock] at h
    by_cases h1 : t.type = .BRACKET_OPEN
    · rw [if_pos h1] at h
      cases hp : Css.parseItems (ts.length + 1) .BRACKET_CLOSED
          (Css.parseWhitespace (acc ++ [t]) ts).1 (Css.parseWhitespace (acc ++ [t]) ts).2 with
      | error e => rw [hp] at h; cases h
      | ok r =>
        obtain ⟨acc1, rest1⟩ := r
        rw [hp] at h
        simp only [Except.ok.injEq, Prod.mk.injEq, true_and] at h
        obtain ⟨more, hmore⟩ := parseItems_growth _ _ _ _ _ _ hp
        have hprog := parseItems_progress _ _ _ _ _ _ hp
        have hl1 := parseWhitespace_length (acc ++ [t]) ts
        have hl2 := parseWhitespace_length ([] : TokenList) rest1
        rw [parseWhitespace_eq ts (acc ++ [t])] at hmore
        obtain ⟨hx, hr⟩ := h
        refine ⟨t, ts, (ts.takeWhile isSpace).filter (fun t => decide (t.type = .WHITESPACE)) ++
          more, rfl, h1, ?_, ?_⟩
        · rw [← hx, hmore]
          simp
        · rw [← hr]
          simp only [List.length_cons]
          omega
    · rw [if_neg h1] at h
      simp at h

/-- At a token that is not an opening bracket, `parseBlock` reads nothing. -/
theorem parseBlock_stop (acc : TokenList) (toks : List Token)
    (h : Css2.headType toks ≠ .BRACKET_OPEN) :
    Css.parseBlock acc toks = .ok (false, acc, toks) := by
  cases toks with
  | nil => rfl
  | cons t ts =>
    simp only [Css2.headType] at h
    rw [Css.parseBlock, if_neg h]

/-- The loop `any+` appends to the list given: a longer list in front changes nothing else. -/
theorem parseAnys_prefix (a : TokenList) : ∀ (fuel : Nat) (acc : TokenList)
    (toks : List Token),
    Css.parseAnys fuel (a ++ acc) toks =
      match Css.parseAnys fuel acc toks with
      | .error e => .error e
      | .ok (x, rest) => .ok (a ++ x, rest) := by
  intro fuel
  induction fuel with
  | zero => intro acc toks; rfl
  | succ n ih =>
    intro acc toks
    rw [Css.parseAnys, Css.parseAnys, parseAny_prefix]
    cases hp : Css.parseAny acc toks with
    | error e => rfl
    | ok r =>
      obtain ⟨b, x, rest⟩ := r
      cases b with
      | false => rfl
      | true => exact ih x rest

/-- With more fuel than tokens, the loop `any+` does not depend on the fuel. -/
theorem parseAnys_fuel : ∀ (fuel fuel1 : Nat) (acc : TokenList) (toks : List Token),
    toks.length < fuel → toks.length < fuel1 →
    Css.parseAnys fuel acc toks = Css.parseAnys fuel1 acc toks := by
  intro fuel
  induction fuel with
  | zero => intro fuel1 acc toks h; omega
  | succ n ih =>
    intro fuel1 acc toks h h1
    cases fuel1 with
    | zero => omega
    | succ m =>
      rw [Css.parseAnys, Css.parseAnys]
      cases hp : Css.parseAny acc toks with
      | error e => rfl
      | ok r =>
        obtain ⟨b, x, rest⟩ := r
        cases b with
        | false => rfl
        | true =>
          obtain ⟨t, ts, more, _, _, hlen, _⟩ := parseAny_true acc toks x rest hp
          exact ih m x rest (by omega) (by omega)

/-- At a token that starts no value, `parseValue` finds no value and reads nothing. -/
theorem parseValue_stop (toks : List Token)
    (h0 : Css2.headType toks ≠ .ATKEYWORD)
    (h1 : Css.isSimpleAny (Css2.headType toks) = false)
    (h2 : Css2.headType toks ≠ .PAREN_OPEN) (h3 : Css2.headType toks ≠ .BRACE_OPEN)
    (h4 : Css2.headType toks ≠ .BRACKET_OPEN) :
    Css.parseValue toks = .ok (none, toks) := by
  cases toks with
  | nil => rfl
  | cons t ts =>
    have ht : ¬ t.type = .ATKEYWORD := by simpa [Css2.headType] using h0
    rw [Css.parseValue, Css.parseValueItems]
    simp only [if_neg ht]
    rw [parseAny_stop [] (t :: ts) h1 h2 h3]
    simp only
    rw [parseBlock_stop [] (t :: ts) h4]

/-- The loop of a value, compared with the loop `any+`. What the loop of a value reads is
appended to the list given, starting with the current token; and if it has appended no
at-keyword and no opening bracket, then the loop `any+` reads the same tokens, no value starts
where it stops, and no block starts there. -/
theorem parseValueItems_anys : ∀ (fuel : Nat) (acc : TokenList) (toks : List Token)
    (x : TokenList) (rest : List Token),
    toks.length < fuel → Css.parseValueItems fuel acc toks = .ok (x, rest) →
    ∃ added, x = acc ++ added ∧
      (added = [] ∨ ∃ t ts more, toks = t :: ts ∧ added = t :: more) ∧
      ((∀ t ∈ added, t.type ≠ .ATKEYWORD ∧ t.type ≠ .BRACKET_OPEN) →
        Css.parseAnys fuel acc toks = .ok (x, rest) ∧
        Css.parseValue rest = .ok (none, rest) ∧ Css2.headType rest ≠ .BRACKET_OPEN) := by
  intro fuel
  induction fuel with
  | zero => intro acc toks x rest h; omega
  | succ n ih =>
    intro acc toks x rest hlen h
    cases toks with
    | nil =>
      simp only [Css.parseValueItems, Except.ok.injEq, Prod.mk.injEq] at h
      obtain ⟨hx, hr⟩ := h
      subst hx; subst hr
      exact ⟨[], by simp, Or.inl rfl, fun _ => ⟨rfl, rfl, by simp [Css2.headType]⟩⟩
    | cons t ts =>
      rw [Css.parseValueItems] at h
      simp only [List.length_cons] at hlen
      by_cases hat : t.type = .ATKEYWORD
      · simp only [if_pos hat] at h
        have hl := parseWhitespace_length (acc ++ [t]) ts
        obtain ⟨added, hadd, _, _⟩ := ih _ _ _ _ (by omega) h
        rw [parseWhitespace_eq] at hadd
        refine ⟨t :: ((ts.takeWhile isSpace).filter (fun t => decide (t.type = .WHITESPACE)) ++
          added), by rw [hadd]; simp, Or.inr ⟨t, ts, _, rfl, rfl⟩, fun hno => ?_⟩
        exact absurd hat (hno t (List.mem_cons_self _ _)).1
      · simp only [if_neg hat] at h
        cases hp : Css.parseAny acc (t :: ts) with
        | error e => rw [hp] at h; cases h
        | ok r =>
          obtain ⟨b, x1, rest1⟩ := r
          rw [hp] at h
          cases b with
          | true =>
            simp only at h
            obtain ⟨t1, ts1, more, htoks, hx1, hlen1, _⟩ := parseAny_true acc (t :: ts) x1 rest1 hp
            simp only [List.cons.injEq] at htoks
            obtain ⟨ht1, hts1⟩ := htoks
            subst ht1; subst hts1
            simp only [List.length_cons] at hlen1
            obtain ⟨added, hadd, _, himp⟩ := ih _ _ _ _ (by omega) h
            refine ⟨t :: (more ++ added), by rw [hadd, hx1]; simp,
              Or.inr ⟨t, ts, _, rfl, rfl⟩, fun hno => ?_⟩
            rw [Css.parseAnys, hp]
            simp only
            apply himp
            intro u hu
            exact hno u (by simp [hu])
          | false =>
            simp only at h
            obtain ⟨hx1, hrest1, hs1, hs2, hs3⟩ := parseAny_false acc (t :: ts) x1 rest1 hp
            cases hb : Css.parseBlock acc (t :: ts) with
            | error e => rw [hb] at h; cases h
            | ok r =>
              obtain ⟨b2, x2, rest2⟩ := r
              rw [hb] at h
              cases b2 with
              | true =>
                simp only at h
                obtain ⟨t1, ts1, more, htoks, hbo, hx2, hlen2⟩ :=
                  parseBlock_true acc (t :: ts) x2 rest2 hb
                simp only [List.cons.injEq] at htoks
                obtain ⟨ht1, hts1⟩ := htoks
                subst ht1; subst hts1
                simp only [List.length_cons] at hlen2
                obtain ⟨added, hadd, _, _⟩ := ih _ _ _ _ (by omega) h
                refine ⟨t :: (more ++ added), by rw [hadd, hx2]; simp,
                  Or.inr ⟨t, ts, _, rfl, rfl⟩, fun hno => ?_⟩
                exact absurd hbo (hno t (List.mem_cons_self _ _)).2
              | false =>
                simp only [Except.ok.injEq, Prod.mk.injEq] at h
                obtain ⟨hx2, hrest2, hs4⟩ := parseBlock_false acc (t :: ts) x2 rest2 hb
                obtain ⟨hx, hr⟩ := h
                subst hx; subst hr
                subst hx2; subst hrest2
                refine ⟨[], by simp, Or.inl rfl, fun _ => ⟨?_, ?_, hs4⟩⟩
                · rw [Css.parseAnys, hp, hx1, hrest1]
                · exact parseValue_stop (t :: ts) (by simpa [Css2.headType] using hat) hs1 hs2
                    hs3 hs4

/-- Trailing whitespace is dropped from the end only: a list in front stays when something is
left of the list behind. -/
theorem dropTrailingWhitespace_append (a : TokenList) : ∀ (l : TokenList),
    Css.dropTrailingWhitespace l ≠ [] →
    Css.dropTrailingWhitespace (a ++ l) = a ++ Css.dropTrailingWhitespace l := by
  intro l
  induction l using List.reverseRecOn with
  | nil => intro h; exact absurd rfl h
  | append_singleton l x ih =>
    intro h
    by_cases hx : x.type = .WHITESPACE
    · have e1 : Css.dropTrailingWhitespace (l ++ [x]) = Css.dropTrailingWhitespace l := by
        simp [Css.dropTrailingWhitespace, hx]
      have e2 : Css.dropTrailingWhitespace (a ++ (l ++ [x])) =
          Css.dropTrailingWhitespace (a ++ l) := by
        simp [Css.dropTrailingWhitespace, hx]
      rw [e1] at h
      rw [e1, e2, ih h]
    · have e1 : Css.dropTrailingWhitespace (l ++ [x]) = l ++ [x] := by
        simp [Css.dropTrailingWhitespace, hx]
      have e2 : Css.dropTrailingWhitespace (a ++ (l ++ [x])) = a ++ (l ++ [x]) := by
        simp [Css.dropTrailingWhitespace, hx]
      rw [e1, e2]

/-- A list that starts with a token other than whitespace keeps it. -/
theorem dropTrailingWhitespace_cons (t : Token) (ht : t.type ≠ .WHITESPACE) :
    ∀ (l : TokenList),
      Css.dropTrailingWhitespace (t :: l) = t :: Css.dropTrailingWhitespace l := by
  intro l
  induction l using List.reverseRecOn with
  | nil => simp [Css.dropTrailingWhitespace, ht]
  | append_singleton l x ih =>
    by_cases hx : x.type = .WHITESPACE
    · have e1 : Css.dropTrailingWhitespace (l ++ [x]) = Css.dropTrailingWhitespace l := by
        simp [Css.dropTrailingWhitespace, hx]
      have e2 : Css.dropTrailingWhitespace (t :: (l ++ [x])) =
          Css.dropTrailingWhitespace (t :: l) := by
        simp [Css.dropTrailingWhitespace, hx]
      rw [e1, e2, ih]
    · have e1 : Css.dropTrailingWhitespace (l ++ [x]) = l ++ [x] := by
        simp [Css.dropTrailingWhitespace, hx]
      have e2 : Css.dropTrailingWhitespace (t :: (l ++ [x])) = t :: (l ++ [x]) := by
        simp [Css.dropTrailingWhitespace, hx]
      rw [e1, e2]

/-- The tokens dropped at the end are whitespace. -/
theorem mem_dropTrailingWhitespace : ∀ (l : TokenList) (t : Token), t ∈ l →
    t ∈ Css.dropTrailingWhitespace l ∨ t.type = .WHITESPACE := by
  intro l
  induction l using List.reverseRecOn with
  | nil => intro t h; cases h
  | append_singleton l x ih =>
    intro t h
    by_cases hx : x.type = .WHITESPACE
    · have e1 : Css.dropTrailingWhitespace (l ++ [x]) = Css.dropTrailingWhitespace l := by
        simp [Css.dropTrailingWhitespace, hx]
      rw [e1]
      rcases List.mem_append.1 h with h1 | h1
      · exact ih t h1
      · simp only [List.mem_singleton] at h1
        exact Or.inr (h1 ▸ hx)
    · have e1 : Css.dropTrailingWhitespace (l ++ [x]) = l ++ [x] := by
        simp [Css.dropTrailingWhitespace, hx]
      rw [e1]
      exact Or.inl h

/-- The token at the head of a stream from which whitespace has been skipped is not
whitespace. -/
theorem dropWhile_isSpace_head (ts : List Token) (t : Token) (rest : List Token)
    (h : ts.dropWhile isSpace = t :: rest) : isSpace t = false := by
  induction ts with
  | nil => cases h
  | cons u us ih =>
    rw [List.dropWhile_cons] at h
    by_cases hu : isSpace u = true
    · rw [if_pos hu] at h
      exact ih h
    · rw [if_neg hu] at h
      simp only [List.cons.injEq] at h
      rw [← h.1]
      simpa using hu

/-- A declaration of plain CSS as `parseSelector` reads it. When the value that follows the
colon and the whitespace holds no at-keyword and no opening bracket, the selector read from the
property is the property, the colon, the whitespace after the colon and the value; it ends where
the value ends, and there no value and no block start. The value is not empty and does not start
with whitespace. -/
theorem parseSelector_declaration (p c : Token) (ts1 : List Token) (v : TokenList)
    (rest : List Token) (hp : p.type = .IDENTIFIER) (hc : c.type = .COLON)
    (hv : Css.parseValue (ts1.dropWhile isSpace) = .ok (some v, rest))
    (hplain : ∀ t ∈ v, t.type ≠ .ATKEYWORD ∧ t.type ≠ .BRACKET_OPEN) :
    Css.parseSelector (p :: c :: ts1) =
      .ok (some (p :: c ::
        ((ts1.takeWhile isSpace).filter (fun t => decide (t.type = .WHITESPACE)) ++ v)), rest) ∧
    Css.parseValue rest = .ok (none, rest) ∧ Css2.headType rest ≠ .BRACKET_OPEN ∧
    ∃ t0 v1, v = t0 :: v1 ∧ t0.type ≠ .WHITESPACE := by
  rw [Css.parseValue] at hv
  cases hitems : Css.parseValueItems ((ts1.dropWhile isSpace).length + 1) []
      (ts1.dropWhile isSpace) with
  | error e => rw [hitems] at hv; cases hv
  | ok r =>
    obtain ⟨x, rest1⟩ := r
    rw [hitems] at hv
    cases x with
    | nil => cases hv
    | cons x0 xs =>
      simp only [Except.ok.injEq, Prod.mk.injEq, Option.some.injEq] at hv
      obtain ⟨hv1, hrest⟩ := hv
      subst hrest
      obtain ⟨added, hadd, hhead, himp⟩ :=
        parseValueItems_anys _ [] _ _ _ (Nat.lt_succ_self _) hitems
      rw [List.nil_append] at hadd
      subst hadd
      have hx0 : x0.type ≠ .WHITESPACE := by
        rcases hhead with h | ⟨t, ts, more, htoks, hcons⟩
        · cases h
        · simp only [List.cons.injEq] at hcons
          have hsp := dropWhile_isSpace_head ts1 t ts htoks
          rw [hcons.1]
          intro hw
          simp [isSpace, hw] at hsp
      have hvcons : v = x0 :: Css.dropTrailingWhitespace xs := by
        rw [← hv1]
        exact dropTrailingWhitespace_cons x0 hx0 xs
      have hno : ∀ t ∈ x0 :: xs, t.type ≠ .ATKEYWORD ∧ t.type ≠ .BRACKET_OPEN := by
        intro t ht
        rcases mem_dropTrailingWhitespace (x0 :: xs) t ht with h | h
        · rw [hv1] at h
          exact hplain t h
        · rw [h]
          exact ⟨by decide, by decide⟩
      obtain ⟨hanys, hstop, hblock⟩ := himp hno
      refine ⟨?_, hstop, hblock, x0, _, hvcons, hx0⟩
      have hps : Css.isSimpleAny p.type = true := by rw [hp]; rfl
      have hcs : Css.isSimpleAny c.type = true := by rw [hc]; rfl
      have hcn : isSpace c = false := by simp [isSpace, hc]
      have e1 : Css.parseAny [] (p :: c :: ts1) = .ok (true, [p], c :: ts1) := by
        rw [Css.parseAny, if_pos hps, parseWhitespace_eq]
        simp [List.takeWhile_cons, List.dropWhile_cons, hcn]
      have e2 : Css.parseAny [p] (c :: ts1) = .ok (true,
          [p, c] ++ (ts1.takeWhile isSpace).filter (fun t => decide (t.type = .WHITESPACE)),
          ts1.dropWhile isSpace) := by
        rw [Css.parseAny, if_pos hcs, parseWhitespace_eq]
        rfl
      have hl : (ts1.dropWhile isSpace).length ≤ ts1.length :=
        (List.dropWhile_sublist _).length_le
      rw [Css.parseSelector]
      simp only [List.length_cons]
      rw [Css.parseAnys, e1]
      simp only
      rw [Css.parseAnys, e2]
      simp only
      have e3 := parseAnys_prefix
        ([p, c] ++ (ts1.takeWhile isSpace).filter (fun t => decide (t.type = .WHITESPACE)))
        (ts1.length + 1) [] (ts1.dropWhile isSpace)
      rw [List.append_nil,
        parseAnys_fuel (ts1.length + 1) ((ts1.dropWhile isSpace).length + 1) []
          (ts1.dropWhile isSpace) (by omega) (by omega), hanys] at e3
      rw [e3]
      have hd := dropTrailingWhitespace_append
        ([p, c] ++ (ts1.takeWhile isSpace).filter (fun t => decide (t.type = .WHITESPACE)))
        (x0 :: xs) (by rw [hv1, hvcons]; simp)
      rw [hv1] at hd
      simp only [List.cons_append, List.nil_append] at hd ⊢
      rw [hd]

/-! ### The parser of LESS on the statements of plain CSS -/

@[simp] theorem withTokens_tokens (toks : List Token) (st : State) :
    (withTokens toks st).tokens = toks := rfl

@[simp] theorem withTokens_scopes (toks : List Token) (st : State) :
    (withTokens toks st).scopes = st.scopes := rfl

@[simp] theorem withTokens_rulesets (toks : List Token) (st : State) :
    (withTokens toks st).rulesets = st.rulesets := rfl

@[simp] theorem withTokens_atRules (toks : List Token) (st : State) :
    (withTokens toks st).atRules = st.atRules := rfl

@[simp] theorem withTokens_parameterRulesets (toks : List Token) (st : State) :
    (withTokens toks st).parameterRulesets = st.parameterRulesets := rfl

theorem liftCss_ok {α : Type} (a : α) (toks : List Token) (st : State) :
    liftCss (.ok (a, toks)) st = .ok a (withTokens toks st) := rfl

theorem curType_eq_headType (st : State) : curType st = Css2.headType st.tokens := rfl

theorem curStr_eq_headStr (st : State) : curStr st = Css2.headStr st.tokens := rfl

/-- Substitution leaves a value without at-keyword as it is. -/
theorem substitute_noAt (scopes : List Scope) : ∀ (v : TokenList),
    (∀ t ∈ v, t.type ≠ .ATKEYWORD) → substitute scopes v = v := by
  intro v
  induction v with
  | nil => intro _; rfl
  | cons t ts ih =>
    intro h
    rw [substitute, if_neg (h t (List.mem_cons_self _ _)),
      ih (fun u hu => h u (List.mem_cons_of_mem _ hu))]

/-- With the value processor of `specCollab` the arguments of a call are always processed. -/
theorem processArguments_specCollab (scopes : List Scope) : ∀ (l : List TokenList),
    processArguments specCollab scopes l = .ok (l.map (substitute scopes)) := by
  intro l
  induction l with
  | nil => rfl
  | cons a as ih =>
    rw [processArguments]
    have hv : specCollab.processValue scopes a = .ok (substitute scopes a) := rfl
    rw [hv]
    simp only [ih, List.map_cons]

/-- A key that holds a token other than whitespace is not emptied by the trimming. -/
theorem trimKeyRev_some : ∀ (l : TokenList) (p : Token), p.type ≠ .WHITESPACE →
    ∃ key, trimKeyRev (l ++ [p]) = some key := by
  intro l
  induction l with
  | nil =>
    intro p hp
    exact ⟨[p], by simp [trimKeyRev, hp]⟩
  | cons t ts ih =>
    intro p hp
    rw [List.cons_append, trimKeyRev]
    by_cases ht : t.type = .WHITESPACE
    · rw [if_pos ht]
      exact ih p hp
    · rw [if_neg ht]
      exact ⟨_, rfl⟩

/-- A selector that starts with an identifier has a key. -/
theorem callKey_some (p : Token) (rest : TokenList) (hp : p.type = .IDENTIFIER) :
    ∃ key, callKey (p :: rest) = some key := by
  have h1 : p.type ≠ .PAREN_OPEN := by rw [hp]; decide
  have h2 : p.type ≠ .WHITESPACE := by rw [hp]; decide
  unfold callKey trimKey
  rw [splitKey, if_neg h1]
  simp only [List.reverse_cons]
  exact trimKeyRev_some _ p h2

/-- A selector that no ruleset of the stylesheet has is not found. -/
theorem getRuleset_none : ∀ (rs : List Ruleset) (sel : TokenList),
    sel ∉ rs.map (·.selector) → getRuleset rs sel = none := by
  intro rs
  induction rs with
  | nil => intro sel _; rfl
  | cons r rest ih =>
    intro sel h
    simp only [List.map_cons, List.mem_cons, not_or] at h
    rw [getRuleset, if_neg (fun e => h.1 e.symm), ih sel h.2]
    rfl

/-- Adding a declaration to the last ruleset of the stylesheet. -/
theorem addDeclaration_last (rs : List Ruleset) (S : TokenList) (ds : List Declaration)
    (d : Declaration) (st : State) (h : st.rulesets = rs ++ [⟨S, ds⟩]) :
    (addDeclaration (.plain rs.length) d st).rulesets = rs ++ [⟨S, ds ++ [d]⟩] ∧
    (addDeclaration (.plain rs.length) d st).parameterRulesets = st.parameterRulesets := by
  refine ⟨?_, rfl⟩
  show st.rulesets.modify (addDeclTo d) rs.length = _
  rw [h]
  clear h
  induction rs with
  | nil => rfl
  | cons r rest ih =>
    simp only [List.cons_append, List.length_cons, List.modify_succ_cons, ih]

/-- What a declaration read by the base grammar was read from. -/
theorem parseDeclaration_some (toks rest : List Token) (dd : Css2.Declaration)
    (h : Css2.parseDeclaration toks = .ok (some dd, rest)) :
    ∃ p ts c ts1, toks = p :: ts ∧ p.type = .IDENTIFIER ∧ ts.dropWhile isSpace = c :: ts1 ∧
      c.type = .COLON ∧ Css.parseValue (ts1.dropWhile isSpace) = .ok (some dd.value, rest) ∧
      dd = ⟨p, ts.takeWhile isSpace, c, ts1.takeWhile isSpace, dd.value⟩ := by
  cases toks with
  | nil => simp [Css2.parseDeclaration] at h
  | cons p ts =>
    rw [Css2.parseDeclaration] at h
    by_cases hp : p.type = .IDENTIFIER
    · simp only [ne_eq, hp, not_true_eq_false, if_false] at h
      cases hd : ts.dropWhile isSpace with
      | nil => rw [hd] at h; cases h
      | cons c ts1 =>
        rw [hd] at h
        simp only at h
        by_cases hc : c.type = .COLON
        · simp only [ne_eq, hc, not_true_eq_false, if_false] at h
          cases hv : Css.parseValue (ts1.dropWhile isSpace) with
          | error e => rw [hv] at h; cases h
          | ok r =>
            obtain ⟨o, rest1⟩ := r
            rw [hv] at h
            cases o with
            | none => cases h
            | some v =>
              simp only [Except.ok.injEq, Prod.mk.injEq, Option.some.injEq] at h
              obtain ⟨h1, h2⟩ := h
              subst h1; subst h2
              exact ⟨p, ts, c, ts1, rfl, hp, hd, hc, hv, rfl⟩
        · simp only [ne_eq, hc, not_false_eq_true, if_true] at h
          cases h
    · simp only [ne_eq, hp, not_false_eq_true, if_true, Except.ok.injEq, Prod.mk.injEq] at h
      cases h.1

/-- Where the base grammar reads no declaration, nothing is consumed and the current token is not
an identifier. -/
theorem parseDeclaration_none (toks rest : List Token)
    (h : Css2.parseDeclaration toks = .ok (none, rest)) :
    rest = toks ∧ Css2.headType toks ≠ .IDENTIFIER := by
  cases toks with
  | nil =>
    simp only [Css2.parseDeclaration, Except.ok.injEq, Prod.mk.injEq, true_and] at h
    exact ⟨h.symm, by simp [Css2.headType]⟩
  | cons p ts =>
    rw [Css2.parseDeclaration] at h
    by_cases hp : p.type = .IDENTIFIER
    · simp only [ne_eq, hp, not_true_eq_false, if_false] at h
      cases hd : ts.dropWhile isSpace with
      | nil => rw [hd] at h; cases h
      | cons c ts1 =>
        rw [hd] at h
        simp only at h
        by_cases hc : c.type = .COLON
        · simp only [ne_eq, hc, not_true_eq_false, if_false] at h
          cases hv : Css.parseValue (ts1.dropWhile isSpace) with
          | error e => rw [hv] at h; cases h
          | ok r =>
            obtain ⟨o, rest1⟩ := r
            rw [hv] at h
            cases o with
            | none => cases h
            | some v => simp at h
        · simp only [ne_eq, hc, not_false_eq_true, if_true] at h
          cases h
    · simp only [ne_eq, hp, not_false_eq_true, if_true, Except.ok.injEq, Prod.mk.injEq,
        true_and] at h
      exact ⟨h.symm, by simpa [Css2.headType] using hp⟩

/-- The steps of `parseRulesetStatement` on a plain declaration, in a state without parameter
rulesets whose rulesets have selectors among `sels`: the selector read is the declaration, no
nested rule and no mixin is found, and the declaration is added with the whitespace after the
colon in front of its value. -/
theorem declaration_less (sels : List TokenList) (toks rest : List Token)
    (dd : Css2.Declaration) (st : State) (r : RulesetRef) (fuel fuel1 : Nat)
    (hparse : Css2.parseDeclaration toks = .ok (some dd, rest))
    (hplain : Css2.isPlainDeclaration sels dd = true)
    (htoks : st.tokens = toks) (hreg : st.parameterRulesets = [])
    (hsel : ∀ x ∈ st.rulesets, x.selector ∈ sels) :
    liftCss (specCollab.parseSelector st.tokens) st =
      .ok (some (dd.property :: dd.colon :: (dd.space ++ dd.value))) (withTokens rest st) ∧
    parseNestedRule specCollab (fuel + 1) (dd.property :: dd.colon :: (dd.space ++ dd.value)) r
      (withTokens rest st) = .ok false (withTokens rest st) ∧
    parseMixin specCollab fuel1 (dd.property :: dd.colon :: (dd.space ++ dd.value)) r
      (withTokens rest st) = .ok false (withTokens rest st) ∧
    parseDeclarationRest specCollab dd.property.str (dd.space ++ dd.value) r
      (withTokens rest st) = .ok () (addDeclaration r dd.toLess (withTokens rest st)) ∧
    dd.property.type = .IDENTIFIER ∧ dd.colon.type = .COLON ∧
    Css2.trimValue dd.toLess = dd.toCss := by
  obtain ⟨p, ts, c, ts1, ht, hp, hd, hc, hv, hdd⟩ := parseDeclaration_some toks rest dd hparse
  simp only [Css2.isPlainDeclaration, Bool.and_eq_true, List.isEmpty_iff, List.all_eq_true,
    decide_eq_true_eq] at hplain
  obtain ⟨⟨hgap, hval⟩, hfree⟩ := hplain
  have hprop : dd.property = p := by rw [hdd]
  have hcolon : dd.colon = c := by rw [hdd]
  have hbefore : dd.beforeColon = ts.takeWhile isSpace := by rw [hdd]
  have hspace : dd.space =
      (ts1.takeWhile isSpace).filter (fun t => decide (t.type = .WHITESPACE)) := by
    rw [hdd]; rfl
  have hts : ts = c :: ts1 := by
    have := List.takeWhile_append_dropWhile isSpace ts
    rw [← hbefore, hgap, hd] at this
    exact this.symm
  obtain ⟨hsel1, hstop, hblock, t0, v1, hv0, ht0⟩ :=
    parseSelector_declaration p c ts1 dd.value rest hp hc hv
      (fun t h => by simpa using hval t h)
  rw [hprop, hcolon, hspace]
  refine ⟨?_, ?_, ?_, ?_, hp, hc, ?_⟩
  · rw [htoks, ht, hts]
    show liftCss (Css.parseSelector (p :: c :: ts1)) st = _
    rw [hsel1]
    rfl
  · rw [parseNestedRule, if_pos]
    rw [curType_eq_headType]
    exact hblock
  · obtain ⟨key, hkey⟩ := callKey_some p (c ::
      ((ts1.takeWhile isSpace).filter (fun t => decide (t.type = .WHITESPACE)) ++ dd.value)) hp
    apply parseMixin_undefined specCollab fuel1 _ r (withTokens rest st) key _ hkey
      (processArguments_specCollab _ _)
    · apply getRuleset_none
      intro hmem
      simp only [withTokens_rulesets, List.mem_map] at hmem
      obtain ⟨x, hx, hxs⟩ := hmem
      apply hfree
      have := hsel x hx
      rw [hxs] at this
      simpa [Css2.Declaration.asSelector, hprop, hcolon, hspace] using this
    · intro M hM
      rw [withTokens_parameterRulesets, hreg] at hM
      cases hM
  · rw [parseDeclarationRest]
    have hcv : specCollab.cssParseValue (withTokens rest st).tokens = .ok (none, rest) := hstop
    rw [hcv, liftCss_ok]
    simp only [Option.getD_none, List.append_nil]
    have hsub : specCollab.processValue (withTokens rest (withTokens rest st)).scopes
        ((ts1.takeWhile isSpace).filter (fun t => decide (t.type = .WHITESPACE)) ++ dd.value) =
        .ok ((ts1.takeWhile isSpace).filter (fun t => decide (t.type = .WHITESPACE)) ++
          dd.value) := by
      show Except.ok (substitute _ _) = _
      rw [substitute_noAt]
      intro t htm
      rcases List.mem_append.1 htm with h1 | h1
      · have := (List.mem_filter.1 h1).2
        simp only [decide_eq_true_eq] at this
        rw [this]
        decide
      · exact (by simpa using hval t h1 : _ ∧ _).1
    rw [hsub]
    simp only [Css2.Declaration.toLess, hprop, hspace]
    rfl
  · simp only [Css2.trimValue, Css2.Declaration.toLess, Css2.Declaration.toCss, hspace]
    congr 1
    rw [List.dropWhile_append]
    have hall : List.dropWhile (fun t => decide (t.type = TokenType.WHITESPACE))
        ((ts1.takeWhile isSpace).filter (fun t => decide (t.type = .WHITESPACE))) = [] := by
      rw [List.dropWhile_eq_nil_iff]
      intro x hx
      exact (List.mem_filter.1 hx).2
    rw [hall]
    simp only [List.isEmpty_nil, if_true]
    rw [hv0, List.dropWhile_cons, if_neg (by simpa using ht0)]

/-- The block of declarations of the base grammar has at least one `declaration?`. -/
theorem parseDeclarations_ne_nil (fuel : Nat) (toks : List Token)
    (body : List (Option Css2.Declaration)) (rest : List Token)
    (h : Css2.parseDeclarations fuel toks = .ok (body, rest)) : body ≠ [] := by
  cases fuel with
  | zero => cases h
  | succ n =>
    rw [Css2.parseDeclarations] at h
    cases hd : Css2.parseDeclaration toks with
    | error e => rw [hd] at h; cases h
    | ok r =>
      obtain ⟨d, rest1⟩ := r
      rw [hd] at h
      simp only at h
      split at h
      · cases hr : Css2.parseDeclarations n (rest1.tail.dropWhile isSpace) with
        | error e => rw [hr] at h; cases h
        | ok r2 =>
          obtain ⟨ds, rest2⟩ := r2
          rw [hr] at h
          simp only [Except.ok.injEq, Prod.mk.injEq] at h
          rw [← h.1]
          simp
      · simp only [Except.ok.injEq, Prod.mk.injEq] at h
        rw [← h.1]
        simp

/-- A plain body whose first `declaration?` is followed by others starts with a plain
declaration, and the rest is a plain body. -/
theorem isPlainBody_cons (sels : List TokenList) (d : Option Css2.Declaration)
    (ds : List (Option Css2.Declaration)) (hne : ds ≠ [])
    (h : Css2.isPlainBody sels (d :: ds) = true) :
    (∃ dd, d = some dd ∧ Css2.isPlainDeclaration sels dd = true) ∧
      Css2.isPlainBody sels ds = true := by
  simp only [Css2.isPlainBody, List.dropLast_cons_of_ne_nil hne, List.all_cons,
    Bool.and_eq_true] at h ⊢
  obtain ⟨⟨h1, h2⟩, h3, h4⟩ := h
  cases d with
  | none => simp at h1
  | some dd => exact ⟨⟨dd, rfl, h3⟩, h2, h4⟩

/-- The body of a plain ruleset: where the base grammar reads the declarations `body` up to the
closing bracket, `parseRulesetStatement` adds them in the same order to the ruleset being built
(the last of the stylesheet) and stops at the same token; it changes nothing else. -/
theorem body_sim (sels : List TokenList) : ∀ (fuel : Nat) (toks : List Token)
    (body : List (Option Css2.Declaration)) (rest : List Token) (rs : List Ruleset)
    (S : TokenList) (ds : List Declaration) (st : State),
    Css2.parseDeclarations fuel toks = .ok (body, rest) →
    Css2.isPlainBody sels body = true → Css2.headType rest = .BRACKET_CLOSED →
    st.tokens = toks → st.parameterRulesets = [] → st.rulesets = rs ++ [⟨S, ds⟩] →
    (∀ x ∈ st.rulesets, x.selector ∈ sels) →
    ∃ b st1, parseRulesetStatement specCollab (fuel + 1) (.plain rs.length) st = .ok b st1 ∧
      st1.tokens = rest ∧ st1.parameterRulesets = [] ∧
      st1.rulesets = rs ++ [⟨S, ds ++ (body.filterMap id).map Css2.Declaration.toLess⟩] ∧
      st1.atRules = st.atRules ∧ st1.scopes = st.scopes ∧
      (∀ dd ∈ body.filterMap id, Css2.trimValue dd.toLess = dd.toCss) := by
  intro fuel
  induction fuel with
  | zero => intro toks body rest rs S ds st h; cases h
  | succ n ih =>
    intro toks body rest rs S ds st h hplain hend htoks hreg hrs hsel
    rw [Css2.parseDeclarations] at h
    cases hd : Css2.parseDeclaration toks with
    | error e => rw [hd] at h; cases h
    | ok r =>
      obtain ⟨d, rest1⟩ := r
      rw [hd] at h
      simp only at h
      by_cases hdel : Css2.headType rest1 = .DELIMITER
      · rw [if_pos hdel] at h
        cases hr : Css2.parseDeclarations n (rest1.tail.dropWhile isSpace) with
        | error e => rw [hr] at h; cases h
        | ok r2 =>
          obtain ⟨ds1, rest2⟩ := r2
          rw [hr] at h
          simp only [Except.ok.injEq, Prod.mk.injEq] at h
          obtain ⟨hb, hrest⟩ := h
          subst hb; subst hrest
          have hne := parseDeclarations_ne_nil _ _ _ _ hr
          obtain ⟨⟨dd, hdd, hpd⟩, hpb⟩ := isPlainBody_cons sels d ds1 hne hplain
          subst hdd
          obtain ⟨e1, e2, e3, e4, e5, e6, e7⟩ :=
            declaration_less sels toks rest1 dd st (.plain rs.length) n (n + 1) hd hpd htoks
              hreg hsel
          have hlast := addDeclaration_last rs S ds dd.toLess (withTokens rest1 st)
            (by simpa using hrs)
          obtain ⟨b2, st2, hcall, ht2, hr2, hrs2, ha2, hs2, htrim⟩ :=
            ih (rest1.tail.dropWhile isSpace) ds1 rest2 rs S (ds ++ [dd.toLess])
              (skipWhitespace (readNextToken
                (addDeclaration (.plain rs.length) dd.toLess (withTokens rest1 st))))
              hr hpb hend
              (by simp [skipWhitespace, readNextToken, (addDeclaration_fields _ _ _).2.2.1])
              (by simp [hlast.2, hreg])
              (by simp [hlast.1])
              (by
                intro x hx
                simp only [skipWhitespace_rulesets, readNextToken_rulesets, hlast.1] at hx
                rcases List.mem_append.1 hx with h1 | h1
                · exact hsel x (by rw [hrs]; exact List.mem_append_left _ h1)
                · simp only [List.mem_singleton] at h1
                  rw [h1]
                  exact hsel ⟨S, ds⟩ (by rw [hrs]; simp))
          refine ⟨true, st2, ?_, ht2, hr2, ?_, ?_, ?_, ?_⟩
          · rw [parseRulesetStatement, e1]
            simp only
            rw [e2]
            simp only
            rw [e3]
            simp only
            rw [if_pos ⟨e5, e6⟩, e4]
            simp only
            rw [if_pos (by
              rw [curType_eq_headType, (addDeclaration_fields _ _ _).2.2.1]
              exact hdel), hcall]
          · rw [hrs2]
            simp
          · rw [ha2]
            simp [(addDeclaration_fields _ _ _).2.2.2.1]
          · rw [hs2]
            simp [(addDeclaration_fields _ _ _).1]
          · intro x hx
            simp only [List.filterMap_cons, id_eq, List.mem_cons] at hx
            rcases hx with h1 | h1
            · rw [h1]; exact e7
            · exact htrim x h1
      · rw [if_neg hdel] at h
        simp only [Except.ok.injEq, Prod.mk.injEq] at h
        obtain ⟨hb, hrest⟩ := h
        subst hb; subst hrest
        cases d with
        | some dd =>
          have hpd : Css2.isPlainDeclaration sels dd = true := by
            simpa [Css2.isPlainBody] using hplain
          obtain ⟨e1, e2, e3, e4, e5, e6, e7⟩ :=
            declaration_less sels toks rest1 dd st (.plain rs.length) n (n + 1) hd hpd htoks
              hreg hsel
          have hlast := addDeclaration_last rs S ds dd.toLess (withTokens rest1 st)
            (by simpa using hrs)
          refine ⟨true, addDeclaration (.plain rs.length) dd.toLess (withTokens rest1 st), ?_,
            ?_, ?_, ?_, ?_, ?_, ?_⟩
          · rw [parseRulesetStatement, e1]
            simp only
            rw [e2]
            simp only
            rw [e3]
            simp only
            rw [if_pos ⟨e5, e6⟩, e4]
            simp only
            rw [if_neg (by
              rw [curType_eq_headType, (addDeclaration_fields _ _ _).2.2.1]
              exact hdel)]
          · simp [(addDeclaration_fields _ _ _).2.2.1]
          · simp [hlast.2, hreg]
          · simp [hlast.1]
          · simp [(addDeclaration_fields _ _ _).2.2.2.1]
          · simp [(addDeclaration_fields _ _ _).1]
          · intro x hx
            simp only [List.filterMap_cons, id_eq, List.filterMap_nil, List.mem_singleton] at hx
            rw [hx]; exact e7
        | none =>
          obtain ⟨hrt, hnid⟩ := parseDeclaration_none toks rest1 hd
          subst hrt
          have hsel0 : Css.parseSelector rest1 = .ok (none, rest1) := by
            have hany := parseAny_stop [] rest1 (by rw [hend]; rfl) (by rw [hend]; decide)
              (by rw [hend]; decide)
            rw [Css.parseSelector, Css.parseAnys, hany]
          refine ⟨false, withTokens rest1 st, ?_, rfl, by simpa using hreg,
            by simpa using hrs, rfl, rfl, ?_⟩
          · have hs : specCollab.parseSelector rest1 = .ok (none, rest1) := hsel0
            rw [parseRulesetStatement, htoks, hs, liftCss_ok]
            simp only
            rw [parseVariable, if_pos rfl, if_pos]
            rw [curType_eq_headType, withTokens_tokens, hend]
            decide
          · intro x hx
            simp at hx

/-- A plain ruleset: where the base grammar reads the ruleset `R`, `parseRuleset` returns true
at the same token, having appended to the stylesheet the ruleset with the selector of `R` and
its declarations in order; the registry stays empty and the scopes are those at entry. -/
theorem ruleset_sim (sels : List TokenList) (fuel : Nat) (toks : List Token)
    (R : Css2.Ruleset) (rest : List Token) (st : State)
    (h : Css2.parseRuleset fuel toks = .ok (some R, rest))
    (hplain : Css2.isPlainStatement sels (.ruleset R) = true)
    (hR : ∀ S, R.selector = some S → S ∈ sels)
    (htoks : st.tokens = toks) (hreg : st.parameterRulesets = [])
    (hsel : ∀ x ∈ st.rulesets, x.selector ∈ sels) :
    ∃ st1, parseRuleset specCollab (fuel + 1) none st = .ok true st1 ∧
      st1.tokens = rest ∧ st1.parameterRulesets = [] ∧
      st1.rulesets = st.rulesets ++ [R.toLess] ∧ st1.atRules = st.atRules ∧
      st1.scopes = st.scopes ∧ Css2.trimRuleset R.toLess = R.toCss := by
  cases fuel with
  | zero => cases h
  | succ n =>
    rw [Css2.parseRuleset] at h
    cases hs : Css.parseSelector toks with
    | error e => rw [hs] at h; cases h
    | ok r =>
      obtain ⟨selector, T1⟩ := r
      rw [hs] at h
      simp only at h
      by_cases hopen : Css2.headType T1 = .BRACKET_OPEN
      · rw [if_neg (by simp [hopen])] at h
        cases hb : Css2.parseDeclarations n (T1.tail.dropWhile isSpace) with
        | error e => rw [hb] at h; cases h
        | ok r2 =>
          obtain ⟨body, rest1⟩ := r2
          rw [hb] at h
          simp only at h
          by_cases hclose : Css2.headType rest1 = .BRACKET_CLOSED
          · rw [if_neg (by simp [hclose])] at h
            simp only [Except.ok.injEq, Prod.mk.injEq, Option.some.injEq] at h
            obtain ⟨hRe, hrest⟩ := h
            subst hRe; subst hrest
            simp only [Css2.isPlainStatement, Bool.and_eq_true] at hplain
            obtain ⟨hselp, hbody⟩ := hplain
            cases selector with
            | none => simp at hselp
            | some S =>
              simp only at hselp
              cases hlast : S.getLast? with
              | none => rw [hlast] at hselp; simp at hselp
              | some last =>
                rw [hlast] at hselp
                simp only [decide_eq_true_eq] at hselp
                have hS : S ∈ sels := hR S rfl
                obtain ⟨b, st3, hcall, ht3, hr3, hrs3, ha3, hs3, htrim⟩ :=
                  body_sim sels n (T1.tail.dropWhile isSpace) body rest1 st.rulesets S []
                    (skipWhitespace (addRuleset ⟨S, []⟩
                      (pushScope (readNextToken (withTokens T1 st)))))
                    hb hbody hclose
                    (by simp [readNextToken])
                    (by simpa using hreg)
                    (by simp)
                    (by
                      intro x hx
                      simp only [skipWhitespace_rulesets, addRuleset_rulesets,
                        pushScope_rulesets, readNextToken_rulesets, withTokens_rulesets] at hx
                      rcases List.mem_append.1 hx with h1 | h1
                      · exact hsel x h1
                      · simp only [List.mem_singleton] at h1
                        rw [h1]
                        exact hS)
                have hsp : specCollab.parseSelector st.tokens = .ok (some S, T1) := by
                  rw [htoks]; exact hs
                have hopenR : openRuleset specCollab (some S)
                    (readNextToken (withTokens T1 st)) =
                    some (.plain st.rulesets.length,
                      addRuleset ⟨S, []⟩ (pushScope (readNextToken (withTokens T1 st)))) := by
                  rw [openRuleset]
                  simp only [hlast]
                  rw [if_pos hselp]
                  rfl
                refine ⟨skipWhitespace (readNextToken (popScope st3)), ?_, ?_, ?_, ?_, ?_, ?_,
                  ?_⟩
                · rw [parseRuleset, parseRulesetHead]
                  simp only [hsp, liftCss_ok]
                  rw [if_neg (by
                    rw [curType_eq_headType, withTokens_tokens]
                    simp [hopen]), hopenR]
                  simp only
                  rw [hcall]
                  simp only
                  rw [closeRuleset, if_neg (by
                    rw [curType_eq_headType, popScope_tokens, ht3]
                    simp [hclose])]
                · simp [skipWhitespace, readNextToken, ht3]
                · simpa using hr3
                · simp [hrs3, Css2.Ruleset.toLess, Css2.Ruleset.declarations]
                · simpa using ha3
                · simp [hs3]
                · simp only [Css2.trimRuleset, Css2.Ruleset.toLess, Css2.Ruleset.toCss,
                    Css2.Ruleset.declarations, List.map_map]
                  congr 1
                  apply List.map_congr_left
                  intro dd hdd
                  exact htrim dd hdd
          · rw [if_pos (by simp [hclose])] at h
            cases h
      · rw [if_pos (by simp [hopen])] at h
        cases selector with
        | none => simp at h
        | some S => cases h

/-- Where the base grammar finds no ruleset, `parseRuleset` returns false at the same token. -/
theorem ruleset_none_sim (fuel : Nat) (toks rest : List Token) (st : State)
    (h : Css2.parseRuleset fuel toks = .ok (none, rest)) (htoks : st.tokens = toks) :
    parseRuleset specCollab (fuel + 1) none st = .ok false (withTokens rest st) := by
  cases fuel with
  | zero => cases h
  | succ n =>
    rw [Css2.parseRuleset] at h
    cases hs : Css.parseSelector toks with
    | error e => rw [hs] at h; cases h
    | ok r =>
      obtain ⟨selector, T1⟩ := r
      rw [hs] at h
      simp only at h
      have hsp : specCollab.parseSelector st.tokens = .ok (selector, T1) := by
        rw [htoks]; exact hs
      by_cases hopen : Css2.headType T1 = .BRACKET_OPEN
      · rw [if_neg (by simp [hopen])] at h
        cases hb : Css2.parseDeclarations n (T1.tail.dropWhile isSpace) with
        | error e => rw [hb] at h; cases h
        | ok r2 =>
          obtain ⟨body, rest1⟩ := r2
          rw [hb] at h
          simp only at h
          split at h
          · cases h
          · simp at h
      · rw [if_pos (by simp [hopen])] at h
        cases selector with
        | some S => cases h
        | none =>
          simp only [Except.ok.injEq, Prod.mk.injEq, true_and] at h
          subst h
          rw [parseRuleset, parseRulesetHead]
          simp only [hsp, liftCss_ok]
          rw [if_pos (by
            rw [curType_eq_headType, withTokens_tokens]
            exact hopen)]

/-- The loop `any*` of the base grammar and the loop of `parseAtRuleOrVariable`. -/
theorem anyStar_loop : ∀ (fuel : Nat) (rule : TokenList) (toks : List Token) (x : TokenList)
    (rest : List Token) (st : State),
    Css2.parseAnyStar fuel rule toks = .ok (x, rest) → st.tokens = toks →
    parseAnyLoop specCollab (fuel + 1) rule st = .ok x (withTokens rest st) := by
  intro fuel
  induction fuel with
  | zero => intro rule toks x rest st h; cases h
  | succ n ih =>
    intro rule toks x rest st h htoks
    rw [Css2.parseAnyStar] at h
    rw [parseAnyLoop]
    have hpa : specCollab.parseAny rule st.tokens = Css.parseAny rule toks := by
      rw [htoks]; rfl
    rw [hpa]
    cases hp : Css.parseAny rule toks with
    | error e => rw [hp] at h; cases h
    | ok r =>
      obtain ⟨b, x1, rest1⟩ := r
      rw [hp] at h
      cases b with
      | true =>
        simp only at h ⊢
        exact ih x1 rest1 x rest _ h rfl
      | false =>
        simp only [Except.ok.injEq, Prod.mk.injEq] at h
        obtain ⟨h1, h2⟩ := h
        subst h1; subst h2
        rfl

/-- The rule read by `any*` starts with the list given. -/
theorem anyStar_growth : ∀ (fuel : Nat) (rule : TokenList) (toks : List Token)
    (x : TokenList) (rest : List Token),
    Css2.parseAnyStar fuel rule toks = .ok (x, rest) → ∃ added, x = rule ++ added := by
  intro fuel
  induction fuel with
  | zero => intro rule toks x rest h; cases h
  | succ n ih =>
    intro rule toks x rest h
    rw [Css2.parseAnyStar] at h
    cases hp : Css.parseAny rule toks with
    | error e => rw [hp] at h; cases h
    | ok r =>
      obtain ⟨b, x1, rest1⟩ := r
      rw [hp] at h
      cases b with
      | true =>
        simp only at h
        obtain ⟨t, ts, more, _, hx1, _, _⟩ := parseAny_true rule toks x1 rest1 hp
        obtain ⟨added, hadd⟩ := ih _ _ _ _ h
        exact ⟨t :: more ++ added, by rw [hadd, hx1]; simp⟩
      | false =>
        simp only [Except.ok.injEq, Prod.mk.injEq] at h
        obtain ⟨hx1, _, _⟩ := parseAny_false rule toks x1 rest1 hp
        exact ⟨[], by rw [← h.1, hx1]; simp⟩

/-- When the rule of an at-rule does not start with a colon, neither does the token stream after
the keyword and the whitespace. -/
theorem anyStar_head (fuel : Nat) (toks : List Token) (rule : TokenList) (rest : List Token)
    (b : Bool) (rule1 : TokenList) (rest1 : List Token)
    (h : Css2.parseAnyStar fuel [] toks = .ok (rule, rest))
    (hb : Css.parseBlock rule rest = .ok (b, rule1, rest1))
    (hhead : ∀ t ts, rule1 = t :: ts → t.type ≠ .COLON) :
    Css2.headType toks ≠ .COLON := by
  intro hc
  cases fuel with
  | zero => cases h
  | succ n =>
    rw [Css2.parseAnyStar] at h
    cases hp : Css.parseAny [] toks with
    | error e => rw [hp] at h; cases h
    | ok r =>
      obtain ⟨b1, x1, rest2⟩ := r
      rw [hp] at h
      cases b1 with
      | false =>
        obtain ⟨_, _, hs, _, _⟩ := parseAny_false [] toks x1 rest2 hp
        rw [hc] at hs
        cases hs
      | true =>
        simp only at h
        obtain ⟨t, ts, more, htoks, hx1, _, _⟩ := parseAny_true [] toks x1 rest2 hp
        obtain ⟨added, hadd⟩ := anyStar_growth _ _ _ _ _ h
        have ht : t.type = .COLON := by
          rw [htoks] at hc
          exact hc
        have hrule : ∃ more1, rule1 = t :: more1 := by
          cases b with
          | true =>
            obtain ⟨t1, ts1, more1, _, _, hx, _⟩ := parseBlock_true rule rest rule1 rest1 hb
            exact ⟨more ++ added ++ t1 :: more1, by rw [hx, hadd, hx1]; simp⟩
          | false =>
            obtain ⟨hx, _, _⟩ := parseBlock_false rule rest rule1 rest1 hb
            exact ⟨more ++ added, by rw [hx, hadd, hx1]; simp⟩
        obtain ⟨more1, hm⟩ := hrule
        exact hhead t more1 hm ht

/-- A plain at-rule: where the base grammar reads the at-rule `a`, `parseAtRuleOrVariable`
returns true at the same token, having appended `a` to the at-rules of the stylesheet. -/
theorem atRule_sim (sels : List TokenList) (fuel : Nat) (toks : List Token) (a : AtRule)
    (rest : List Token) (st : State)
    (h : Css2.parseAtRule fuel toks = .ok (some a, rest))
    (hplain : Css2.isPlainStatement sels (.atRule a) = true) (htoks : st.tokens = toks) :
    ∃ st1, parseAtRuleOrVariable specCollab (fuel + 1) st = .ok true st1 ∧
      st1.tokens = rest ∧ st1.parameterRulesets = st.parameterRulesets ∧
      st1.rulesets = st.rulesets ∧ st1.atRules = st.atRules ++ [a] ∧
      st1.scopes = st.scopes := by
  cases fuel with
  | zero => cases h
  | succ n =>
    rw [Css2.parseAtRule] at h
    by_cases hat : Css2.headType toks = .ATKEYWORD
    · rw [if_neg (by simp [hat])] at h
      cases hl : Css2.parseAnyStar n [] (toks.tail.dropWhile isSpace) with
      | error e => rw [hl] at h; cases h
      | ok r =>
        obtain ⟨rule, R⟩ := r
        rw [hl] at h
        simp only at h
        cases hb : Css.parseBlock rule R with
        | error e => rw [hb] at h; cases h
        | ok r2 =>
          obtain ⟨b, rule1, R1⟩ := r2
          rw [hb] at h
          have hrule : a = ⟨Css2.headStr toks, rule1⟩ := by
            cases b with
            | true =>
              simp only [Except.ok.injEq, Prod.mk.injEq, Option.some.injEq] at h
              exact h.1.symm
            | false =>
              simp only at h
              split at h
              · cases h
              · simp only [Except.ok.injEq, Prod.mk.injEq, Option.some.injEq] at h
                exact h.1.symm
          simp only [Css2.isPlainStatement, Bool.and_eq_true, decide_eq_true_eq] at hplain
          obtain ⟨⟨hkw, hcolon⟩, himport⟩ := hplain
          have hkw1 : curStr st ≠ "" := by
            rw [curStr_eq_headStr, htoks]
            rw [hrule] at hkw
            exact hkw
          have hhead : ∀ t ts, rule1 = t :: ts → t.type ≠ .COLON := by
            intro t ts hts
            rw [hrule, hts] at hcolon
            simpa using hcolon
          have hnc : curType (skipWhitespace (readNextToken st)) ≠ .COLON := by
            rw [curType_eq_headType]
            show Css2.headType (st.tokens.tail.dropWhile isSpace) ≠ .COLON
            rw [htoks]
            exact anyStar_head n _ rule R b rule1 R1 hl hb hhead
          have hloop := anyStar_loop n [] _ rule R (skipWhitespace (readNextToken st)) hl
            (by rw [← htoks]; rfl)
          have hpb : specCollab.parseBlock rule
              (withTokens R (skipWhitespace (readNextToken st))).tokens =
              .ok (b, rule1, R1) := hb
          have hfinal : ∀ st2 : State, st2.atRules = st.atRules →
              (if curStr st = "@import" then
                (match rule1 with
                | [t] =>
                  if t.type ≠ .STRING then
                    Outcome.stop (.raised ⟨tokensToString rule1, "A string with the file path"⟩
                      st2)
                  else if isCssImport t.str then .ok true (addAtRule ⟨curStr st, rule1⟩ st2)
                  else
                    match importFileName t.str with
                    | none => .stop (.fault st2)
                    | some filename =>
                      match importFile specCollab (n + 1) filename st2 with
                      | .stop r => .stop r
                      | .ok _ st3 => .ok true st3
                | _ => .stop (.raised ⟨tokensToString rule1, "A string with the file path"⟩
                    st2))
              else .ok true (addAtRule ⟨curStr st, rule1⟩ st2)) =
              .ok true (addAtRule a st2) := by
            intro st2 _
            have hk : curStr st = Css2.headStr toks := by rw [curStr_eq_headStr, htoks]
            by_cases himp : curStr st = "@import"
            · rw [if_pos himp]
              have hak : a.keyword = "@import" := by
                rw [hrule]
                exact hk ▸ himp
              simp only [Bool.or_eq_true, decide_eq_true_eq] at himport
              rcases himport with h1 | h1
              · exact absurd hak h1
              · rw [hrule] at h1
                simp only at h1
                match rule1, h1 with
                | [t], h1 =>
                  simp only [Bool.and_eq_true, decide_eq_true_eq] at h1
                  simp only [ne_eq, h1.1, not_true_eq_false, if_false, h1.2, if_true]
                  rw [hk, hrule]
                | [], h1 => cases h1
                | _ :: _ :: _, h1 => cases h1
            · rw [if_neg himp, hrule, hk]
          cases b with
          | true =>
            simp only [Except.ok.injEq, Prod.mk.injEq, Option.some.injEq] at h
            obtain ⟨_, hrest⟩ := h
            refine ⟨addAtRule a (withTokens R1 (withTokens R (skipWhitespace (readNextToken st)))),
              ?_, by simp [hrest], by simp, by simp, by simp, by simp⟩
            rw [parseAtRuleOrVariable, if_neg (by rw [curType_eq_headType, htoks]; simp [hat]),
              parseVariable_false specCollab _ _ hkw1 hnc]
            simp only
            rw [parseAtRuleBody, hloop]
            simp only
            rw [hpb]
            simp only
            exact hfinal _ rfl
          | false =>
            simp only at h
            by_cases hdel : Css2.headType R1 = .DELIMITER
            · rw [if_neg (by simp [hdel])] at h
              simp only [Except.ok.injEq, Prod.mk.injEq, Option.some.injEq] at h
              obtain ⟨_, hrest⟩ := h
              refine ⟨addAtRule a (skipWhitespace (readNextToken
                (withTokens R1 (withTokens R (skipWhitespace (readNextToken st)))))),
                ?_, by simp [← hrest, skipWhitespace, readNextToken], by simp, by simp,
                by simp, by simp⟩
              rw [parseAtRuleOrVariable,
                if_neg (by rw [curType_eq_headType, htoks]; simp [hat]),
                parseVariable_false specCollab _ _ hkw1 hnc]
              simp only
              rw [parseAtRuleBody, hloop]
              simp only
              rw [hpb]
              simp only
              rw [if_neg (by
                intro hcontra
                apply hcontra
                exact hdel)]
              exact hfinal _ rfl
            · rw [if_pos (by simp [hdel])] at h
              cases h
    · rw [if_pos (by simp [hat])] at h
      simp at h

/-- Where the base grammar finds no at-rule, `parseAtRuleOrVariable` returns false and reads
nothing. -/
theorem atRule_none_sim (fuel : Nat) (toks rest : List Token) (st : State)
    (h : Css2.parseAtRule fuel toks = .ok (none, rest)) (htoks : st.tokens = toks) :
    parseAtRuleOrVariable specCollab (fuel + 1) st = .ok false st ∧ rest = toks := by
  cases fuel with
  | zero => cases h
  | succ n =>
    rw [Css2.parseAtRule] at h
    by_cases hat : Css2.headType toks = .ATKEYWORD
    · rw [if_neg (by simp [hat])] at h
      cases hl : Css2.parseAnyStar n [] (toks.tail.dropWhile isSpace) with
      | error e => rw [hl] at h; cases h
      | ok r =>
        obtain ⟨rule, R⟩ := r
        rw [hl] at h
        simp only at h
        cases hb : Css.parseBlock rule R with
        | error e => rw [hb] at h; cases h
        | ok r2 =>
          obtain ⟨b, rule1, R1⟩ := r2
          rw [hb] at h
          cases b with
          | true => simp at h
          | false =>
            simp only at h
            split at h
            · cases h
            · simp at h
    · rw [if_pos (by simp [hat])] at h
      simp only [Except.ok.injEq, Prod.mk.injEq, true_and] at h
      refine ⟨?_, h.symm⟩
      rw [parseAtRuleOrVariable, if_pos]
      rw [curType_eq_headType, htoks]
      exact hat

/-- A plain statement: where the base grammar reads the statement `s`, `parseStatement` returns
true at the same token, having appended the ruleset or the at-rule to the stylesheet. -/
theorem statement_sim (sels : List TokenList) (fuel : Nat) (toks : List Token)
    (s : Css2.Statement) (rest : List Token) (st : State)
    (h : Css2.parseStatement fuel toks = .ok (some s, rest))
    (hplain : Css2.isPlainStatement sels s = true)
    (hs : ∀ S ∈ Css2.selectors [s], S ∈ sels)
    (htoks : st.tokens = toks) (hreg : st.parameterRulesets = [])
    (hsel : ∀ x ∈ st.rulesets, x.selector ∈ sels) :
    ∃ st1, parseStatement specCollab (fuel + 1) st = .ok true st1 ∧
      st1.tokens = rest ∧ st1.parameterRulesets = [] ∧
      st1.rulesets = st.rulesets ++ (Css2.rulesets [s]).map Css2.Ruleset.toLess ∧
      st1.atRules = st.atRules ++ Css2.atRules [s] ∧ st1.scopes = st.scopes ∧
      ((Css2.rulesets [s]).map Css2.Ruleset.toLess).map Css2.trimRuleset =
        (Css2.rulesets [s]).map Css2.Ruleset.toCss := by
  cases fuel with
  | zero => cases h
  | succ n =>
    rw [Css2.parseStatement] at h
    cases hr : Css2.parseRuleset n toks with
    | error e => rw [hr] at h; cases h
    | ok r =>
      obtain ⟨o, R⟩ := r
      rw [hr] at h
      cases o with
      | some R0 =>
        simp only [Except.ok.injEq, Prod.mk.injEq, Option.some.injEq] at h
        obtain ⟨hs0, hrest⟩ := h
        subst hs0; subst hrest
        obtain ⟨st1, hcall, ht, hp, hrs, ha, hsc, htrim⟩ :=
          ruleset_sim sels n toks R0 R st hr hplain
            (by
              intro S hS
              apply hs
              simp [Css2.selectors, Css2.rulesets, hS])
            htoks hreg hsel
        refine ⟨st1, ?_, ht, hp, by simpa [Css2.rulesets] using hrs,
          by simpa [Css2.atRules] using ha, hsc, by simpa [Css2.rulesets] using htrim⟩
        rw [parseStatement, hcall]
      | none =>
        simp only at h
        have hnone := ruleset_none_sim n toks R st hr htoks
        cases ha : Css2.parseAtRule n R with
        | error e => rw [ha] at h; cases h
        | ok r2 =>
          obtain ⟨o2, R2⟩ := r2
          rw [ha] at h
          cases o2 with
          | none => simp at h
          | some a =>
            simp only [Except.ok.injEq, Prod.mk.injEq, Option.some.injEq] at h
            obtain ⟨hs0, hrest⟩ := h
            subst hs0; subst hrest
            obtain ⟨st1, hcall, ht, hp, hrs, haa, hsc⟩ :=
              atRule_sim sels n R a R2 (withTokens R st) ha hplain rfl
            refine ⟨st1, ?_, ht, by simpa [hreg] using hp, by simpa [Css2.rulesets] using hrs,
              by simpa [Css2.atRules] using haa, by simpa using hsc, by simp [Css2.rulesets]⟩
            rw [parseStatement, hnone]
            simp only
            rw [hcall]

/-- Where the base grammar finds no statement, `parseStatement` returns false at the same
token. -/
theorem statement_none_sim (fuel : Nat) (toks rest : List Token) (st : State)
    (h : Css2.parseStatement fuel toks = .ok (none, rest)) (htoks : st.tokens = toks) :
    parseStatement specCollab (fuel + 1) st = .ok false (withTokens rest st) := by
  cases fuel with
  | zero => cases h
  | succ n =>
    rw [Css2.parseStatement] at h
    cases hr : Css2.parseRuleset n toks with
    | error e => rw [hr] at h; cases h
    | ok r =>
      obtain ⟨o, R⟩ := r
      rw [hr] at h
      cases o with
      | some R0 => simp at h
      | none =>
        simp only at h
        have hnone := ruleset_none_sim n toks R st hr htoks
        cases ha : Css2.parseAtRule n R with
        | error e => rw [ha] at h; cases h
        | ok r2 =>
          obtain ⟨o2, R2⟩ := r2
          rw [ha] at h
          cases o2 with
          | some a => simp at h
          | none =>
            simp only [Except.ok.injEq, Prod.mk.injEq, true_and] at h
            subst h
            obtain ⟨hcall, hR⟩ := atRule_none_sim n R R2 (withTokens R st) ha rfl
            rw [parseStatement, hnone]
            simp only
            rw [hcall, hR]

/-- The statements of a plain stylesheet: where the base grammar reads the statements `items`,
the statement loop of the parser of LESS returns at the same token, having appended the rulesets
and the at-rules of `items` to the stylesheet, in order. -/
theorem statements_sim (sels : List TokenList) : ∀ (fuel : Nat) (toks : List Token)
    (items : List Css2.Statement) (rest : List Token) (st : State),
    Css2.parseStatements fuel toks = .ok (items, rest) →
    (∀ s ∈ items, Css2.isPlainStatement sels s = true) →
    (∀ S ∈ Css2.selectors items, S ∈ sels) →
    st.tokens = toks → st.parameterRulesets = [] →
    (∀ x ∈ st.rulesets, x.selector ∈ sels) →
    ∃ st1, parseStatements specCollab (fuel + 1) st = .ok () st1 ∧
      st1.tokens = rest ∧ st1.parameterRulesets = [] ∧
      st1.rulesets = st.rulesets ++ (Css2.rulesets items).map Css2.Ruleset.toLess ∧
      st1.atRules = st.atRules ++ Css2.atRules items ∧ st1.scopes = st.scopes ∧
      ((Css2.rulesets items).map Css2.Ruleset.toLess).map Css2.trimRuleset =
        (Css2.rulesets items).map Css2.Ruleset.toCss := by
  intro fuel
  induction fuel with
  | zero => intro toks items rest st h; cases h
  | succ n ih =>
    intro toks items rest st h hplain hs htoks hreg hsel
    rw [Css2.parseStatements] at h
    cases hst : Css2.parseStatement n toks with
    | error e => rw [hst] at h; cases h
    | ok r =>
      obtain ⟨o, R⟩ := r
      rw [hst] at h
      cases o with
      | none =>
        simp only [Except.ok.injEq, Prod.mk.injEq] at h
        obtain ⟨hi, hrest⟩ := h
        subst hi; subst hrest
        refine ⟨withTokens R st, ?_, rfl, by simpa using hreg, by simp [Css2.rulesets],
          by simp [Css2.atRules], rfl, by simp [Css2.rulesets]⟩
        rw [parseStatements, statement_none_sim n toks R st hst htoks]
      | some s =>
        simp only at h
        cases hrec : Css2.parseStatements n (R.dropWhile isSpace) with
        | error e => rw [hrec] at h; cases h
        | ok r2 =>
          obtain ⟨ss, R2⟩ := r2
          rw [hrec] at h
          simp only [Except.ok.injEq, Prod.mk.injEq] at h
          obtain ⟨hi, hrest⟩ := h
          subst hi; subst hrest
          have hsub : ∀ S ∈ Css2.selectors [s], S ∈ sels := by
            intro S hS
            apply hs
            simp only [Css2.selectors, Css2.rulesets, List.filterMap_cons, List.filterMap_nil,
              List.mem_filterMap] at hS ⊢
            obtain ⟨r0, hr0, hr1⟩ := hS
            refine ⟨r0, ?_, hr1⟩
            cases s with
            | ruleset r1 => simp only [List.mem_singleton] at hr0; simp [hr0]
            | atRule a => simp at hr0
          have hsub2 : ∀ S ∈ Css2.selectors ss, S ∈ sels := by
            intro S hS
            apply hs
            simp only [Css2.selectors, Css2.rulesets, List.filterMap_cons,
              List.mem_filterMap] at hS ⊢
            obtain ⟨r0, hr0, hr1⟩ := hS
            refine ⟨r0, ?_, hr1⟩
            cases s with
            | ruleset r1 => simp [hr0]
            | atRule a => simpa using hr0
          obtain ⟨st1, hcall, ht, hp, hrs, ha, hsc, htrim⟩ :=
            statement_sim sels n toks s R st hst (hplain s (List.mem_cons_self _ _)) hsub htoks
              hreg hsel
          obtain ⟨st2, hcall2, ht2, hp2, hrs2, ha2, hsc2, htrim2⟩ :=
            ih (R.dropWhile isSpace) ss R2 (skipWhitespace st1) hrec
              (fun x hx => hplain x (List.mem_cons_of_mem _ hx)) hsub2
              (by simp [skipWhitespace, ht]) (by simpa using hp)
              (by
                intro x hx
                simp only [skipWhitespace_rulesets, hrs] at hx
                rcases List.mem_append.1 hx with h1 | h1
                · exact hsel x h1
                · simp only [List.mem_map] at h1
                  obtain ⟨r0, hr0, hr1⟩ := h1
                  cases s with
                  | atRule a => simp [Css2.rulesets] at hr0
                  | ruleset r1 =>
                    simp only [Css2.rulesets, List.filterMap_cons, List.filterMap_nil,
                      List.mem_singleton] at hr0
                    subst hr0
                    rw [← hr1]
                    have hpl := hplain _ (List.mem_cons_self _ _)
                    simp only [Css2.isPlainStatement, Bool.and_eq_true] at hpl
                    cases hsl : r0.selector with
                    | none => rw [hsl] at hpl; simp at hpl
                    | some S =>
                      have hS : S ∈ sels :=
                        hsub S (by simp [Css2.selectors, Css2.rulesets, hsl])
                      simpa [Css2.Ruleset.toLess, hsl] using hS)
          have hcons_r : Css2.rulesets (s :: ss) = Css2.rulesets [s] ++ Css2.rulesets ss := by
            cases s <;> simp [Css2.rulesets]
          have hcons_a : Css2.atRules (s :: ss) = Css2.atRules [s] ++ Css2.atRules ss := by
            cases s <;> simp [Css2.atRules]
          refine ⟨st2, ?_, ht2, hp2, ?_, ?_, ?_, ?_⟩
          · rw [parseStatements, hcall]
            simp only
            exact hcall2
          · rw [hrs2, hcons_r]
            simp [hrs]
          · rw [ha2, hcons_a]
            simp [ha]
          · rw [hsc2]
            simpa using hsc
          · rw [hcons_r]
            simp only [List.map_append]
            rw [htrim, htrim2]

/-- C13 (CSS superset), as the code has it. Let the base CSS grammar read the statements `items`
from the input, and let every statement be plain (`isPlainStatement`): every ruleset has a
selector, which does not end in `)`; in every declaration the colon directly follows the
property, the value holds no at-keyword and no opening bracket, and the declaration read as a
selector is not the selector of a ruleset of the input; only the last `declaration?` of a block
is missing; no at-rule has a rule that starts with a colon, and an `@import` has one string token
with a path ending in `.css`. Then the parser of LESS (with one more unit of fuel) parses the
input to the end, and its stylesheet holds exactly the rulesets of `items`, with their selectors
and their declarations in order, and exactly the at-rules of `items`, in order; the registry of
parameter rulesets is empty. The value that it stores for a declaration is the value of the base
grammar with the whitespace following the colon kept in front: once that whitespace is removed
the rulesets are those of the base grammar. -/
theorem plain_css_refinement (fuel : Nat) (toks : List Token) (items : List Css2.Statement)
    (hbase : Css2.parseStylesheet fuel toks = .ok items)
    (hplain : ∀ s ∈ items, Css2.isPlainStatement (Css2.selectors items) s = true) :
    ∃ st, parseStylesheet specCollab (fuel + 1) (initialState toks) = .ok () st ∧
      st.rulesets = (Css2.rulesets items).map Css2.Ruleset.toLess ∧
      st.atRules = Css2.atRules items ∧ st.parameterRulesets = [] ∧
      st.rulesets.map Css2.trimRuleset = (Css2.rulesets items).map Css2.Ruleset.toCss := by
  cases fuel with
  | zero => cases hbase
  | succ n =>
    rw [Css2.parseStylesheet] at hbase
    cases hs : Css2.parseStatements n (toks.dropWhile isSpace) with
    | error e => rw [hs] at hbase; cases hbase
    | ok r =>
      obtain ⟨ss, rest⟩ := r
      rw [hs] at hbase
      simp only at hbase
      by_cases hend : Css2.headType rest = .EOS
      · rw [if_neg (by simp [hend])] at hbase
        simp only [Except.ok.injEq] at hbase
        subst hbase
        obtain ⟨st1, hcall, ht, hp, hrs, ha, _, htrim⟩ :=
          statements_sim (Css2.selectors ss) n (toks.dropWhile isSpace) ss rest
            (skipWhitespace (initialState toks)) hs hplain (fun S hS => hS) rfl rfl
            (by intro x hx; cases hx)
        refine ⟨st1, ?_, by simpa [initialState] using hrs, by simpa [initialState] using ha,
          hp, ?_⟩
        · rw [parseStylesheet, hcall]
          simp only
          rw [if_neg]
          rw [curType_eq_headType, ht]
          simp [hend]
        · have hrs1 : st1.rulesets = (Css2.rulesets ss).map Css2.Ruleset.toLess := by
            simpa [initialState] using hrs
          rw [hrs1, htrim]
      · rw [if_pos (by simp [hend])] at hbase
        cases hbase

/-- Witness for C13: a stylesheet with a pseudo-class selector, a function in a value, a media
rule with a block and an import of a `.css` file. -/
theorem plain_css_refinement_witness :
    Css2.parseStylesheet 9 Demo.plainCss = .ok Demo.plainItems ∧
    parseStylesheet specCollab (9 + 1) (initialState Demo.plainCss) = .ok () Demo.plainDone ∧
    ∃ st, parseStylesheet specCollab (9 + 1) (initialState Demo.plainCss) = .ok () st ∧
      st.rulesets = (Css2.rulesets Demo.plainItems).map Css2.Ruleset.toLess ∧
      st.atRules = Css2.atRules Demo.plainItems ∧ st.parameterRulesets = [] ∧
      st.rulesets.map Css2.trimRuleset =
        (Css2.rulesets Demo.plainItems).map Css2.Ruleset.toCss :=
  ⟨rfl, by decide!,
    plain_css_refinement 9 Demo.plainCss Demo.plainItems rfl (by decide)⟩

/-- Counterexample to C13 as stated. On each of these inputs the base grammar reads a statement
and the parser of LESS does not produce it:
* `p:lang(fr) \x7b color: red \x7d`: the base grammar reads a ruleset; the parser of LESS ends
  with no ruleset in the stylesheet (the ruleset is in the registry of parameter rulesets);
* `@page :first \x7b margin: 1in \x7d`: the base grammar reads an at-rule; the parser of LESS
  reads a variable declaration and raises;
* `a \x7b color : red \x7d`: the base grammar reads a declaration; the parser of LESS raises;
* `@import url(foo.css);` and `@import "a.css" screen;`: the base grammar reads an at-rule; the
  parser of LESS raises. -/
theorem css_superset_counterexample :
    (Css2.parseStylesheet 9 Demo.langRule =
        .ok [.ruleset ⟨some [Demo.ident "p", Demo.colon, Demo.ident "lang", Demo.lparen,
          Demo.ident "fr", Demo.rparen],
          [some ⟨Demo.ident "color", [], Demo.colon, [Demo.space], [Demo.ident "red"]⟩]⟩] ∧
      parseStylesheet specCollab 10 (initialState Demo.langRule) = .ok () Demo.langRuleDone ∧
      Demo.langRuleDone.rulesets = []) ∧
    (Css2.parseStylesheet 9 Demo.pageRule =
        .ok [.atRule ⟨"@page", [Demo.colon, Demo.ident "first", Demo.space, Demo.lbrace,
          Demo.space, Demo.ident "margin", Demo.colon, Demo.space, ⟨.DIMENSION, "1in"⟩,
          Demo.space, Demo.rbrace]⟩] ∧
      parseStylesheet specCollab 10 (initialState Demo.pageRule) =
        .stop (.raised ⟨"", "delimiter (\x27;\x27) at end of @-rule"⟩ (initialState []))) ∧
    (Css2.parseStylesheet 9 Demo.spaceColon =
        .ok [.ruleset ⟨some [Demo.ident "a"],
          [some ⟨Demo.ident "color", [Demo.space], Demo.colon, [Demo.space],
            [Demo.ident "red"]⟩]⟩] ∧
      parseStylesheet specCollab 10 (initialState Demo.spaceColon) =
        .stop (.raised ⟨"color : red", "a mixin that has been defined"⟩
          Demo.spaceColonThrow)) ∧
    (Css2.parseStylesheet 9 Demo.importUrl =
        .ok [.atRule ⟨"@import", [⟨.URL, "url(foo.css)"⟩]⟩] ∧
      parseStylesheet specCollab 10 (initialState Demo.importUrl) =
        .stop (.raised ⟨"url(foo.css)", "A string with the file path"⟩ (initialState []))) ∧
    (Css2.parseStylesheet 9 Demo.importMedia =
        .ok [.atRule ⟨"@import", [Demo.str "a.css", Demo.space, Demo.ident "screen"]⟩] ∧
      parseStylesheet specCollab 10 (initialState Demo.importMedia) =
        .stop (.raised
          ⟨tokensToString [Demo.str "a.css", Demo.space, Demo.ident "screen"],
            "A string with the file path"⟩ (initialState []))) := by
  refine ⟨⟨rfl, by decide!, rfl⟩, ⟨rfl, by decide!⟩, ⟨rfl, by decide!⟩, ⟨rfl, by decide!⟩,
    ⟨rfl, by decide!⟩⟩

/-! ## C21: trimming of the key -/

/-- The trimming loop on the reversed key reaches the empty list exactly when every token is
whitespace. -/
theorem trimKeyRev_none : ∀ (l : TokenList),
    trimKeyRev l = none ↔ ∀ t ∈ l, t.type = .WHITESPACE := by
  intro l
  induction l with
  | nil => simp [trimKeyRev]
  | cons t ts ih =>
    rw [trimKeyRev]
    by_cases ht : t.type = .WHITESPACE
    · rw [if_pos ht, ih]
      simp [ht]
    · rw [if_neg ht]
      simp [ht]

/-- What the trimming loop on the reversed key leaves: the list from its first token other than
whitespace, reversed back. -/
theorem trimKeyRev_eq_some : ∀ (l : TokenList) (k : TokenList), trimKeyRev l = some k →
    ∃ ws t rest, l = ws ++ t :: rest ∧ (∀ w ∈ ws, w.type = .WHITESPACE) ∧
      t.type ≠ .WHITESPACE ∧ k = (t :: rest).reverse := by
  intro l
  induction l with
  | nil => intro k h; simp [trimKeyRev] at h
  | cons t ts ih =>
    intro k h
    rw [trimKeyRev] at h
    by_cases ht : t.type = .WHITESPACE
    · rw [if_pos ht] at h
      obtain ⟨ws, t1, rest, hl, hws, ht1, hk⟩ := ih k h
      refine ⟨t :: ws, t1, rest, by rw [hl]; rfl, ?_, ht1, hk⟩
      intro w hw
      rcases List.mem_cons.1 hw with h1 | h1
      · rw [h1]; exact ht
      · exact hws w h1
    · rw [if_neg ht] at h
      simp only [Option.some.injEq] at h
      exact ⟨[], t, ts, rfl, (by intro w hw; cases hw), ht, h.symm⟩

/-- C21 (key trimming), refuted by the code for a key without any token other than whitespace.
The loop of lines 312-314 evaluates `key.back()` before every test and never tests whether the
key is empty:
* the key is trimmed to a key (a non-empty one, which ends in a token other than whitespace and
  is the key without the whitespace that ended it) exactly when it holds a token other than
  whitespace; otherwise the loop reaches the empty key and evaluates `back()` on it;
* so `processParameterMixin` stops on that access, in the state at entry, whenever every token
  before the first `PAREN_OPEN` is whitespace, in particular when the selector starts with
  `PAREN_OPEN` (the key is empty from the start);
* on `.a \x7b (1); \x7d` the selector `(1)` read by `parseSelector` is passed to
  `processParameterMixin`, and the parse stops there. -/
theorem key_trimming_empty_key :
    (∀ (key : TokenList), trimKey key = none ↔ ∀ t ∈ key, t.type = .WHITESPACE) ∧
    (∀ (key k : TokenList), trimKey key = some k →
      ∃ ws last, key = k ++ ws ∧ (∀ w ∈ ws, w.type = .WHITESPACE) ∧
        k.getLast? = some last ∧ last.type ≠ .WHITESPACE) ∧
    (∀ (c : Collab) (selector : TokenList) (parent : RulesetRef) (st : State),
      (∀ t ∈ (splitKey selector).1, t.type = .WHITESPACE) →
      processParameterMixin c selector parent st = .stop (.fault st)) ∧
    (∀ (c : Collab) (t : Token) (rest : TokenList) (parent : RulesetRef) (st : State),
      t.type = .PAREN_OPEN →
      (splitKey (t :: rest)).1 = [] ∧
        processParameterMixin c (t :: rest) parent st = .stop (.fault st)) ∧
    specCollab.parseSelector
      [Demo.lparen, Demo.num "1", Demo.rparen, Demo.semi, Demo.space, Demo.rbrace] =
      .ok (some Demo.selParen, Demo.parenCallAt.tokens) ∧
    callKey Demo.selParen = none ∧
    processParameterMixin specCollab Demo.selParen (.plain 0) Demo.parenCallAt =
      .stop (.fault Demo.parenCallAt) ∧
    parseStylesheet specCollab 8 (initialState Demo.parenCall) =
      .stop (.fault Demo.parenCallAt) := by
  have hnone : ∀ (key : TokenList), trimKey key = none ↔ ∀ t ∈ key, t.type = .WHITESPACE := by
    intro key
    rw [trimKey, trimKeyRev_none]
    simp
  have hfault : ∀ (c : Collab) (selector : TokenList) (parent : RulesetRef) (st : State),
      (∀ t ∈ (splitKey selector).1, t.type = .WHITESPACE) →
      processParameterMixin c selector parent st = .stop (.fault st) := by
    intro c selector parent st h
    have hk : callKey selector = none := by
      rw [callKey]
      exact (hnone _).2 h
    rw [processParameterMixin, hk]
  refine ⟨hnone, ?_, hfault, ?_, rfl, by decide, by decide, by decide!⟩
  · intro key k h
    rw [trimKey] at h
    obtain ⟨ws, t, rest, hl, hws, ht, hk⟩ := trimKeyRev_eq_some _ _ h
    have hkey : key = (t :: rest).reverse ++ ws.reverse := by
      have := congrArg List.reverse hl
      simpa using this
    refine ⟨ws.reverse, t, by rw [hkey, hk], ?_, ?_, ht⟩
    · intro w hw
      exact hws w (List.mem_reverse.1 hw)
    · rw [hk]
      simp
  · intro c t rest parent st ht
    have hs : (splitKey (t :: rest)).1 = [] := by
      rw [splitKey, if_pos ht]
    refine ⟨hs, hfault c (t :: rest) parent st ?_⟩
    rw [hs]
    intro u hu
    cases hu

end Less
